import Mathlib

/-!
Mun Hashtable: a shallow embedding of `hashtable.c` / `hashtable.h`

The table is an open-addressing hash table with linear probing.  A bucket is a
record `{_key, _value, _hash}`; a hash tag of `0` marks an empty bucket.

Representation choices of the embedding:

* keys and values are fixed-width byte blocks; they are represented by the
  natural number they encode, so zero-filled memory (`calloc`, `memset 0`) is `0`;
* the pair `(_buckets, _num_buckets)` is a `List Bucket` whose length is
  `_num_buckets`;
* `size_t` is 64 bits wide; arithmetic that can wrap carries an explicit
  `% 2 ^ 64`.  The source also supports 32-bit builds; for these the insert is
  given a second time with its arithmetic modulo `2 ^ 32` (`_hashtable_insert32`
  and the definitions it uses; the rehash, which has no arithmetic that can
  wrap, is shared);
* a `for (;;)` loop is a recursive function with a fuel argument; running out of
  fuel, a failed `assert` and undefined behaviour are distinct outcomes.  The
  loops of insert and find stop after one round of the array (by their `assert`
  or wraparound test) and are given that much fuel, which is shown to suffice
  (`insert_fuel`, `find_returns`); the iteration reads past the array at the
  latest after one pass and is bounded in the same way; erase takes its fuel as
  an argument.
-/

namespace MunHashtable

/-- The modulus of `size_t` arithmetic on a 64-bit build. -/
def SIZE_MOD : Nat := 2 ^ 64

/-- The constant `HASHTABLE_LOAD_FACTOR` of `hashtable.c`. -/
def HASHTABLE_LOAD_FACTOR : Nat := 70

/-- The constant `HASHTABLE_GROWTH_FACTOR` of `hashtable.c`. -/
def HASHTABLE_GROWTH_FACTOR : Nat := 2

/-- One bucket, the struct of `_hashtable_body`: key, value and hash tag. -/
structure Bucket where
  key : Nat
  value : Nat
  hash : Nat
  deriving DecidableEq, Repr

/-- A zero-filled bucket, as produced by `calloc` and by `memset(bucket, 0, bucket_size)`. -/
def Bucket.zero : Bucket := ⟨0, 0, 0⟩

/-- The table struct of `_hashtable_body`: the bucket array (its length is
`_num_buckets`) and `_num_values`. -/
structure Table where
  buckets : List Bucket
  num_values : Nat
  deriving DecidableEq, Repr

/-- The macro `hashtable_num_buckets`. -/
def hashtable_num_buckets (t : Table) : Nat := t.buckets.length

/-- The macro `hashtable_num_values`. -/
def hashtable_num_values (t : Table) : Nat := t.num_values

/-- How a call ends: it returns a result, it executes undefined behaviour
(division by zero, read outside the array), an `assert` fails, or the fuel of
the model runs out (the loop is still running). -/
inductive Outcome (α : Type) where
  | ret (a : α) : Outcome α
  | undefined : Outcome α
  | assert_failed : Outcome α
  | out_of_fuel : Outcome α
  deriving DecidableEq, Repr

/-- The default comparison `hashtable_compare_keys` (`memcmp`): `0` exactly when
the keys are equal.  Only whether the result is zero is observed by the table. -/
def hashtable_compare_keys (a b : Nat) : Int := if a = b then 0 else 1

/-- The default `hashtable_copy_key` (`memcpy`, returns `0`): given the old
content of the destination and the source, the new destination and the return
code. -/
def hashtable_copy_key (_dst src : Nat) : Nat × Int := (src, 0)

/-- The function `_hashtable_init`.  `calloc_ok` tells whether `calloc` returned
a non-null pointer.  On failure (`!ret && num`) the error code is `1` and no
table is produced. -/
def _hashtable_init (calloc_ok : Bool) (num : Nat) : Nat × Option Table :=
  if calloc_ok = false ∧ num ≠ 0 then (1, none)
  else (0, some ⟨List.replicate num Bucket.zero, 0⟩)

/-- The function `_hashtable_clear`.  `free_key` tells whether a key-freeing
function was passed; the second component lists the keys it was called on, in
call order.  Only the hash tag of a bucket is zeroed. -/
def _hashtable_clear (t : Table) (free_key : Bool) : Table × List Nat :=
  if free_key = false then
    (⟨t.buckets.map (fun b => { b with hash := 0 }), 0⟩, [])
  else
    (⟨t.buckets.map (fun b => if b.hash ≠ 0 then { b with hash := 0 } else b), 0⟩,
      (t.buckets.filter (fun b => decide (b.hash ≠ 0))).map (fun b => b.key))

/-- The growth test of `_hashtable_insert`:
`!*num_buckets || (size_t)100 * (*num_values) / (*num_buckets) >= HASHTABLE_LOAD_FACTOR`. -/
def needs_resize (num_buckets num_values : Nat) : Bool :=
  decide (num_buckets = 0) ||
    decide (HASHTABLE_LOAD_FACTOR ≤ (100 * num_values % SIZE_MOD) / num_buckets)

/-- The new capacity computed by `_hashtable_insert`. -/
def num_new_buckets (num_buckets : Nat) : Nat :=
  let n := (num_buckets * (HASHTABLE_GROWTH_FACTOR * 100) % SIZE_MOD) / 100
  if n = 0 then 8
  else if n = num_buckets then 2 * num_buckets % SIZE_MOD
  else n

/-- The inner loop of the rehash in `_hashtable_insert`: from `j`, find the first
empty bucket of the new array and copy the old bucket there; the `assert` fails
when the probe comes back to `start`. -/
def rehash_place (fuel : Nat) (new_buckets : List Bucket) (old_bucket : Bucket)
    (start j : Nat) : Outcome (List Bucket) :=
  match fuel with
  | 0 => .out_of_fuel
  | fuel + 1 =>
    match new_buckets[j]? with
    | none => .undefined
    | some new_bucket =>
      if new_bucket.hash = 0 then .ret (new_buckets.set j old_bucket)
      else
        let j1 := (j + 1) % new_buckets.length
        if j1 = start then .assert_failed
        else rehash_place fuel new_buckets old_bucket start j1

/-- The outer loop of the rehash: every old bucket in index order, skipping the
empty ones.  The inner loop is bounded by its `assert`, so it is given as much
fuel as the new array has buckets. -/
def rehash (old_buckets new_buckets : List Bucket) : Outcome (List Bucket) :=
  match old_buckets with
  | [] => .ret new_buckets
  | old_bucket :: rest =>
    if old_bucket.hash = 0 then rehash rest new_buckets
    else
      match rehash_place new_buckets.length new_buckets old_bucket
          (old_bucket.hash % new_buckets.length) (old_bucket.hash % new_buckets.length) with
      | .ret nb => rehash rest nb
      | .undefined => .undefined
      | .assert_failed => .assert_failed
      | .out_of_fuel => .out_of_fuel

/-- The probe loop of `_hashtable_insert`.  Returns the error code and the table. -/
def insert_probe (fuel : Nat) (buckets : List Bucket) (num_values : Nat)
    (key hash value : Nat) (compare_keys : Nat → Nat → Int)
    (copy_key : Nat → Nat → Nat × Int) (bucket_index i : Nat) : Outcome (Nat × Table) :=
  match fuel with
  | 0 => .out_of_fuel
  | fuel + 1 =>
    match buckets[i]? with
    | none => .undefined
    | some bucket =>
      if bucket.hash = 0 then
        if (copy_key bucket.key key).2 ≠ 0 then
          .ret (3, ⟨buckets.set i { bucket with key := (copy_key bucket.key key).1 }, num_values⟩)
        else
          .ret (0, ⟨buckets.set i ⟨(copy_key bucket.key key).1, value, hash⟩,
            (num_values + 1) % SIZE_MOD⟩)
      else if compare_keys bucket.key key = 0 then .ret (2, ⟨buckets, num_values⟩)
      else
        let i1 := (i + 1) % buckets.length
        if i1 = bucket_index then .assert_failed
        else insert_probe fuel buckets num_values key hash value compare_keys copy_key
          bucket_index i1

/-- The function `_hashtable_insert`.  `calloc_ok` tells whether the `calloc` of
the new array (if one is requested) succeeds.  Returns the error code written to
`*ret_err` and the table.  Both loops are bounded by their `assert`, so each gets
as much fuel as the array it probes has buckets. -/
def _hashtable_insert (calloc_ok : Bool) (t : Table) (key hash value : Nat)
    (compare_keys : Nat → Nat → Int) (copy_key : Nat → Nat → Nat × Int) :
    Outcome (Nat × Table) :=
  if hash = 0 then .ret (1, t)
  else if needs_resize t.buckets.length t.num_values = true then
    if calloc_ok = false then .ret (4, t)
    else
      match rehash t.buckets (List.replicate (num_new_buckets t.buckets.length) Bucket.zero) with
      | .ret nb =>
        insert_probe nb.length nb t.num_values key hash value compare_keys copy_key
          (hash % nb.length) (hash % nb.length)
      | .undefined => .undefined
      | .assert_failed => .assert_failed
      | .out_of_fuel => .out_of_fuel
  else
    insert_probe t.buckets.length t.buckets t.num_values key hash value compare_keys copy_key
      (hash % t.buckets.length) (hash % t.buckets.length)

/-- The macro `hashtable_insert`: insert with the default comparison and copy. -/
def hashtable_insert (calloc_ok : Bool) (t : Table) (key hash value : Nat) :
    Outcome (Nat × Table) :=
  _hashtable_insert calloc_ok t key hash value hashtable_compare_keys hashtable_copy_key

/-- The probe loop of `_hashtable_find`.  The result is the index of the bucket
whose value field the returned pointer refers to, or `none` for a null pointer. -/
def find_loop (fuel : Nat) (buckets : List Bucket) (key : Nat)
    (compare_keys : Nat → Nat → Int) (bucket_index i : Nat) : Outcome (Option Nat) :=
  match fuel with
  | 0 => .out_of_fuel
  | fuel + 1 =>
    match buckets[i]? with
    | none => .undefined
    | some bucket =>
      if bucket.hash = 0 then .ret none
      else if compare_keys bucket.key key = 0 then .ret (some i)
      else
        let i1 := (i + 1) % buckets.length
        if i1 = bucket_index then .ret none
        else find_loop fuel buckets key compare_keys bucket_index i1

/-- The function `_hashtable_find`.  The loop returns when the probe comes back to
its start, so it is given as much fuel as there are buckets. -/
def _hashtable_find (key hash : Nat) (buckets : List Bucket)
    (compare_keys : Nat → Nat → Int) : Outcome (Option Nat) :=
  if buckets.length = 0 then .ret none
  else find_loop buckets.length buckets key compare_keys (hash % buckets.length)
    (hash % buckets.length)

/-- The macro `hashtable_find`, followed by a read through the returned pointer:
the value found, or `none` for a null pointer. -/
def hashtable_find (t : Table) (key hash : Nat) : Outcome (Option Nat) :=
  match _hashtable_find key hash t.buckets hashtable_compare_keys with
  | .ret (some i) => .ret (t.buckets[i]?.map (fun b => b.value))
  | .ret none => .ret none
  | .undefined => .undefined
  | .assert_failed => .assert_failed
  | .out_of_fuel => .out_of_fuel

/-- The macro `hashtable_exists`: `hashtable_find(...) ? 1 : 0`. -/
def hashtable_exists (t : Table) (key hash : Nat) : Outcome Nat :=
  match _hashtable_find key hash t.buckets hashtable_compare_keys with
  | .ret (some _) => .ret 1
  | .ret none => .ret 0
  | .undefined => .undefined
  | .assert_failed => .assert_failed
  | .out_of_fuel => .out_of_fuel

/-- The search loop of `_hashtable_erase`: the index of the first bucket, from
`i` on, whose key compares equal.  The hash tag is read but not tested. -/
def erase_search (fuel : Nat) (buckets : List Bucket) (key : Nat)
    (compare_keys : Nat → Nat → Int) (i : Nat) : Outcome Nat :=
  match fuel with
  | 0 => .out_of_fuel
  | fuel + 1 =>
    match buckets[i]? with
    | none => .undefined
    | some bucket =>
      if compare_keys bucket.key key ≠ 0 then
        erase_search fuel buckets key compare_keys ((i + 1) % buckets.length)
      else .ret i

/-- The backward-shift loop of `_hashtable_erase`. -/
def erase_shift (fuel : Nat) (buckets : List Bucket) (previous_bucket j : Nat) :
    Outcome (List Bucket) :=
  match fuel with
  | 0 => .out_of_fuel
  | fuel + 1 =>
    match buckets[j]? with
    | none => .undefined
    | some other_bucket =>
      if other_bucket.hash = 0 then .ret buckets
      else if other_bucket.hash % buckets.length ≠ j then
        erase_shift fuel
          ((buckets.set previous_bucket other_bucket).set j { other_bucket with hash := 0 })
          j ((j + 1) % buckets.length)
      else erase_shift fuel buckets previous_bucket ((j + 1) % buckets.length)

/-- The function `_hashtable_erase`.  `free_key` tells whether a key-freeing
function was passed; the second component of the result lists the keys it was
called on.  Each of the two loops may take `fuel` steps. -/
def _hashtable_erase (fuel : Nat) (t : Table) (key hash : Nat)
    (compare_keys : Nat → Nat → Int) (free_key : Bool) : Outcome (Table × List Nat) :=
  if t.num_values = 0 then .ret (t, [])
  else if t.buckets.length = 0 then .undefined
  else
    match erase_search fuel t.buckets key compare_keys (hash % t.buckets.length) with
    | .ret i =>
      match erase_shift fuel (t.buckets.set i Bucket.zero) i ((i + 1) % t.buckets.length) with
      | .ret nb =>
        .ret (⟨nb, t.num_values - 1⟩,
          if free_key = true then (t.buckets[i]?.map (fun b => b.key)).toList else [])
      | .undefined => .undefined
      | .assert_failed => .assert_failed
      | .out_of_fuel => .out_of_fuel
    | .undefined => .undefined
    | .assert_failed => .assert_failed
    | .out_of_fuel => .out_of_fuel

/-- The macro `hashtable_erase`: erase with the default comparison and no
key-freeing function. -/
def hashtable_erase (fuel : Nat) (t : Table) (key hash : Nat) : Outcome Table :=
  match _hashtable_erase fuel t key hash hashtable_compare_keys false with
  | .ret r => .ret r.1
  | .undefined => .undefined
  | .assert_failed => .assert_failed
  | .out_of_fuel => .out_of_fuel

/-- The buckets in use: those with a nonzero hash tag. -/
def live (buckets : List Bucket) : List Bucket :=
  buckets.filter (fun b => decide (b.hash ≠ 0))

/-- The `d`-th index of the probe sequence that starts at `s` in an array of `n` buckets. -/
def idx (n s d : Nat) : Nat := (s + d) % n

/-- Bucket `i` exists and is in use. -/
def occAt (bs : List Bucket) (i : Nat) : Prop := ∃ c, bs[i]? = some c ∧ c.hash ≠ 0

/-- Bucket `i` exists and is empty. -/
def emptyAt (bs : List Bucket) (i : Nat) : Prop := ∃ c, bs[i]? = some c ∧ c.hash = 0

/-- Every bucket in use is reachable from its ideal index `hash % capacity` by
forward probing without crossing an empty bucket. -/
def Chain (bs : List Bucket) : Prop :=
  ∀ p b, bs[p]? = some b → b.hash ≠ 0 →
    ∃ D, D < bs.length ∧ p = idx bs.length (b.hash % bs.length) D ∧
      ∀ d, d < D → occAt bs (idx bs.length (b.hash % bs.length) d)

/-- A well-formed table for the hash function `hf`: `_num_values` counts the
buckets in use, every bucket in use is reachable from its ideal index, its tag is
the hash of its key, and no two buckets in use hold the same key. -/
structure WF (hf : Nat → Nat) (t : Table) : Prop where
  count : t.num_values = (live t.buckets).length
  chain : Chain t.buckets
  tags : ∀ b ∈ live t.buckets, b.hash = hf b.key
  nodup : ((live t.buckets).map (fun b => b.key)).Nodup

/-- The tables built by a successful `hashtable_init` followed by successful
inserts, each key `k` under the hash `hf k`, each into a table that holds fewer
than `2 ^ 55` entries (so that the 64-bit arithmetic of the growth test does not
wrap). -/
inductive Built (hf : Nat → Nat) : Table → Prop where
  | init (c : Bool) (N : Nat) (t : Table) : _hashtable_init c N = (0, some t) → Built hf t
  | insert (c : Bool) (t : Table) (k v : Nat) (t' : Table) : Built hf t →
      t.num_values < 2 ^ 55 → hashtable_insert c t k (hf k) v = .ret (0, t') → Built hf t'

/-- The insert loop of `example/test.c`: insert the pairs one after the other,
each key `k` under the hash `hf k`, every allocation succeeding.  Returns the
error codes in call order and the final table. -/
def insert_all (hf : Nat → Nat) (t : Table) : List (Nat × Nat) → Outcome (List Nat × Table)
  | [] => .ret ([], t)
  | kv :: rest =>
    match hashtable_insert true t kv.1 (hf kv.1) kv.2 with
    | .ret r =>
      match insert_all hf r.2 rest with
      | .ret rs => .ret (r.1 :: rs.1, rs.2)
      | .undefined => .undefined
      | .assert_failed => .assert_failed
      | .out_of_fuel => .out_of_fuel
    | .undefined => .undefined
    | .assert_failed => .assert_failed
    | .out_of_fuel => .out_of_fuel

/-- The capacity after `m` successful inserts of new keys into a table of `n`
buckets that holds `nv` entries: the growth test is applied before each insert. -/
def cap_after (n nv : Nat) : Nat → Nat
  | 0 => n
  | m + 1 => cap_after (if needs_resize n nv = true then num_new_buckets n else n) (nv + 1) m

/-- The function `_hashtable_destroy`.  `free_key` tells whether a key-freeing
function was passed; the second component lists the keys it was called on, in
call order (none when `num_values` is `0`).  The array is freed and the table
struct is zero-filled: no bucket array, capacity `0`, `_num_values` `0`. -/
def _hashtable_destroy (t : Table) (free_key : Bool) : Table × List Nat :=
  (⟨[], 0⟩,
    if free_key = true ∧ t.num_values ≠ 0 then
      (t.buckets.filter (fun b => decide (b.hash ≠ 0))).map (fun b => b.key)
    else [])

/-- The `for (;;)` of `_hashtable_for_each_pair`: from bucket `i` on, skip the
empty buckets; returns the advanced index and the bucket in use that was found.
A read at an index outside the array is undefined behaviour. -/
def for_each_scan (fuel : Nat) (buckets : List Bucket) (i : Nat) : Outcome (Nat × Bucket) :=
  match fuel with
  | 0 => .out_of_fuel
  | fuel + 1 =>
    match buckets[i]? with
    | none => .undefined
    | some bucket =>
      if bucket.hash = 0 then for_each_scan fuel buckets (i + 1)
      else .ret (i + 1, bucket)

/-- The function `_hashtable_for_each_pair`: one step of the iteration from the
state `(i, j)`.  Returns the return code, the new `i` and `j`, and the key and
value written to `ret_key` and `ret_value` (none when the code is `0`).  The
scan advances `i` at every step and stops at the end of the array at the latest,
so it is given one more unit of fuel than there are buckets. -/
def _hashtable_for_each_pair (i j num_values : Nat) (buckets : List Bucket) :
    Outcome (Nat × Nat × Nat × Option (Nat × Nat)) :=
  if num_values ≤ j then .ret (0, i, j, none)
  else
    match for_each_scan (buckets.length + 1) buckets i with
    | .ret r => .ret (1, r.1, j + 1, some (r.2.key, r.2.value))
    | .undefined => .undefined
    | .assert_failed => .assert_failed
    | .out_of_fuel => .out_of_fuel

/-- The `for` loop of the macro `hashtable_for_each_pair` from the state `(i, j)`:
the pairs handed to the loop body, in order. -/
def for_each_pair_loop (fuel : Nat) (t : Table) (i j : Nat) : Outcome (List (Nat × Nat)) :=
  match fuel with
  | 0 => .out_of_fuel
  | fuel + 1 =>
    match _hashtable_for_each_pair i j t.num_values t.buckets with
    | .ret r =>
      if r.1 = 0 then .ret []
      else
        match for_each_pair_loop fuel t r.2.1 r.2.2.1 with
        | .ret rest => .ret (r.2.2.2.toList ++ rest)
        | .undefined => .undefined
        | .assert_failed => .assert_failed
        | .out_of_fuel => .out_of_fuel
    | .undefined => .undefined
    | .assert_failed => .assert_failed
    | .out_of_fuel => .out_of_fuel

/-- The macro `hashtable_for_each_pair`: the iteration starts at `(0, 0)`.  Every
step that returns `1` increments `j` and the step returns `0` once `j` reaches
`_num_values`, so the loop is given `_num_values + 1` units of fuel. -/
def hashtable_for_each_pair (t : Table) : Outcome (List (Nat × Nat)) :=
  for_each_pair_loop (t.num_values + 1) t 0 0

/-- The first `liveCount` at which a table of `2 ^ 57` buckets reaches a load of
70%: the least `n` with `70 * 2 ^ 57 ≤ 100 * n`. -/
def WRAP_COUNT : Nat := 100880631653099111

/-- A table of `2 ^ 57` buckets at a load of 70%: for `i < WRAP_COUNT`, bucket `i`
holds key `i` and value `i` under the hash `i + 2 ^ 57`, whose ideal index is
`i`; the other buckets are zero-filled.  `_num_values` is `WRAP_COUNT`. -/
def wrap_table : Table :=
  ⟨(List.range WRAP_COUNT).map (fun i => (⟨i, i, i + 2 ^ 57⟩ : Bucket)) ++
      List.replicate (2 ^ 57 - WRAP_COUNT) Bucket.zero, WRAP_COUNT⟩

/-- The table of `2 ^ 57` buckets after the first `j` entries of `wrap_table`
have been inserted: for `i < j`, bucket `i` holds key `i` and value `i` under
the hash `i + 2 ^ 57`; the other buckets are zero-filled. -/
def wrap_upto (j : Nat) : Table :=
  ⟨(List.range j).map (fun i => (⟨i, i, i + 2 ^ 57⟩ : Bucket)) ++
      List.replicate (2 ^ 57 - j) Bucket.zero, j⟩

/-- The macro `hashtable_find_ext`, followed by a read through the returned
pointer: as `hashtable_find`, with a custom comparison. -/
def hashtable_find_ext (t : Table) (key hash : Nat) (compare_keys : Nat → Nat → Int) :
    Outcome (Option Nat) :=
  match _hashtable_find key hash t.buckets compare_keys with
  | .ret (some i) => .ret (t.buckets[i]?.map (fun b => b.value))
  | .ret none => .ret none
  | .undefined => .undefined
  | .assert_failed => .assert_failed
  | .out_of_fuel => .out_of_fuel

/-- The macro `hashtable_exists_ext`: `hashtable_find_ext(...) ? 1 : 0`. -/
def hashtable_exists_ext (t : Table) (key hash : Nat) (compare_keys : Nat → Nat → Int) :
    Outcome Nat :=
  match _hashtable_find key hash t.buckets compare_keys with
  | .ret (some _) => .ret 1
  | .ret none => .ret 0
  | .undefined => .undefined
  | .assert_failed => .assert_failed
  | .out_of_fuel => .out_of_fuel

/-- The function `_hashtable_einit`: `_hashtable_init`, then `hashtable_panic()`
when the error code is nonzero.  The second component tells whether the panic
hook was called (the hook is replaceable; the default one aborts). -/
def _hashtable_einit (calloc_ok : Bool) (num : Nat) : Option Table × Bool :=
  ((_hashtable_init calloc_ok num).2, decide ((_hashtable_init calloc_ok num).1 ≠ 0))

/-- The function `_hashtable_einsert`: `_hashtable_insert`, then
`hashtable_panic()` when the error code is nonzero.  Returns the table and
whether the panic hook was called. -/
def _hashtable_einsert (calloc_ok : Bool) (t : Table) (key hash value : Nat)
    (compare_keys : Nat → Nat → Int) (copy_key : Nat → Nat → Nat × Int) :
    Outcome (Table × Bool) :=
  match _hashtable_insert calloc_ok t key hash value compare_keys copy_key with
  | .ret r => .ret (r.2, decide (r.1 ≠ 0))
  | .undefined => .undefined
  | .assert_failed => .assert_failed
  | .out_of_fuel => .out_of_fuel

/-- The 64-bit offset basis used by `hashtable_hash` and `hashtable_str_hash`. -/
def FNV_OFFSET_BASIS : Nat := 0xcbf29ce484222325

/-- The 64-bit multiplier used by `hashtable_hash` and `hashtable_str_hash`. -/
def FNV_PRIME : Nat := 0x100000001b3

/-- The loop of `hashtable_hash` (64-bit branch) from index `i`, with `n` bytes
left to read: `hash ^= key[i]; hash *= 0x100000001b3` in `size_t`.  The memory
at `key` is a list of bytes (naturals below `256`); a read outside it is
undefined behaviour. -/
def hashtable_hash_loop (key : List Nat) (n i hash : Nat) : Outcome Nat :=
  match n with
  | 0 => .ret hash
  | n + 1 =>
    match key[i]? with
    | none => .undefined
    | some byte => hashtable_hash_loop key n (i + 1) ((hash ^^^ byte) * FNV_PRIME % SIZE_MOD)

/-- The function `hashtable_hash` on a 64-bit build. -/
def hashtable_hash (key : List Nat) (size : Nat) : Outcome Nat :=
  hashtable_hash_loop key size 0 FNV_OFFSET_BASIS

/-- The value of a plain `char` holding the byte `c`, converted to `size_t` for
`hash ^= *c`: where `char` is signed (`char_signed`), a byte of `128` or more is
a negative `char` and is sign-extended to 64 bits. -/
def char_to_size_t (char_signed : Bool) (c : Nat) : Nat :=
  if char_signed = true ∧ 128 ≤ c then c + (SIZE_MOD - 256) else c

/-- The loop of `hashtable_str_hash` (64-bit branch): it stops at the first zero
byte; running off the memory at `key` without meeting one is undefined
behaviour. -/
def hashtable_str_hash_loop (char_signed : Bool) (key : List Nat) (hash : Nat) : Outcome Nat :=
  match key with
  | [] => .undefined
  | c :: rest =>
    if c = 0 then .ret hash
    else hashtable_str_hash_loop char_signed rest
      ((hash ^^^ char_to_size_t char_signed c) * FNV_PRIME % SIZE_MOD)

/-- The function `hashtable_str_hash` on a 64-bit build; `char_signed` tells
whether plain `char` is a signed type on the platform. -/
def hashtable_str_hash (char_signed : Bool) (key : List Nat) : Outcome Nat :=
  hashtable_str_hash_loop char_signed key FNV_OFFSET_BASIS

/-- The hash as the specification words it: 64-bit FNV-1a, starting from the offset basis
`0xcbf29ce484222325`, for each byte in order
`h := ((h xor byte) * 0x100000001b3) mod 2 ^ 64`. -/
def fnv1a_64 (bytes : List Nat) : Nat :=
  bytes.foldl (fun h byte => (h ^^^ byte) * 0x100000001b3 % 2 ^ 64) 0xcbf29ce484222325

/-- The behaviours bound to a typed table by `hashtable_define_ext`:
`compute_hash`, `compare_keys`, `copy_key`, and whether a `free_key` is given. -/
structure Behaviours where
  compute_hash : Nat → Nat
  compare_keys : Nat → Nat → Int
  copy_key : Nat → Nat → Nat × Int
  free_key : Bool

/-- The generated function `TABLE_insert` of `hashtable_define_ext`. -/
def TABLE_insert (B : Behaviours) (calloc_ok : Bool) (t : Table) (key value : Nat) :
    Outcome (Nat × Table) :=
  _hashtable_insert calloc_ok t key (B.compute_hash key) value B.compare_keys B.copy_key

/-- The generated function `TABLE_find` of `hashtable_define_ext`:
`hashtable_find_ext` with the bound `compare_keys`. -/
def TABLE_find (B : Behaviours) (t : Table) (key : Nat) : Outcome (Option Nat) :=
  hashtable_find_ext t key (B.compute_hash key) B.compare_keys

/-- The generated function `TABLE_exists` of `hashtable_define_ext`: it expands
`hashtable_exists`, which compares with `hashtable_compare_keys`. -/
def TABLE_exists (B : Behaviours) (t : Table) (key : Nat) : Outcome Nat :=
  hashtable_exists t key (B.compute_hash key)

/-- The behaviours of `example/str_example_typesafe.c`.  A key is a pointer to a
string; here the pointer `p` points to the string number `p % 1000`.
`compute_hash` hashes the string, `compare_keys` is `strcmp` on the strings,
`copy_key` stores a pointer to a fresh copy of the string (`malloc`, `memcpy`;
here the pointer `src + 1000`), `free_key` is given. -/
def str_behaviours : Behaviours :=
  { compute_hash := fun p => p % 1000 + 1
    compare_keys := fun a b => if a % 1000 = b % 1000 then 0 else 1
    copy_key := fun _dst src => (src + 1000, 0)
    free_key := true }

/-- The table states reachable from a successful `hashtable_init` by calls of
insert, erase and clear that return, with any arguments: any key, hash, value,
comparison, copy function, key-freeing function, allocator behaviour and error
code. -/
inductive Reachable : Table → Prop where
  | init (c : Bool) (N : Nat) (t : Table) : _hashtable_init c N = (0, some t) → Reachable t
  | insert (c : Bool) (t : Table) (k h v : Nat) (cmp : Nat → Nat → Int)
      (cpy : Nat → Nat → Nat × Int) (err : Nat) (t' : Table) : Reachable t →
      _hashtable_insert c t k h v cmp cpy = .ret (err, t') → Reachable t'
  | erase (fuel : Nat) (t : Table) (k h : Nat) (cmp : Nat → Nat → Int) (fk : Bool)
      (t' : Table) (freed : List Nat) : Reachable t →
      _hashtable_erase fuel t k h cmp fk = .ret (t', freed) → Reachable t'
  | clear (t : Table) (fk : Bool) : Reachable t → Reachable (_hashtable_clear t fk).1

/-- The modulus of `size_t` arithmetic on a 32-bit build.  The source supports
32-bit and 64-bit builds (`UINTPTR_MAX == 0xFFFFFFFF` in `hashtable.c`). -/
def SIZE_MOD32 : Nat := 2 ^ 32

/-- The growth test of `_hashtable_insert` on a 32-bit build:
`!*num_buckets || (size_t)100 * (*num_values) / (*num_buckets) >= HASHTABLE_LOAD_FACTOR`
with a 32-bit `size_t`. -/
def needs_resize32 (num_buckets num_values : Nat) : Bool :=
  decide (num_buckets = 0) ||
    decide (HASHTABLE_LOAD_FACTOR ≤ (100 * num_values % SIZE_MOD32) / num_buckets)

/-- The new capacity computed by `_hashtable_insert` on a 32-bit build. -/
def num_new_buckets32 (num_buckets : Nat) : Nat :=
  let n := (num_buckets * (HASHTABLE_GROWTH_FACTOR * 100) % SIZE_MOD32) / 100
  if n = 0 then 8
  else if n = num_buckets then 2 * num_buckets % SIZE_MOD32
  else n

/-- The probe loop of `_hashtable_insert` on a 32-bit build: as `insert_probe`,
with `(*num_values)++` in 32-bit arithmetic. -/
def insert_probe32 (fuel : Nat) (buckets : List Bucket) (num_values : Nat)
    (key hash value : Nat) (compare_keys : Nat → Nat → Int)
    (copy_key : Nat → Nat → Nat × Int) (bucket_index i : Nat) : Outcome (Nat × Table) :=
  match fuel with
  | 0 => .out_of_fuel
  | fuel + 1 =>
    match buckets[i]? with
    | none => .undefined
    | some bucket =>
      if bucket.hash = 0 then
        if (copy_key bucket.key key).2 ≠ 0 then
          .ret (3, ⟨buckets.set i { bucket with key := (copy_key bucket.key key).1 }, num_values⟩)
        else
          .ret (0, ⟨buckets.set i ⟨(copy_key bucket.key key).1, value, hash⟩,
            (num_values + 1) % SIZE_MOD32⟩)
      else if compare_keys bucket.key key = 0 then .ret (2, ⟨buckets, num_values⟩)
      else
        let i1 := (i + 1) % buckets.length
        if i1 = bucket_index then .assert_failed
        else insert_probe32 fuel buckets num_values key hash value compare_keys copy_key
          bucket_index i1

/-- The function `_hashtable_insert` on a 32-bit build: the same statements as
`_hashtable_insert`, with the growth test, the new capacity and the counter
computed modulo `2 ^ 32`.  The rehash has no `size_t` arithmetic that can wrap
and is shared with the 64-bit build. -/
def _hashtable_insert32 (calloc_ok : Bool) (t : Table) (key hash value : Nat)
    (compare_keys : Nat → Nat → Int) (copy_key : Nat → Nat → Nat × Int) :
    Outcome (Nat × Table) :=
  if hash = 0 then .ret (1, t)
  else if needs_resize32 t.buckets.length t.num_values = true then
    if calloc_ok = false then .ret (4, t)
    else
      match rehash t.buckets
          (List.replicate (num_new_buckets32 t.buckets.length) Bucket.zero) with
      | .ret nb =>
        insert_probe32 nb.length nb t.num_values key hash value compare_keys copy_key
          (hash % nb.length) (hash % nb.length)
      | .undefined => .undefined
      | .assert_failed => .assert_failed
      | .out_of_fuel => .out_of_fuel
  else
    insert_probe32 t.buckets.length t.buckets t.num_values key hash value compare_keys copy_key
      (hash % t.buckets.length) (hash % t.buckets.length)

/-- The macro `hashtable_insert` on a 32-bit build. -/
def hashtable_insert32 (calloc_ok : Bool) (t : Table) (key hash value : Nat) :
    Outcome (Nat × Table) :=
  _hashtable_insert32 calloc_ok t key hash value hashtable_compare_keys hashtable_copy_key

/-- The insert loop of `example/test.c` on a 32-bit build: as `insert_all`. -/
def insert_all32 (hf : Nat → Nat) (t : Table) : List (Nat × Nat) → Outcome (List Nat × Table)
  | [] => .ret ([], t)
  | kv :: rest =>
    match hashtable_insert32 true t kv.1 (hf kv.1) kv.2 with
    | .ret r =>
      match insert_all32 hf r.2 rest with
      | .ret rs => .ret (r.1 :: rs.1, rs.2)
      | .undefined => .undefined
      | .assert_failed => .assert_failed
      | .out_of_fuel => .out_of_fuel
    | .undefined => .undefined
    | .assert_failed => .assert_failed
    | .out_of_fuel => .out_of_fuel

/-- The first `liveCount` at which a table of `2 ^ 25` buckets reaches a load of
70%: the least `n` with `70 * 2 ^ 25 ≤ 100 * n`. -/
def WRAP_COUNT32 : Nat := 23488103

/-- The table of `2 ^ 25` buckets after the keys `0` to `j - 1` have been
inserted: for `i < j`, bucket `i` holds key `i` and value `i` under the hash
`i + 2 ^ 25`, whose ideal index is `i`; the other buckets are zero-filled. -/
def wrap32_upto (j : Nat) : Table :=
  ⟨(List.range j).map (fun i => (⟨i, i, i + 2 ^ 25⟩ : Bucket)) ++
      List.replicate (2 ^ 25 - j) Bucket.zero, j⟩

/-- A table of `2 ^ 25` buckets at a load of 70%: the table `wrap32_upto` with
`WRAP_COUNT32` entries.  With 4-byte keys and values its array takes 384 MiB. -/
def wrap32_table : Table := wrap32_upto WRAP_COUNT32

/-! ## Probe sequences -/

theorem idx_zero {n s : Nat} (hs : s < n) : idx n s 0 = s := by
  unfold idx; simpa using Nat.mod_eq_of_lt hs

theorem idx_succ (n s d : Nat) : (idx n s d + 1) % n = idx n s (d + 1) := by
  unfold idx; rw [Nat.mod_add_mod]; rfl

theorem idx_lt {n : Nat} (hn : 0 < n) (s d : Nat) : idx n s d < n := Nat.mod_lt _ hn

theorem idx_cases {n s d : Nat} (hs : s < n) (hd : d < n) :
    (s + d < n ∧ idx n s d = s + d) ∨ (n ≤ s + d ∧ idx n s d = s + d - n) := by
  unfold idx
  by_cases h : s + d < n
  · exact Or.inl ⟨h, Nat.mod_eq_of_lt h⟩
  · refine Or.inr ⟨by omega, ?_⟩
    rw [Nat.mod_eq_sub_mod (by omega), Nat.mod_eq_of_lt (by omega)]

theorem idx_ne_start {n s d : Nat} (hs : s < n) (hd0 : 0 < d) (hd : d < n) : idx n s d ≠ s := by
  rcases idx_cases hs hd with ⟨_, h⟩ | ⟨_, h⟩ <;> omega

theorem idx_inj {n s d e : Nat} (hs : s < n) (hd : d < n) (he : e < n)
    (h : idx n s d = idx n s e) : d = e := by
  rcases idx_cases hs hd with ⟨_, h1⟩ | ⟨_, h1⟩ <;>
  rcases idx_cases hs he with ⟨_, h2⟩ | ⟨_, h2⟩ <;> omega

theorem exists_idx {n s q : Nat} (hs : s < n) (hq : q < n) : ∃ D, D < n ∧ idx n s D = q := by
  by_cases h : s ≤ q
  · refine ⟨q - s, by omega, ?_⟩
    rcases idx_cases hs (show q - s < n by omega) with ⟨_, h1⟩ | ⟨_, h1⟩ <;> omega
  · refine ⟨q + n - s, by omega, ?_⟩
    rcases idx_cases hs (show q + n - s < n by omega) with ⟨_, h1⟩ | ⟨_, h1⟩ <;> omega

theorem occAt_or_emptyAt {bs : List Bucket} {i : Nat} (h : i < bs.length) :
    occAt bs i ∨ emptyAt bs i := by
  by_cases hz : (bs[i]).hash = 0
  · exact Or.inr ⟨bs[i], List.getElem?_eq_getElem h, hz⟩
  · exact Or.inl ⟨bs[i], List.getElem?_eq_getElem h, hz⟩

theorem not_occAt_of_emptyAt {bs : List Bucket} {i : Nat} (h : emptyAt bs i) : ¬ occAt bs i := by
  rintro ⟨c, hc, hne⟩
  obtain ⟨e, he, hz⟩ := h
  rw [hc] at he; cases he; exact hne hz

theorem exists_emptyAt {bs : List Bucket} (h : (live bs).length < bs.length) :
    ∃ q, q < bs.length ∧ emptyAt bs q := by
  by_contra hcon
  have hall : ∀ a ∈ bs, decide (a.hash ≠ 0) = true := by
    intro a ha
    obtain ⟨q, hq, rfl⟩ := List.mem_iff_getElem.1 ha
    by_contra hz
    exact hcon ⟨q, hq, bs[q], List.getElem?_eq_getElem hq, by simpa using hz⟩
  have : live bs = bs := List.filter_eq_self.2 hall
  rw [this] at h
  exact Nat.lt_irrefl _ h

/-- In an array with an empty bucket, every probe sequence meets a first empty bucket. -/
theorem exists_first_empty {bs : List Bucket} (h : (live bs).length < bs.length)
    {s : Nat} (hs : s < bs.length) :
    ∃ D, D < bs.length ∧ emptyAt bs (idx bs.length s D) ∧
      ∀ d, d < D → occAt bs (idx bs.length s d) := by
  obtain ⟨q, hq, hqe⟩ := exists_emptyAt h
  obtain ⟨D0, hD0, hD0q⟩ := exists_idx hs hq
  have key : ∀ E, E ≤ D0 → (∀ d, d < E → occAt bs (idx bs.length s d)) ∨
      ∃ D, D < E ∧ emptyAt bs (idx bs.length s D) ∧ ∀ d, d < D → occAt bs (idx bs.length s d) := by
    intro E
    induction E with
    | zero => intro _; exact Or.inl (fun d hd => absurd hd (Nat.not_lt_zero d))
    | succ E ih =>
      intro hE
      rcases ih (by omega) with hall | ⟨D, hD, hDe, hDo⟩
      · rcases occAt_or_emptyAt (idx_lt (by omega : 0 < bs.length) s E) with ho | he
        · left
          intro d hd
          rcases Nat.lt_succ_iff_lt_or_eq.1 hd with h1 | h1
          · exact hall d h1
          · rw [h1]; exact ho
        · exact Or.inr ⟨E, by omega, he, hall⟩
      · exact Or.inr ⟨D, by omega, hDe, hDo⟩
  rcases key D0 (Nat.le_refl _) with hall | ⟨D, hD, hDe, hDo⟩
  · exact ⟨D0, hD0, by rw [hD0q]; exact hqe, hall⟩
  · exact ⟨D, by omega, hDe, hDo⟩

/-- The rehash probe walks over buckets in use and fills the first empty one. -/
theorem rehash_place_walk {bs : List Bucket} (b : Bucket) {s D : Nat} (hs : s < bs.length)
    (hD : D < bs.length) (hocc : ∀ d, d < D → occAt bs (idx bs.length s d))
    (hemp : emptyAt bs (idx bs.length s D)) :
    ∀ (k d : Nat), d + k = D → ∀ fuel, k < fuel →
      rehash_place fuel bs b s (idx bs.length s d) = .ret (bs.set (idx bs.length s D) b) := by
  intro k
  induction k with
  | zero =>
    intro d hd fuel hf
    obtain ⟨e, he, hz⟩ := hemp
    have hdD : d = D := by omega
    subst hdD
    obtain ⟨f, rfl⟩ : ∃ f, fuel = f + 1 := ⟨fuel - 1, by omega⟩
    simp [rehash_place, he, hz]
  | succ k ih =>
    intro d hd fuel hf
    obtain ⟨c, hc, hne⟩ := hocc d (by omega)
    obtain ⟨f, rfl⟩ : ∃ f, fuel = f + 1 := ⟨fuel - 1, by omega⟩
    have hstart : idx bs.length s (d + 1) ≠ s := idx_ne_start hs (by omega) (by omega)
    simp only [rehash_place, hc, hne, if_false, idx_succ, hstart]
    exact ih (d + 1) (by omega) f (by omega)

/-- The insert probe walks over buckets in use whose key differs. -/
theorem insert_probe_walk {bs : List Bucket} (nv key hash value : Nat)
    (cmp : Nat → Nat → Int) (cpy : Nat → Nat → Nat × Int) {s D : Nat} (hs : s < bs.length)
    (hD : D < bs.length)
    (hocc : ∀ d, d < D → ∃ c, bs[idx bs.length s d]? = some c ∧ c.hash ≠ 0 ∧ cmp c.key key ≠ 0) :
    ∀ (k d : Nat), d + k = D → ∀ fuel, k < fuel →
      insert_probe fuel bs nv key hash value cmp cpy s (idx bs.length s d) =
        insert_probe (fuel - k) bs nv key hash value cmp cpy s (idx bs.length s D) := by
  intro k
  induction k with
  | zero =>
    intro d hd fuel _
    have hdD : d = D := by omega
    subst hdD
    rfl
  | succ k ih =>
    intro d hd fuel hf
    obtain ⟨c, hc, hne, hcmp⟩ := hocc d (by omega)
    obtain ⟨f, rfl⟩ : ∃ f, fuel = f + 1 := ⟨fuel - 1, by omega⟩
    have hstart : idx bs.length s (d + 1) ≠ s := idx_ne_start hs (by omega) (by omega)
    simp only [insert_probe, hc, hne, hcmp, if_false, idx_succ, hstart]
    rw [ih (d + 1) (by omega) f (by omega)]
    congr 1
    omega

/-- The find probe walks over buckets in use whose key differs. -/
theorem find_loop_walk {bs : List Bucket} (key : Nat) (cmp : Nat → Nat → Int) {s D : Nat}
    (hs : s < bs.length) (hD : D < bs.length)
    (hocc : ∀ d, d < D → ∃ c, bs[idx bs.length s d]? = some c ∧ c.hash ≠ 0 ∧ cmp c.key key ≠ 0) :
    ∀ (k d : Nat), d + k = D → ∀ fuel, k < fuel →
      find_loop fuel bs key cmp s (idx bs.length s d) =
        find_loop (fuel - k) bs key cmp s (idx bs.length s D) := by
  intro k
  induction k with
  | zero =>
    intro d hd fuel _
    have hdD : d = D := by omega
    subst hdD
    rfl
  | succ k ih =>
    intro d hd fuel hf
    obtain ⟨c, hc, hne, hcmp⟩ := hocc d (by omega)
    obtain ⟨f, rfl⟩ : ∃ f, fuel = f + 1 := ⟨fuel - 1, by omega⟩
    have hstart : idx bs.length s (d + 1) ≠ s := idx_ne_start hs (by omega) (by omega)
    simp only [find_loop, hc, hne, hcmp, if_false, idx_succ, hstart]
    rw [ih (d + 1) (by omega) f (by omega)]
    congr 1
    omega

/-! ## The fuel given to the bounded loops suffices -/

/-- After `n` steps the probe sequence is back at its start. -/
theorem idx_full {n s : Nat} (hs : s < n) : idx n s n = s := by
  unfold idx; rw [Nat.add_mod_right]; exact Nat.mod_eq_of_lt hs

/-- The rehash probe is bounded by its `assert`: with as much fuel as buckets
left to visit it never runs out of fuel. -/
theorem rehash_place_fuel (bs : List Bucket) (b : Bucket) {s : Nat} (hs : s < bs.length) :
    ∀ (k d : Nat), d + k = bs.length → d < bs.length →
      rehash_place k bs b s (idx bs.length s d) ≠ .out_of_fuel := by
  intro k
  induction k with
  | zero => intro d hd hlt; omega
  | succ k ih =>
    intro d hd hlt
    have hi : idx bs.length s d < bs.length := idx_lt (by omega) s d
    simp only [rehash_place, List.getElem?_eq_getElem hi, idx_succ]
    split
    · simp
    · split
      · simp
      · rename_i hne
        by_cases hk : d + 1 = bs.length
        · rw [hk, idx_full hs] at hne; exact absurd rfl hne
        · exact ih (d + 1) (by omega) (by omega)

/-- The insert probe is bounded by its `assert`. -/
theorem insert_probe_fuel (bs : List Bucket) (nv key hash value : Nat) (cmp : Nat → Nat → Int)
    (cpy : Nat → Nat → Nat × Int) {s : Nat} (hs : s < bs.length) :
    ∀ (k d : Nat), d + k = bs.length → d < bs.length →
      insert_probe k bs nv key hash value cmp cpy s (idx bs.length s d) ≠ .out_of_fuel := by
  intro k
  induction k with
  | zero => intro d hd hlt; omega
  | succ k ih =>
    intro d hd hlt
    have hi : idx bs.length s d < bs.length := idx_lt (by omega) s d
    simp only [insert_probe, List.getElem?_eq_getElem hi, idx_succ]
    split
    · split <;> simp
    · split
      · simp
      · split
        · simp
        · rename_i hne
          by_cases hk : d + 1 = bs.length
          · rw [hk, idx_full hs] at hne; exact absurd rfl hne
          · exact ih (d + 1) (by omega) (by omega)

/-- The find probe is bounded by its wraparound test. -/
theorem find_loop_fuel (bs : List Bucket) (key : Nat) (cmp : Nat → Nat → Int) {s : Nat}
    (hs : s < bs.length) :
    ∀ (k d : Nat), d + k = bs.length → d < bs.length →
      ∃ r, find_loop k bs key cmp s (idx bs.length s d) = .ret r := by
  intro k
  induction k with
  | zero => intro d hd hlt; omega
  | succ k ih =>
    intro d hd hlt
    have hi : idx bs.length s d < bs.length := idx_lt (by omega) s d
    simp only [find_loop, List.getElem?_eq_getElem hi, idx_succ]
    split
    · exact ⟨_, rfl⟩
    · split
      · exact ⟨_, rfl⟩
      · split
        · exact ⟨_, rfl⟩
        · rename_i hne
          by_cases hk : d + 1 = bs.length
          · rw [hk, idx_full hs] at hne; exact absurd rfl hne
          · exact ih (d + 1) (by omega) (by omega)

/-- `_hashtable_find` returns on every array, key and hash. -/
theorem find_returns (key hash : Nat) (bs : List Bucket) (cmp : Nat → Nat → Int) :
    ∃ r, _hashtable_find key hash bs cmp = .ret r := by
  unfold _hashtable_find
  split
  · exact ⟨_, rfl⟩
  · rename_i hn
    have hs : hash % bs.length < bs.length := Nat.mod_lt _ (by omega)
    have := find_loop_fuel bs key cmp hs bs.length 0 (by omega) (by omega)
    rwa [idx_zero hs] at this

/-- The capacity requested by a growth is never `0`. -/
theorem num_new_buckets_pos (n : Nat) : 0 < num_new_buckets n := by
  unfold num_new_buckets
  simp only
  split
  · omega
  · split
    · rename_i h0 h1
      have hlt : n * (HASHTABLE_GROWTH_FACTOR * 100) % SIZE_MOD < 2 ^ 64 :=
        Nat.mod_lt _ (by unfold SIZE_MOD; omega)
      generalize n * (HASHTABLE_GROWTH_FACTOR * 100) % SIZE_MOD = y at h0 h1 hlt
      have h2 : 2 * n < 2 ^ 64 := by omega
      unfold SIZE_MOD
      rw [Nat.mod_eq_of_lt h2]
      omega
    · omega

/-- The rehash probe returns an array of the same length. -/
theorem rehash_place_length {fuel : Nat} {bs r : List Bucket} {b : Bucket} {s j : Nat}
    (h : rehash_place fuel bs b s j = .ret r) : r.length = bs.length := by
  induction fuel generalizing j with
  | zero => simp [rehash_place] at h
  | succ f ih =>
    simp only [rehash_place] at h
    split at h
    · cases h
    · split at h
      · cases h; simp
      · split at h
        · cases h
        · exact ih h

/-- The rehash never runs out of fuel and keeps the length of the new array. -/
theorem rehash_fuel (old : List Bucket) : ∀ acc : List Bucket, 0 < acc.length →
    rehash old acc ≠ .out_of_fuel ∧ ∀ r, rehash old acc = .ret r → r.length = acc.length := by
  induction old with
  | nil => intro acc _; simp [rehash]
  | cons b rest ih =>
    intro acc hn
    simp only [rehash]
    split
    · exact ih acc hn
    · have hs : b.hash % acc.length < acc.length := Nat.mod_lt _ hn
      have hf := rehash_place_fuel acc b hs acc.length 0 (by omega) hn
      rw [idx_zero hs] at hf
      split
      · rename_i nb hnb
        have hl := rehash_place_length hnb
        obtain ⟨h1, h2⟩ := ih nb (by omega)
        exact ⟨h1, fun r hr => by rw [h2 r hr, hl]⟩
      · simp
      · simp
      · rename_i hx; exact absurd hx hf

/-- `_hashtable_insert` never runs out of fuel: its loops are bounded by their
`assert`s. -/
theorem insert_fuel (c : Bool) (t : Table) (k h v : Nat) (cmp : Nat → Nat → Int)
    (cpy : Nat → Nat → Nat × Int) :
    _hashtable_insert c t k h v cmp cpy ≠ .out_of_fuel := by
  unfold _hashtable_insert
  split
  · simp
  · split
    · split
      · simp
      · have hpos := num_new_buckets_pos t.buckets.length
        obtain ⟨h1, h2⟩ := rehash_fuel t.buckets
          (List.replicate (num_new_buckets t.buckets.length) Bucket.zero) (by simpa using hpos)
        split
        · rename_i nb hnb
          have hl := h2 nb hnb
          rw [List.length_replicate] at hl
          have hs : h % nb.length < nb.length := Nat.mod_lt _ (by omega)
          have := insert_probe_fuel nb t.num_values k h v cmp cpy hs nb.length 0 (by omega)
            (by omega)
          rwa [idx_zero hs] at this
        · simp
        · simp
        · rename_i hx; exact absurd hx h1
    · rename_i hr
      have hn : t.buckets.length ≠ 0 := by
        intro h0
        apply hr
        simp [needs_resize, h0]
      have hs : h % t.buckets.length < t.buckets.length := Nat.mod_lt _ (by omega)
      have := insert_probe_fuel t.buckets t.num_values k h v cmp cpy hs t.buckets.length 0
        (by omega) (by omega)
      rwa [idx_zero hs] at this

/-! ## Buckets in use, and the rehash -/

theorem live_cons_occ {b : Bucket} (bs : List Bucket) (h : b.hash ≠ 0) :
    live (b :: bs) = b :: live bs := by
  simp [live, h]

theorem live_cons_empty {b : Bucket} (bs : List Bucket) (h : b.hash = 0) :
    live (b :: bs) = live bs := by
  simp [live, h]

theorem mem_live {bs : List Bucket} {b : Bucket} :
    b ∈ live bs ↔ (∃ p : Nat, bs[p]? = some b) ∧ b.hash ≠ 0 := by
  unfold live
  rw [List.mem_filter, List.mem_iff_getElem?]
  simp

theorem live_length_le (bs : List Bucket) : (live bs).length ≤ bs.length :=
  List.length_filter_le _ _

/-- Filling an empty bucket adds exactly one bucket in use. -/
theorem live_set_perm {bs : List Bucket} {p : Nat} {b : Bucket} (he : emptyAt bs p)
    (hb : b.hash ≠ 0) : (live (bs.set p b)).Perm (b :: live bs) := by
  induction bs generalizing p with
  | nil =>
    obtain ⟨c, hc, _⟩ := he
    simp at hc
  | cons hd tl ih =>
    obtain ⟨c, hc, hz⟩ := he
    cases p with
    | zero =>
      simp at hc
      subst hc
      rw [List.set_cons_zero, live_cons_occ _ hb, live_cons_empty _ hz]
    | succ p =>
      simp at hc
      rw [List.set_cons_succ]
      have ih1 := ih (p := p) ⟨c, hc, hz⟩
      by_cases hh : hd.hash = 0
      · rw [live_cons_empty _ hh, live_cons_empty _ hh]; exact ih1
      · rw [live_cons_occ _ hh, live_cons_occ _ hh]
        exact (List.Perm.cons hd ih1).trans (List.Perm.swap b hd _)

theorem occAt_set {bs : List Bucket} {p i : Nat} (b : Bucket) (he : emptyAt bs p)
    (ho : occAt bs i) : occAt (bs.set p b) i := by
  obtain ⟨c, hc, hne⟩ := ho
  have hpi : p ≠ i := by
    rintro rfl
    exact not_occAt_of_emptyAt he ⟨c, hc, hne⟩
  exact ⟨c, by rw [List.getElem?_set_ne hpi]; exact hc, hne⟩

/-- Filling the first empty bucket of an entry's probe sequence keeps every
bucket in use reachable from its ideal index. -/
theorem chain_set {bs : List Bucket} {b : Bucket} {D : Nat} (hch : Chain bs)
    (hD : D < bs.length)
    (he : emptyAt bs (idx bs.length (b.hash % bs.length) D))
    (ho : ∀ d, d < D → occAt bs (idx bs.length (b.hash % bs.length) d)) :
    Chain (bs.set (idx bs.length (b.hash % bs.length) D) b) := by
  intro q c hq hc
  rw [List.length_set]
  by_cases hqp : idx bs.length (b.hash % bs.length) D = q
  · subst hqp
    obtain ⟨e, hee, hez⟩ := id he
    have hlt : idx bs.length (b.hash % bs.length) D < bs.length :=
      (List.getElem?_eq_some.1 hee).1
    rw [List.getElem?_set_self hlt] at hq
    cases hq
    exact ⟨D, hD, rfl, fun d hd => occAt_set _ ⟨e, hee, hez⟩ (ho d hd)⟩
  · rw [List.getElem?_set_ne hqp] at hq
    obtain ⟨E, hE, hEq, hEo⟩ := hch q c hq hc
    exact ⟨E, hE, hEq, fun d hd => occAt_set _ he (hEo d hd)⟩

/-- The rehash moves every bucket in use into the new array, when it has room. -/
theorem rehash_spec (old : List Bucket) : ∀ acc : List Bucket, Chain acc →
    (live acc).length + (live old).length < acc.length →
    ∃ r, rehash old acc = .ret r ∧ r.length = acc.length ∧ Chain r ∧
      (live r).Perm (live old ++ live acc) := by
  induction old with
  | nil =>
    intro acc hch _
    exact ⟨acc, rfl, rfl, hch, by simp [live]⟩
  | cons b rest ih =>
    intro acc hch hlen
    by_cases hb : b.hash = 0
    · rw [live_cons_empty _ hb] at hlen
      obtain ⟨r, hr, hrl, hrc, hrp⟩ := ih acc hch hlen
      refine ⟨r, ?_, hrl, hrc, ?_⟩
      · simp only [rehash, hb, if_true]; exact hr
      · rw [live_cons_empty _ hb]; exact hrp
    · rw [live_cons_occ _ hb] at hlen
      simp only [List.length_cons] at hlen
      have hn : 0 < acc.length := by omega
      have hs : b.hash % acc.length < acc.length := Nat.mod_lt _ hn
      obtain ⟨D, hD, hDe, hDo⟩ := exists_first_empty (by omega : (live acc).length < acc.length) hs
      have hwalk := rehash_place_walk b hs hD hDo hDe D 0 (by omega) acc.length hD
      rw [idx_zero hs] at hwalk
      have hperm := live_set_perm (b := b) hDe hb
      have hch1 := chain_set hch hD hDe hDo
      obtain ⟨r, hr, hrl, hrc, hrp⟩ := ih (acc.set (idx acc.length (b.hash % acc.length) D) b) hch1
        (by rw [hperm.length_eq, List.length_set]; simp only [List.length_cons]; omega)
      refine ⟨r, ?_, by rw [hrl, List.length_set], hrc, ?_⟩
      · simp only [rehash, hb, if_false, hwalk]; exact hr
      · rw [live_cons_occ _ hb]
        refine hrp.trans ?_
        refine (List.Perm.append_left _ hperm).trans ?_
        exact List.perm_middle

theorem chain_replicate (n : Nat) : Chain (List.replicate n Bucket.zero) := by
  intro p b hp hb
  rw [List.getElem?_replicate] at hp
  split at hp
  · cases hp; exact absurd rfl hb
  · cases hp

theorem live_replicate (n : Nat) : live (List.replicate n Bucket.zero) = [] := by
  unfold live
  rw [List.filter_eq_nil_iff]
  intro a ha
  rw [List.eq_of_mem_replicate ha]
  decide

/-! ## Key comparison and the growth test -/

theorem compare_ne_zero {a b : Nat} (h : a ≠ b) : hashtable_compare_keys a b ≠ 0 := by
  simp [hashtable_compare_keys, h]

theorem compare_self (a : Nat) : hashtable_compare_keys a a = 0 := by
  simp [hashtable_compare_keys]

/-- Two buckets in use with the same key are the same bucket. -/
theorem key_unique {bs : List Bucket} (hnd : ((live bs).map (fun b => b.key)).Nodup) :
    ∀ {p q : Nat} {b c : Bucket}, bs[p]? = some b → bs[q]? = some c → b.hash ≠ 0 → c.hash ≠ 0 →
      b.key = c.key → p = q := by
  induction bs with
  | nil => intro p q b c hp; simp at hp
  | cons hd tl ih =>
    have htl : ((live tl).map (fun b => b.key)).Nodup := by
      by_cases hh : hd.hash = 0
      · rw [live_cons_empty _ hh] at hnd; exact hnd
      · rw [live_cons_occ _ hh, List.map_cons] at hnd; exact (List.nodup_cons.1 hnd).2
    have hhead : ∀ {q : Nat} {c : Bucket}, hd.hash ≠ 0 → tl[q]? = some c → c.hash ≠ 0 →
        hd.key ≠ c.key := by
      intro q c hh hq hc hk
      rw [live_cons_occ _ hh, List.map_cons] at hnd
      apply (List.nodup_cons.1 hnd).1
      rw [hk]
      exact List.mem_map_of_mem _ (mem_live.2 ⟨⟨q, hq⟩, hc⟩)
    intro p q b c hp hq hb hc hk
    cases p with
    | zero =>
      cases q with
      | zero => rfl
      | succ q =>
        simp at hp hq
        subst hp
        exact absurd hk (hhead hb hq hc)
    | succ p =>
      cases q with
      | zero =>
        simp at hp hq
        subst hq
        exact absurd hk.symm (hhead hc hp hb)
      | succ q =>
        simp at hp hq
        rw [ih htl hp hq hb hc hk]

theorem needs_resize_false {n nv : Nat} (h : needs_resize n nv = false) (hnv : nv < 2 ^ 55) :
    n ≠ 0 ∧ 100 * nv < 70 * n := by
  unfold needs_resize at h
  simp only [Bool.or_eq_false_iff, decide_eq_false_iff_not] at h
  obtain ⟨h0, h1⟩ := h
  refine ⟨h0, ?_⟩
  have hmod : 100 * nv % SIZE_MOD = 100 * nv := Nat.mod_eq_of_lt (by unfold SIZE_MOD; omega)
  rw [hmod] at h1
  have h2 : 100 * nv / n < HASHTABLE_LOAD_FACTOR := by omega
  rw [Nat.div_lt_iff_lt_mul (by omega)] at h2
  unfold HASHTABLE_LOAD_FACTOR at h2
  exact h2

theorem needs_resize_true {n nv : Nat} (h : needs_resize n nv = true) (hnv : nv < 2 ^ 55) :
    num_new_buckets n = if n = 0 then 8 else 2 * n := by
  by_cases h0 : n = 0
  · subst h0; decide
  · unfold needs_resize at h
    simp only [Bool.or_eq_true, decide_eq_true_eq, h0, false_or] at h
    have hmod : 100 * nv % SIZE_MOD = 100 * nv := Nat.mod_eq_of_lt (by unfold SIZE_MOD; omega)
    rw [hmod, Nat.le_div_iff_mul_le (by omega)] at h
    unfold HASHTABLE_LOAD_FACTOR at h
    have hn : n < 2 ^ 56 := by omega
    unfold num_new_buckets
    have hx : n * (HASHTABLE_GROWTH_FACTOR * 100) % SIZE_MOD / 100 = 2 * n := by
      unfold HASHTABLE_GROWTH_FACTOR SIZE_MOD
      rw [Nat.mod_eq_of_lt (by omega)]
      omega
    simp only [hx, h0, if_false]
    rw [if_neg (by omega), if_neg (by omega)]

/-! ## Insert and find on well-formed tables -/

/-- With a nonzero hash and a successful allocation, `_hashtable_insert` is its
probe loop run on an array that holds the same buckets in use and has room. -/
theorem insert_growth {t : Table} (hch : Chain t.buckets)
    (hcount : t.num_values = (live t.buckets).length) (hnv : t.num_values < 2 ^ 55)
    (k : Nat) {h : Nat} (hh : h ≠ 0) (v : Nat) (cmp : Nat → Nat → Int)
    (cpy : Nat → Nat → Nat × Int) :
    ∃ bs, _hashtable_insert true t k h v cmp cpy =
        insert_probe bs.length bs t.num_values k h v cmp cpy (h % bs.length) (h % bs.length) ∧
      Chain bs ∧ (live bs).Perm (live t.buckets) ∧ (live bs).length < bs.length ∧
      bs.length = (if needs_resize t.buckets.length t.num_values = true then
        num_new_buckets t.buckets.length else t.buckets.length) := by
  by_cases hr : needs_resize t.buckets.length t.num_values = true
  · have hcap := needs_resize_true hr hnv
    have hle := live_length_le t.buckets
    have hroom : (live (List.replicate (num_new_buckets t.buckets.length) Bucket.zero)).length +
        (live t.buckets).length <
        (List.replicate (num_new_buckets t.buckets.length) Bucket.zero).length := by
      rw [live_replicate, List.length_replicate, hcap]
      simp only [List.length_nil]
      split <;> omega
    obtain ⟨r, hr1, hrl, hrc, hrp⟩ := rehash_spec t.buckets _ (chain_replicate _) hroom
    rw [live_replicate, List.append_nil] at hrp
    rw [List.length_replicate] at hrl
    refine ⟨r, ?_, hrc, hrp, ?_, ?_⟩
    · simp only [_hashtable_insert, hh, if_false, hr, if_true, hr1]
      simp
    · rw [hrp.length_eq, hrl, hcap]; split <;> omega
    · rw [hrl]; simp only [hr, if_true]
  · have hr' : needs_resize t.buckets.length t.num_values = false := by simpa using hr
    obtain ⟨_, hlt⟩ := needs_resize_false hr' hnv
    refine ⟨t.buckets, ?_, hch, List.Perm.refl _, by omega, by simp only [hr, if_false]; simp⟩
    simp only [_hashtable_insert, hh, if_false, hr]
    simp

/-- The probe loop of insert stores a key that is not in the table in the first
empty bucket of its probe sequence and reports success. -/
theorem insert_probe_fresh {bs : List Bucket} (hch : Chain bs)
    (hroom : (live bs).length < bs.length) {k : Nat} (habs : ∀ c ∈ live bs, c.key ≠ k)
    (nv : Nat) {h : Nat} (hh : h ≠ 0) (v : Nat) :
    ∃ p, insert_probe bs.length bs nv k h v hashtable_compare_keys hashtable_copy_key
          (h % bs.length) (h % bs.length) =
        .ret (0, ⟨bs.set p ⟨k, v, h⟩, (nv + 1) % SIZE_MOD⟩) ∧
      emptyAt bs p ∧ Chain (bs.set p ⟨k, v, h⟩) ∧
      (live (bs.set p ⟨k, v, h⟩)).Perm (⟨k, v, h⟩ :: live bs) := by
  have hn : 0 < bs.length := by omega
  have hs : h % bs.length < bs.length := Nat.mod_lt _ hn
  obtain ⟨D, hD, hDe, hDo⟩ := exists_first_empty hroom hs
  have hocc : ∀ d, d < D → ∃ c, bs[idx bs.length (h % bs.length) d]? = some c ∧ c.hash ≠ 0 ∧
      hashtable_compare_keys c.key k ≠ 0 := by
    intro d hd
    obtain ⟨c, hc, hne⟩ := hDo d hd
    exact ⟨c, hc, hne, compare_ne_zero (habs c (mem_live.2 ⟨⟨_, hc⟩, hne⟩))⟩
  have hwalk := insert_probe_walk nv k h v hashtable_compare_keys hashtable_copy_key hs hD hocc
    D 0 (by omega) bs.length hD
  rw [idx_zero hs] at hwalk
  refine ⟨idx bs.length (h % bs.length) D, ?_, hDe, ?_, live_set_perm hDe hh⟩
  · rw [hwalk]
    obtain ⟨e, he, hz⟩ := hDe
    obtain ⟨f, hf⟩ : ∃ f, bs.length - D = f + 1 := ⟨bs.length - D - 1, by omega⟩
    rw [hf]
    simp [insert_probe, he, hz, hashtable_copy_key]
  · exact chain_set (b := ⟨k, v, h⟩) hch hD hDe hDo

/-- The path from the ideal index of a bucket in use to that bucket crosses only
buckets in use that hold other keys. -/
theorem path_to_live {bs : List Bucket} (hch : Chain bs)
    (hnd : ((live bs).map (fun b => b.key)).Nodup) {p : Nat} {b : Bucket}
    (hp : bs[p]? = some b) (hb : b.hash ≠ 0) :
    ∃ D, D < bs.length ∧ p = idx bs.length (b.hash % bs.length) D ∧
      ∀ d, d < D → ∃ c, bs[idx bs.length (b.hash % bs.length) d]? = some c ∧ c.hash ≠ 0 ∧
        hashtable_compare_keys c.key b.key ≠ 0 := by
  obtain ⟨D, hD, hpD, hDo⟩ := hch p b hp hb
  have hn : 0 < bs.length := by omega
  refine ⟨D, hD, hpD, ?_⟩
  intro d hd
  obtain ⟨c, hc, hne⟩ := hDo d hd
  refine ⟨c, hc, hne, compare_ne_zero ?_⟩
  intro hk
  have heq := key_unique hnd hc hp hne hb hk
  rw [hpD] at heq
  have := idx_inj (Nat.mod_lt _ hn) (by omega) hD heq
  omega

/-- The probe loop of insert reports `2` for a key that is in the table and
changes nothing. -/
theorem insert_probe_dup {bs : List Bucket} (hch : Chain bs)
    (hnd : ((live bs).map (fun b => b.key)).Nodup) {p : Nat} {b : Bucket}
    (hp : bs[p]? = some b) (hb : b.hash ≠ 0) (nv v : Nat) :
    insert_probe bs.length bs nv b.key b.hash v hashtable_compare_keys hashtable_copy_key
        (b.hash % bs.length) (b.hash % bs.length) = .ret (2, ⟨bs, nv⟩) := by
  obtain ⟨D, hD, hpD, hocc⟩ := path_to_live hch hnd hp hb
  have hs : b.hash % bs.length < bs.length := Nat.mod_lt _ (by omega)
  have hwalk := insert_probe_walk nv b.key b.hash v hashtable_compare_keys hashtable_copy_key
    hs hD hocc D 0 (by omega) bs.length hD
  rw [idx_zero hs] at hwalk
  rw [hwalk, ← hpD]
  obtain ⟨f, hf⟩ : ∃ f, bs.length - D = f + 1 := ⟨bs.length - D - 1, by omega⟩
  rw [hf]
  simp [insert_probe, hp, hb, compare_self]

/-- Looking up the key of a bucket in use, under that bucket's tag, finds the bucket. -/
theorem find_live_bucket {bs : List Bucket} (hch : Chain bs)
    (hnd : ((live bs).map (fun b => b.key)).Nodup) {p : Nat} {b : Bucket}
    (hp : bs[p]? = some b) (hb : b.hash ≠ 0) :
    _hashtable_find b.key b.hash bs hashtable_compare_keys = .ret (some p) := by
  obtain ⟨D, hD, hpD, hocc⟩ := path_to_live hch hnd hp hb
  have hs : b.hash % bs.length < bs.length := Nat.mod_lt _ (by omega)
  have hwalk := find_loop_walk b.key hashtable_compare_keys hs hD hocc D 0 (by omega)
    bs.length hD
  rw [idx_zero hs] at hwalk
  unfold _hashtable_find
  rw [if_neg (by omega), hwalk, ← hpD]
  obtain ⟨f, hf⟩ : ∃ f, bs.length - D = f + 1 := ⟨bs.length - D - 1, by omega⟩
  rw [hf]
  simp [find_loop, hp, hb, compare_self]

/-- In a well-formed table, `hashtable_find` returns the value of every bucket in
use when asked for its key under its tag. -/
theorem find_of_live {hf : Nat → Nat} {t : Table} (hwf : WF hf t) {b : Bucket}
    (hm : b ∈ live t.buckets) : hashtable_find t b.key b.hash = .ret (some b.value) := by
  obtain ⟨⟨p, hp⟩, hb⟩ := mem_live.1 hm
  have := find_live_bucket hwf.chain hwf.nodup hp hb
  simp [hashtable_find, this, hp]

/-- Inserting a key that is not in a well-formed table succeeds, keeps the table
well-formed and adds exactly the new entry. -/
theorem insert_fresh {hf : Nat → Nat} {t : Table} (hwf : WF hf t)
    (hnv : t.num_values < 2 ^ 55) {k : Nat} (hk : hf k ≠ 0)
    (habs : ∀ c ∈ live t.buckets, c.key ≠ k) (v : Nat) :
    ∃ t', hashtable_insert true t k (hf k) v = .ret (0, t') ∧ WF hf t' ∧
      (live t'.buckets).Perm (⟨k, v, hf k⟩ :: live t.buckets) ∧
      t'.num_values = t.num_values + 1 ∧
      t'.buckets.length = (if needs_resize t.buckets.length t.num_values = true then
        num_new_buckets t.buckets.length else t.buckets.length) := by
  obtain ⟨bs, hins, hch, hperm, hroom, hlen⟩ :=
    insert_growth hwf.chain hwf.count hnv k hk v hashtable_compare_keys hashtable_copy_key
  have habs' : ∀ c ∈ live bs, c.key ≠ k := fun c hc => habs c (hperm.mem_iff.1 hc)
  obtain ⟨p, hp, _, hch', hperm'⟩ := insert_probe_fresh hch hroom habs' t.num_values hk v
  have hmod : (t.num_values + 1) % SIZE_MOD = t.num_values + 1 :=
    Nat.mod_eq_of_lt (by unfold SIZE_MOD; omega)
  have hperm2 : (live (bs.set p ⟨k, v, hf k⟩)).Perm (⟨k, v, hf k⟩ :: live t.buckets) :=
    hperm'.trans (List.Perm.cons _ hperm)
  refine ⟨⟨bs.set p ⟨k, v, hf k⟩, t.num_values + 1⟩, ?_, ⟨?_, hch', ?_, ?_⟩, hperm2, rfl, ?_⟩
  · unfold hashtable_insert
    rw [hins, hp, hmod]
  · simp only [hperm2.length_eq, List.length_cons, hwf.count]
  · intro b hb
    rcases List.mem_cons.1 (hperm2.mem_iff.1 hb) with rfl | hb'
    · rfl
    · exact hwf.tags b hb'
  · have := (hperm2.map (fun b => b.key)).nodup_iff.2
    apply this
    rw [List.map_cons, List.nodup_cons]
    refine ⟨?_, hwf.nodup⟩
    intro hmem
    obtain ⟨c, hc, hck⟩ := List.mem_map.1 hmem
    exact habs c hc hck
  · simp only [List.length_set]; exact hlen

/-- Inserting a key that is in a well-formed table reports `2`; the buckets in
use and `_num_values` are the same afterwards, and the table stays well-formed. -/
theorem insert_present {hf : Nat → Nat} {t : Table} (hwf : WF hf t)
    (hnv : t.num_values < 2 ^ 55) {b : Bucket} (hb : b ∈ live t.buckets) (v : Nat) :
    ∃ t', hashtable_insert true t b.key b.hash v = .ret (2, t') ∧ WF hf t' ∧
      (live t'.buckets).Perm (live t.buckets) ∧ t'.num_values = t.num_values := by
  have hb0 : b.hash ≠ 0 := (mem_live.1 hb).2
  obtain ⟨bs, hins, hch, hperm, _, _⟩ :=
    insert_growth hwf.chain hwf.count hnv b.key hb0 v hashtable_compare_keys hashtable_copy_key
  have hnd : ((live bs).map (fun b => b.key)).Nodup :=
    (hperm.map (fun b => b.key)).nodup_iff.2 hwf.nodup
  obtain ⟨⟨p, hp⟩, _⟩ := mem_live.1 (hperm.mem_iff.2 hb)
  have hdup := insert_probe_dup hch hnd hp hb0 t.num_values v
  refine ⟨⟨bs, t.num_values⟩, ?_, ⟨?_, hch, ?_, hnd⟩, hperm, rfl⟩
  · unfold hashtable_insert
    rw [hins, hdup]
  · simp only [hperm.length_eq, hwf.count]
  · intro c hc
    exact hwf.tags c (hperm.mem_iff.1 hc)

/-- An insert that succeeds without a successful allocation did not need one. -/
theorem insert_calloc_irrelevant {c : Bool} {t t' : Table} {k h v : Nat}
    (hs : hashtable_insert c t k h v = .ret (0, t')) :
    hashtable_insert true t k h v = .ret (0, t') := by
  cases c with
  | true => exact hs
  | false =>
    unfold hashtable_insert _hashtable_insert at hs ⊢
    by_cases hh : h = 0
    · simp [hh] at hs
    · by_cases hr : needs_resize t.buckets.length t.num_values = true
      · simp [hh, hr] at hs
      · simp only [hh, hr, if_false] at hs ⊢
        exact hs

/-- When no allocation is attempted, or the one attempted succeeds, insert
behaves as with a successful allocation. -/
theorem insert_calloc_ok {c : Bool} {t : Table}
    (hc : needs_resize t.buckets.length t.num_values = true → c = true) (k h v : Nat) :
    hashtable_insert c t k h v = hashtable_insert true t k h v := by
  cases c with
  | true => rfl
  | false =>
    have hr : needs_resize t.buckets.length t.num_values = false := by
      cases hx : needs_resize t.buckets.length t.num_values with
      | false => rfl
      | true => exact absurd (hc hx) (by decide)
    unfold hashtable_insert _hashtable_insert
    rw [hr]
    simp

/-- A successful insert into a well-formed table was the insert of a key that was
not in the table, under a nonzero hash. -/
theorem insert_success {hf : Nat → Nat} {t : Table} (hwf : WF hf t)
    (hnv : t.num_values < 2 ^ 55) {c : Bool} {k v : Nat} {t' : Table}
    (hs : hashtable_insert c t k (hf k) v = .ret (0, t')) :
    hf k ≠ 0 ∧ (∀ b ∈ live t.buckets, b.key ≠ k) ∧
      hashtable_insert true t k (hf k) v = .ret (0, t') := by
  have hs' := insert_calloc_irrelevant hs
  refine ⟨?_, ?_, hs'⟩
  · intro h0
    rw [h0] at hs'
    simp [hashtable_insert, _hashtable_insert] at hs'
  · intro b hb hbk
    obtain ⟨t2, h2, _⟩ := insert_present hwf hnv hb v
    rw [hbk, hwf.tags b hb, hbk, hs'] at h2
    simp at h2

/-- A freshly initialised table is well-formed. -/
theorem wf_init (hf : Nat → Nat) {c : Bool} {N : Nat} {t : Table}
    (h : _hashtable_init c N = (0, some t)) :
    WF hf t ∧ t = ⟨List.replicate N Bucket.zero, 0⟩ := by
  unfold _hashtable_init at h
  split at h
  · simp at h
  · simp only [Prod.mk.injEq, Option.some.injEq, true_and] at h
    subst h
    refine ⟨⟨?_, chain_replicate N, ?_, ?_⟩, rfl⟩
    · simp [live_replicate]
    · simp [live_replicate]
    · simp [live_replicate]

/-- Every table built by successful inserts is well-formed. -/
theorem built_wf {hf : Nat → Nat} {t : Table} (h : Built hf t) : WF hf t := by
  induction h with
  | init c N t h => exact (wf_init hf h).1
  | insert c t k v t' _ hnv hs ih =>
    obtain ⟨hk, habs, hs'⟩ := insert_success ih hnv hs
    obtain ⟨t2, h2, hwf2, _⟩ := insert_fresh ih hnv hk habs v
    rw [hs'] at h2
    cases h2
    exact hwf2

/-- The insert loop on new, pairwise distinct keys: every insert succeeds, the
table stays well-formed and holds all the entries. -/
theorem insert_all_spec (hf : Nat → Nat) (kvs : List (Nat × Nat)) : ∀ t : Table, WF hf t →
    (∀ kv ∈ kvs, hf kv.1 ≠ 0) → (kvs.map Prod.fst).Nodup →
    (∀ kv ∈ kvs, ∀ c ∈ live t.buckets, c.key ≠ kv.1) →
    t.num_values + kvs.length < 2 ^ 55 →
    ∃ t', insert_all hf t kvs = .ret (List.replicate kvs.length 0, t') ∧ WF hf t' ∧
      (∀ kv ∈ kvs, (⟨kv.1, kv.2, hf kv.1⟩ : Bucket) ∈ live t'.buckets) ∧
      (∀ b ∈ live t.buckets, b ∈ live t'.buckets) ∧
      (∀ b ∈ live t'.buckets, b ∈ live t.buckets ∨
        ∃ kv ∈ kvs, b = ⟨kv.1, kv.2, hf kv.1⟩) ∧
      t'.num_values = t.num_values + kvs.length ∧
      t'.buckets.length = cap_after t.buckets.length t.num_values kvs.length := by
  induction kvs with
  | nil =>
    intro t hwf _ _ _ _
    exact ⟨t, rfl, hwf, by simp, fun b hb => hb, fun b hb => Or.inl hb, rfl, rfl⟩
  | cons kv rest ih =>
    intro t hwf hh hnd habs hlen
    simp only [List.length_cons] at hlen
    rw [List.map_cons, List.nodup_cons] at hnd
    obtain ⟨t1, h1, hwf1, hperm1, hnv1, hcap1⟩ :=
      insert_fresh hwf (by omega) (hh kv (List.mem_cons_self _ _))
        (habs kv (List.mem_cons_self _ _)) kv.2
    have habs1 : ∀ kv' ∈ rest, ∀ c ∈ live t1.buckets, c.key ≠ kv'.1 := by
      intro kv' hkv' c hc
      rcases List.mem_cons.1 (hperm1.mem_iff.1 hc) with rfl | hc'
      · intro hk
        have hk' : kv.1 = kv'.1 := hk
        exact hnd.1 (by rw [hk']; exact List.mem_map_of_mem _ hkv')
      · exact habs kv' (List.mem_cons_of_mem _ hkv') c hc'
    obtain ⟨t2, h2, hwf2, hin2, hold2, hnew2, hnv2, hcap2⟩ := ih t1 hwf1
      (fun kv' hkv' => hh kv' (List.mem_cons_of_mem _ hkv')) hnd.2 habs1 (by omega)
    refine ⟨t2, ?_, hwf2, ?_, ?_, ?_, ?_, ?_⟩
    · simp only [insert_all, h1, h2, List.length_cons, List.replicate_succ]
    · intro kv' hkv'
      rcases List.mem_cons.1 hkv' with rfl | hr
      · exact hold2 _ (hperm1.mem_iff.2 (List.mem_cons_self _ _))
      · exact hin2 kv' hr
    · intro b hb
      exact hold2 b (hperm1.mem_iff.2 (List.mem_cons_of_mem _ hb))
    · intro b hb
      rcases hnew2 b hb with h | ⟨kv', hkv', rfl⟩
      · rcases List.mem_cons.1 (hperm1.mem_iff.1 h) with rfl | h'
        · exact Or.inr ⟨kv, List.mem_cons_self _ _, rfl⟩
        · exact Or.inl h'
      · exact Or.inr ⟨kv', List.mem_cons_of_mem _ hkv', rfl⟩
    · rw [hnv2, hnv1, List.length_cons]; omega
    · rw [hcap2, hnv1, hcap1, List.length_cons]; rfl

/-! ## Erase: loops that do not return -/

/-- The search loop of erase never returns when no bucket of the array, empty or
in use, holds a key that compares equal. -/
theorem erase_search_absent (bs : List Bucket) (k : Nat) (cmp : Nat → Nat → Int)
    (h : ∀ b ∈ bs, cmp b.key k ≠ 0) :
    ∀ (fuel i : Nat), i < bs.length → erase_search fuel bs k cmp i = .out_of_fuel := by
  intro fuel
  induction fuel with
  | zero => intro i _; rfl
  | succ f ih =>
    intro i hi
    have hb : cmp (bs[i]).key k ≠ 0 := h _ (List.getElem_mem hi)
    simp only [erase_search, List.getElem?_eq_getElem hi, hb, ne_eq, not_false_eq_true, if_true]
    exact ih _ (Nat.mod_lt _ (by omega))

/-- The backward shift of erase cycles for ever on a full array of three buckets
whose two remaining entries both have ideal index `0`. -/
theorem erase_shift_cycle (fuel : Nat) :
    erase_shift fuel [⟨1, 10, 6⟩, ⟨2, 20, 0⟩, ⟨2, 20, 9⟩] 1 2 = .out_of_fuel := by
  induction fuel using Nat.strong_induction_on with
  | _ fuel ih =>
    match fuel with
    | 0 => rfl
    | 1 => rfl
    | 2 => rfl
    | f + 3 =>
      have step : erase_shift (f + 3) [⟨1, 10, 6⟩, ⟨2, 20, 0⟩, ⟨2, 20, 9⟩] 1 2 =
          erase_shift f [⟨1, 10, 6⟩, ⟨2, 20, 0⟩, ⟨2, 20, 9⟩] 1 2 := by
        simp [erase_shift]
      rw [step]
      exact ih f (by omega)

/-- The backward shift of erase cycles for ever on a full array of three buckets
whose two remaining entries, under the same hash `5`, both have ideal index `2`. -/
theorem erase_shift_cycle_same_hash (fuel : Nat) :
    erase_shift fuel [⟨3, 30, 5⟩, ⟨3, 30, 0⟩, ⟨2, 20, 5⟩] 1 2 = .out_of_fuel := by
  induction fuel using Nat.strong_induction_on with
  | _ fuel ih =>
    match fuel with
    | 0 => rfl
    | 1 => rfl
    | 2 => rfl
    | f + 3 =>
      have step : erase_shift (f + 3) [⟨3, 30, 5⟩, ⟨3, 30, 0⟩, ⟨2, 20, 5⟩] 1 2 =
          erase_shift f [⟨3, 30, 5⟩, ⟨3, 30, 0⟩, ⟨2, 20, 5⟩] 1 2 := by
        simp [erase_shift]
      rw [step]
      exact ih f (by omega)

/-- The backward shift of erase cycles for ever on a full array of three buckets
after the entry at index `0` was erased and the two others have ideal index `0`. -/
theorem erase_shift_cycle_first (fuel : Nat) :
    erase_shift fuel [⟨2, 20, 6⟩, ⟨3, 30, 9⟩, ⟨3, 30, 0⟩] 2 0 = .out_of_fuel := by
  induction fuel using Nat.strong_induction_on with
  | _ fuel ih =>
    match fuel with
    | 0 => rfl
    | 1 => rfl
    | 2 => rfl
    | f + 3 =>
      have step : erase_shift (f + 3) [⟨2, 20, 6⟩, ⟨3, 30, 9⟩, ⟨3, 30, 0⟩] 2 0 =
          erase_shift f [⟨2, 20, 6⟩, ⟨3, 30, 9⟩, ⟨3, 30, 0⟩] 2 0 := by
        simp [erase_shift]
      rw [step]
      exact ih f (by omega)

/-! ## Iteration, clear, destroy and failed inserts -/

/-- The scan of the iteration stops at the next bucket in use. -/
theorem for_each_scan_spec (bs : List Bucket) : ∀ (fuel i : Nat) (b : Bucket) (tl : List Bucket),
    live (bs.drop i) = b :: tl → bs.length - i < fuel →
    ∃ i1, for_each_scan fuel bs i = .ret (i1, b) ∧ live (bs.drop i1) = tl ∧ i < i1 ∧
      i1 ≤ bs.length ∧ bs[i1 - 1]? = some b := by
  intro fuel
  induction fuel with
  | zero => intro i b tl _ hf; omega
  | succ f ih =>
    intro i b tl hl hf
    have hi : i < bs.length := by
      by_contra hge
      rw [List.drop_eq_nil_of_le (by omega)] at hl
      simp [live] at hl
    have hdrop : bs.drop i = bs[i] :: bs.drop (i + 1) := List.drop_eq_getElem_cons hi
    rw [hdrop] at hl
    by_cases hz : (bs[i]).hash = 0
    · rw [live_cons_empty _ hz] at hl
      obtain ⟨i1, h1, h2, h3, h4, h5⟩ := ih (i + 1) b tl hl (by omega)
      refine ⟨i1, ?_, h2, by omega, h4, h5⟩
      simp only [for_each_scan, List.getElem?_eq_getElem hi, hz, if_true]
      exact h1
    · rw [live_cons_occ _ hz] at hl
      simp only [List.cons.injEq] at hl
      obtain ⟨hb, htl⟩ := hl
      refine ⟨i + 1, ?_, htl, by omega, by omega, ?_⟩
      · simp only [for_each_scan, List.getElem?_eq_getElem hi, hz, if_false]
        rw [hb]
      · simp only [Nat.add_sub_cancel, List.getElem?_eq_getElem hi, hb]

/-- The iteration from a state `(i, j)` in which `j` counts the buckets in use
before `i` hands out the buckets in use from `i` on. -/
theorem for_each_pair_loop_spec (t : Table) : ∀ (fuel i j : Nat),
    j + (live (t.buckets.drop i)).length = t.num_values →
    (live (t.buckets.drop i)).length < fuel →
    for_each_pair_loop fuel t i j =
      .ret ((live (t.buckets.drop i)).map (fun b => (b.key, b.value))) := by
  intro fuel
  induction fuel with
  | zero => intro i j _ hf; omega
  | succ f ih =>
    intro i j hj hf
    cases hl : live (t.buckets.drop i) with
    | nil =>
      rw [hl] at hj
      simp only [List.length_nil, Nat.add_zero] at hj
      simp [for_each_pair_loop, _hashtable_for_each_pair, hj]
    | cons b tl =>
      rw [hl] at hj hf
      simp only [List.length_cons] at hj hf
      obtain ⟨i1, h1, h2, _, _, _⟩ :=
        for_each_scan_spec t.buckets (t.buckets.length + 1) i b tl hl (by omega)
      have hlt : ¬ t.num_values ≤ j := by omega
      have ih1 := ih i1 (j + 1) (by rw [h2]; omega) (by rw [h2]; omega)
      simp only [for_each_pair_loop, _hashtable_for_each_pair, hlt, if_false, h1]
      simp [ih1, h2]

/-- A lookup in an array without bucket in use returns not-found. -/
theorem find_all_empty (k h : Nat) {bs : List Bucket} (cmp : Nat → Nat → Int)
    (he : ∀ b ∈ bs, b.hash = 0) : _hashtable_find k h bs cmp = .ret none := by
  unfold _hashtable_find
  split
  · rfl
  · rename_i hn
    have hs : h % bs.length < bs.length := Nat.mod_lt _ (by omega)
    obtain ⟨f, hf⟩ : ∃ f, bs.length = f + 1 := ⟨bs.length - 1, by omega⟩
    have hz : (bs[h % bs.length]).hash = 0 := he _ (List.getElem_mem hs)
    rw [hf]
    simp only [find_loop]
    rw [← hf, List.getElem?_eq_getElem hs]
    simp [hz]

/-- When the find probe returns a bucket, that bucket is in use and its key
compares equal. -/
theorem find_loop_some {bs : List Bucket} {k : Nat} {cmp : Nat → Nat → Int} {s p : Nat} :
    ∀ (fuel i : Nat), find_loop fuel bs k cmp s i = .ret (some p) →
      ∃ c, bs[p]? = some c ∧ c.hash ≠ 0 ∧ cmp c.key k = 0 := by
  intro fuel
  induction fuel with
  | zero => intro i h; simp [find_loop] at h
  | succ f ih =>
    intro i h
    simp only [find_loop] at h
    split at h
    · cases h
    · rename_i c hc
      split at h
      · cases h
      · rename_i hne
        split at h
        · rename_i hcmp
          cases h
          exact ⟨c, hc, hne, hcmp⟩
        · split at h
          · cases h
          · exact ih _ h

/-- A lookup of a key that no bucket in use holds returns not-found. -/
theorem find_absent {bs : List Bucket} {k : Nat} (h : Nat)
    (habs : ∀ c ∈ live bs, c.key ≠ k) :
    _hashtable_find k h bs hashtable_compare_keys = .ret none := by
  obtain ⟨r, hr⟩ := find_returns k h bs hashtable_compare_keys
  cases r with
  | none => exact hr
  | some p =>
    have hr' := hr
    unfold _hashtable_find at hr'
    split at hr'
    · cases hr'
    · obtain ⟨c, hc, hne, hcmp⟩ := find_loop_some _ _ hr'
      exact absurd hcmp (compare_ne_zero (habs c (mem_live.2 ⟨⟨p, hc⟩, hne⟩)))

/-- A null pointer from `_hashtable_find` is a not-found result of `hashtable_find`. -/
theorem hashtable_find_none {t : Table} {k h : Nat}
    (hf : _hashtable_find k h t.buckets hashtable_compare_keys = .ret none) :
    hashtable_find t k h = .ret none := by
  simp [hashtable_find, hf]

/-- Overwriting an empty bucket with an empty bucket leaves the buckets in use as
they are. -/
theorem live_set_empty {bs : List Bucket} {p : Nat} {e : Bucket} (he : emptyAt bs p)
    (hz : e.hash = 0) : live (bs.set p e) = live bs := by
  induction bs generalizing p with
  | nil =>
    obtain ⟨c, hc, _⟩ := he
    simp at hc
  | cons hd tl ih =>
    obtain ⟨c, hc, hcz⟩ := he
    cases p with
    | zero =>
      simp at hc
      subst hc
      rw [List.set_cons_zero, live_cons_empty _ hz, live_cons_empty _ hcz]
    | succ p =>
      simp at hc
      rw [List.set_cons_succ]
      have ih1 := ih (p := p) ⟨c, hc, hcz⟩
      by_cases hh : hd.hash = 0
      · rw [live_cons_empty _ hh, live_cons_empty _ hh]; exact ih1
      · rw [live_cons_occ _ hh, live_cons_occ _ hh, ih1]

/-- Overwriting an empty bucket with an empty bucket keeps every bucket in use
reachable from its ideal index. -/
theorem chain_set_empty {bs : List Bucket} {p : Nat} {e : Bucket} (hch : Chain bs)
    (he : emptyAt bs p) (hz : e.hash = 0) : Chain (bs.set p e) := by
  intro q c hq hc
  rw [List.length_set]
  have hqp : p ≠ q := by
    rintro rfl
    obtain ⟨a, ha, _⟩ := he
    rw [List.getElem?_set_self (List.getElem?_eq_some.1 ha).1] at hq
    cases hq
    exact hc hz
  rw [List.getElem?_set_ne hqp] at hq
  obtain ⟨E, hE, hEq, hEo⟩ := hch q c hq hc
  exact ⟨E, hE, hEq, fun d hd => occAt_set _ he (hEo d hd)⟩

/-- When the key copy fails, the probe loop of insert reports `3`; the first
empty bucket of the probe sequence keeps its tag `0` and holds whatever the copy
function left in its key field. -/
theorem insert_probe_copy_fails {bs : List Bucket} (hroom : (live bs).length < bs.length)
    {k : Nat} (habs : ∀ c ∈ live bs, c.key ≠ k) (nv h v : Nat)
    {cpy : Nat → Nat → Nat × Int} (hcpy : ∀ dst, (cpy dst k).2 ≠ 0) :
    ∃ p e, insert_probe bs.length bs nv k h v hashtable_compare_keys cpy
          (h % bs.length) (h % bs.length) =
        .ret (3, ⟨bs.set p { e with key := (cpy e.key k).1 }, nv⟩) ∧
      bs[p]? = some e ∧ e.hash = 0 := by
  have hn : 0 < bs.length := by omega
  have hs : h % bs.length < bs.length := Nat.mod_lt _ hn
  obtain ⟨D, hD, hDe, hDo⟩ := exists_first_empty hroom hs
  have hocc : ∀ d, d < D → ∃ c, bs[idx bs.length (h % bs.length) d]? = some c ∧ c.hash ≠ 0 ∧
      hashtable_compare_keys c.key k ≠ 0 := by
    intro d hd
    obtain ⟨c, hc, hne⟩ := hDo d hd
    exact ⟨c, hc, hne, compare_ne_zero (habs c (mem_live.2 ⟨⟨_, hc⟩, hne⟩))⟩
  have hwalk := insert_probe_walk nv k h v hashtable_compare_keys cpy hs hD hocc
    D 0 (by omega) bs.length hD
  rw [idx_zero hs] at hwalk
  obtain ⟨e, he, hz⟩ := hDe
  refine ⟨idx bs.length (h % bs.length) D, e, ?_, he, hz⟩
  rw [hwalk]
  obtain ⟨f, hf⟩ : ∃ f, bs.length - D = f + 1 := ⟨bs.length - D - 1, by omega⟩
  rw [hf]
  simp [insert_probe, he, hz, hcpy]

/-- With or without a successful allocation, when none is needed or the one
needed succeeds, `_hashtable_insert` behaves as with a successful allocation. -/
theorem insert_ext_calloc_ok {c : Bool} {t : Table}
    (hc : needs_resize t.buckets.length t.num_values = true → c = true) (k h v : Nat)
    (cmp : Nat → Nat → Int) (cpy : Nat → Nat → Nat × Int) :
    _hashtable_insert c t k h v cmp cpy = _hashtable_insert true t k h v cmp cpy := by
  cases c with
  | true => rfl
  | false =>
    have hr : needs_resize t.buckets.length t.num_values = false := by
      cases hx : needs_resize t.buckets.length t.num_values with
      | false => rfl
      | true => exact absurd (hc hx) (by decide)
    unfold _hashtable_insert
    rw [hr]
    simp

/-- The value of `WRAP_COUNT`. -/
theorem wrap_count_eq : WRAP_COUNT = 100880631653099111 := rfl

/-- The table `wrap_table` has `2 ^ 57` buckets. -/
theorem wrap_table_length : wrap_table.buckets.length = 2 ^ 57 := by
  unfold wrap_table
  rw [List.length_append, List.length_map, List.length_range, List.length_replicate,
    wrap_count_eq]
  norm_num

/-- The buckets in use of `wrap_table` are its first `WRAP_COUNT` buckets. -/
theorem wrap_table_live : live wrap_table.buckets =
    (List.range WRAP_COUNT).map (fun i => (⟨i, i, i + 2 ^ 57⟩ : Bucket)) := by
  unfold wrap_table live
  rw [List.filter_append]
  have h1 : List.filter (fun b => decide (b.hash ≠ 0))
      (List.replicate (2 ^ 57 - WRAP_COUNT) Bucket.zero) = [] := live_replicate _
  have h2 : List.filter (fun b => decide (b.hash ≠ 0))
      ((List.range WRAP_COUNT).map (fun i => (⟨i, i, i + 2 ^ 57⟩ : Bucket))) =
      (List.range WRAP_COUNT).map (fun i => (⟨i, i, i + 2 ^ 57⟩ : Bucket)) := by
    rw [List.filter_eq_self]
    intro a ha
    obtain ⟨i, _, rfl⟩ := List.mem_map.1 ha
    simp
  rw [h1, h2, List.append_nil]

/-- At `WRAP_COUNT` entries a table of `2 ^ 57` buckets asks for growth. -/
theorem wrap_needs_resize : needs_resize (2 ^ 57) WRAP_COUNT = true := by
  rw [wrap_count_eq]
  decide

/-- The product `2 ^ 57 * 200` wraps: the capacity computed for the growth of a
table of `2 ^ 57` buckets is smaller than `2 ^ 57`. -/
theorem wrap_num_new_buckets : num_new_buckets (2 ^ 57) = 103762935414616227 := by
  decide

/-- The table `wrap_table` is the last of the tables `wrap_upto`. -/
theorem wrap_table_eq : wrap_table = wrap_upto WRAP_COUNT := rfl

/-- A successful `init(2 ^ 57)` gives the first of the tables `wrap_upto`. -/
theorem wrap_upto_zero : _hashtable_init true (2 ^ 57) = (0, some (wrap_upto 0)) := by
  unfold _hashtable_init wrap_upto
  rw [List.range_zero, List.map_nil, List.nil_append, Nat.sub_zero]
  rfl

/-- Below a load of 70%, the insert of the next key of `wrap_table` fills the
next bucket without growth. -/
theorem wrap_upto_step (j : Nat) (hj : j < WRAP_COUNT) :
    hashtable_insert true (wrap_upto j) j (j + 2 ^ 57) j = .ret (0, wrap_upto (j + 1)) := by
  rw [wrap_count_eq] at hj
  have hlen : (wrap_upto j).buckets.length = 2 ^ 57 := by
    unfold wrap_upto
    rw [List.length_append, List.length_map, List.length_range, List.length_replicate]
    omega
  have hnv : (wrap_upto j).num_values = j := rfl
  have hres : needs_resize (2 ^ 57) j = false := by
    unfold needs_resize
    rw [Bool.or_eq_false_iff]
    refine ⟨by simp, ?_⟩
    rw [decide_eq_false_iff_not]
    unfold HASHTABLE_LOAD_FACTOR SIZE_MOD
    rw [Nat.mod_eq_of_lt (by omega), Nat.not_le, Nat.div_lt_iff_lt_mul (by norm_num)]
    omega
  have hmod : (j + 2 ^ 57) % 2 ^ 57 = j := by
    rw [Nat.add_mod_right]
    exact Nat.mod_eq_of_lt (by omega)
  have hget : (wrap_upto j).buckets[j]? = some Bucket.zero := by
    unfold wrap_upto
    rw [List.getElem?_append_right (by rw [List.length_map, List.length_range]),
      List.length_map, List.length_range, Nat.sub_self]
    exact List.getElem?_replicate_of_lt (by omega)
  have hset : (wrap_upto j).buckets.set j ⟨j, j, j + 2 ^ 57⟩ = (wrap_upto (j + 1)).buckets := by
    unfold wrap_upto
    have hrep : List.replicate (2 ^ 57 - j) Bucket.zero =
        Bucket.zero :: List.replicate (2 ^ 57 - (j + 1)) Bucket.zero := by
      have : 2 ^ 57 - j = (2 ^ 57 - (j + 1)) + 1 := by omega
      rw [this, List.replicate_succ]
    rw [List.set_append_right _ _ (by rw [List.length_map, List.length_range]),
      List.length_map, List.length_range, Nat.sub_self, hrep, List.set_cons_zero,
      List.range_succ, List.map_append, List.map_singleton, List.append_assoc,
      List.singleton_append]
  obtain ⟨f, hf⟩ : ∃ f, (2 : Nat) ^ 57 = f + 1 := ⟨2 ^ 57 - 1, by norm_num⟩
  unfold hashtable_insert _hashtable_insert
  rw [if_neg (by omega : ¬ (j + 2 ^ 57 = 0)), hlen, hnv, hres,
    if_neg (by decide : ¬ (false = true)), hmod]
  have hprobe : insert_probe (2 ^ 57) (wrap_upto j).buckets j j (j + 2 ^ 57) j
      hashtable_compare_keys hashtable_copy_key j j =
      .ret (0, ⟨(wrap_upto j).buckets.set j ⟨j, j, j + 2 ^ 57⟩, (j + 1) % SIZE_MOD⟩) := by
    rw [hf]
    simp only [insert_probe, hget]
    rfl
  rw [hprobe, hset, Nat.mod_eq_of_lt (by unfold SIZE_MOD; omega)]
  rfl

/-- The insert loop from `wrap_upto a` on the next `m` keys of `wrap_table`. -/
theorem wrap_upto_insert_all (m : Nat) : ∀ a, a + m ≤ WRAP_COUNT →
    insert_all (fun i => i + 2 ^ 57) (wrap_upto a)
        ((List.range' a m).map (fun i => (i, i))) =
      .ret (List.replicate m 0, wrap_upto (a + m)) := by
  induction m with
  | zero => intro a _; rfl
  | succ m ih =>
    intro a ha
    have hstep := wrap_upto_step a (by omega)
    have hrest := ih (a + 1) (by omega)
    rw [List.range'_succ, List.map_cons]
    simp only [insert_all, hstep, hrest, List.replicate_succ]
    rw [show a + 1 + m = a + (m + 1) by omega]

/-! ## Lookups, error codes and the hash functions -/

/-- When `_hashtable_find` returns a bucket, that bucket is in use and its key
compares equal to the key looked up. -/
theorem find_some_bucket {k h : Nat} {bs : List Bucket} {cmp : Nat → Nat → Int} {i : Nat}
    (hr : _hashtable_find k h bs cmp = .ret (some i)) :
    ∃ c, bs[i]? = some c ∧ c.hash ≠ 0 ∧ cmp c.key k = 0 := by
  unfold _hashtable_find at hr
  split at hr
  · cases hr
  · exact find_loop_some _ _ hr

/-- The probe loop of insert reports `0`, `2` or `3`. -/
theorem insert_probe_codes {bs : List Bucket} {nv k h v : Nat} {cmp : Nat → Nat → Int}
    {cpy : Nat → Nat → Nat × Int} {s : Nat} {r : Nat × Table} :
    ∀ (fuel i : Nat), insert_probe fuel bs nv k h v cmp cpy s i = .ret r →
      (r.1 = 0 ∨ r.1 = 2 ∨ r.1 = 3) ∧ r.2.buckets.length = bs.length := by
  intro fuel
  induction fuel with
  | zero => intro i hr; simp [insert_probe] at hr
  | succ f ih =>
    intro i hr
    simp only [insert_probe] at hr
    split at hr
    · cases hr
    · split at hr
      · split at hr
        · cases hr; simp
        · cases hr; simp
      · split at hr
        · cases hr; simp
        · split at hr
          · cases hr
          · exact ih _ hr

/-- The error code of `_hashtable_insert` is `0`, `1`, `2`, `3` or `4`. -/
theorem insert_codes {c : Bool} {t : Table} {k h v : Nat} {cmp : Nat → Nat → Int}
    {cpy : Nat → Nat → Nat × Int} {r : Nat × Table}
    (hr : _hashtable_insert c t k h v cmp cpy = .ret r) :
    r.1 = 0 ∨ r.1 = 1 ∨ r.1 = 2 ∨ r.1 = 3 ∨ r.1 = 4 := by
  unfold _hashtable_insert at hr
  split at hr
  · cases hr; simp
  · split at hr
    · split at hr
      · cases hr; simp
      · split at hr
        · have := (insert_probe_codes _ _ hr).1
          omega
        · cases hr
        · cases hr
        · cases hr
    · have := (insert_probe_codes _ _ hr).1
      omega

/-- The loop of `hashtable_hash` over the bytes that follow a prefix of the
memory folds the update step over them. -/
theorem hashtable_hash_loop_spec (bytes : List Nat) : ∀ (pre rest : List Nat) (hash : Nat),
    hashtable_hash_loop (pre ++ bytes ++ rest) bytes.length pre.length hash =
      .ret (bytes.foldl (fun h byte => (h ^^^ byte) * 0x100000001b3 % 2 ^ 64) hash) := by
  induction bytes with
  | nil => intro pre rest hash; rfl
  | cons b bs ih =>
    intro pre rest hash
    have hget : (pre ++ b :: bs ++ rest)[pre.length]? = some b := by
      rw [List.append_assoc, List.getElem?_append_right (Nat.le_refl _), Nat.sub_self]
      simp
    have hre : pre ++ b :: bs ++ rest = (pre ++ [b]) ++ bs ++ rest := by simp
    have hlen : pre.length + 1 = (pre ++ [b]).length := by simp
    simp only [List.length_cons, hashtable_hash_loop, hget, List.foldl_cons]
    rw [hre, hlen]
    exact ih (pre ++ [b]) rest _

/-- The loop of `hashtable_str_hash` over a string without zero byte, followed by
a zero byte, folds the update step over the converted characters. -/
theorem hashtable_str_hash_loop_spec (cs : Bool) (s : List Nat) (hs : ∀ b ∈ s, b ≠ 0) :
    ∀ (rest : List Nat) (hash : Nat),
    hashtable_str_hash_loop cs (s ++ 0 :: rest) hash =
      .ret (s.foldl (fun h c => (h ^^^ char_to_size_t cs c) * 0x100000001b3 % 2 ^ 64) hash) := by
  induction s with
  | nil => intro rest hash; simp [hashtable_str_hash_loop]
  | cons b bs ih =>
    intro rest hash
    have hb : b ≠ 0 := hs b (List.mem_cons_self _ _)
    simp only [List.cons_append, hashtable_str_hash_loop, hb, if_false, List.foldl_cons]
    exact ih (fun c hc => hs c (List.mem_cons_of_mem _ hc)) rest _

/-- Where plain `char` is unsigned, or on strings of bytes below `128`,
`hashtable_str_hash` of a NUL-terminated string is `hashtable_hash` of its bytes. -/
theorem str_hash_agrees (cs : Bool) (s rest : List Nat) (hs : ∀ b ∈ s, b ≠ 0)
    (hsign : cs = true → ∀ b ∈ s, b < 128) :
    hashtable_str_hash cs (s ++ 0 :: rest) = hashtable_hash s s.length := by
  have h1 := hashtable_str_hash_loop_spec cs s hs rest FNV_OFFSET_BASIS
  have h2 := hashtable_hash_loop_spec s [] [] FNV_OFFSET_BASIS
  simp only [List.nil_append, List.append_nil, List.length_nil] at h2
  have hconv : ∀ c ∈ s, char_to_size_t cs c = c := by
    intro c hc
    unfold char_to_size_t
    cases cs with
    | false => simp
    | true =>
      have := hsign rfl c hc
      rw [if_neg (by omega)]
  have hfold : ∀ (l : List Nat) (h0 : Nat), (∀ c ∈ l, char_to_size_t cs c = c) →
      l.foldl (fun h c => (h ^^^ char_to_size_t cs c) * 0x100000001b3 % 2 ^ 64) h0 =
        l.foldl (fun h byte => (h ^^^ byte) * 0x100000001b3 % 2 ^ 64) h0 := by
    intro l
    induction l with
    | nil => intro h0 _; rw [List.foldl_nil, List.foldl_nil]
    | cons a l ihl =>
      intro h0 hl
      rw [List.foldl_cons, List.foldl_cons, hl a (List.mem_cons_self _ _)]
      exact ihl _ (fun c hc => hl c (List.mem_cons_of_mem _ hc))
  unfold hashtable_str_hash hashtable_hash
  rw [h1, h2, hfold s _ hconv]

/-- The insert of a new key into `wrap_table` succeeds in an array of
`103762935414616227` buckets. -/
theorem wrap_table_insert :
    ∃ t', hashtable_insert true wrap_table (2 ^ 57) (2 ^ 57) 0 = .ret (0, t') ∧
      t'.buckets.length = 103762935414616227 := by
  have hlen := wrap_table_length
  have hlive := wrap_table_live
  have hlivelen : (live wrap_table.buckets).length = WRAP_COUNT := by
    rw [hlive, List.length_map, List.length_range]
  have hnv : wrap_table.num_values = WRAP_COUNT := rfl
  have hroom : (live (List.replicate 103762935414616227 Bucket.zero)).length +
      (live wrap_table.buckets).length <
      (List.replicate 103762935414616227 Bucket.zero).length := by
    rw [live_replicate, List.length_replicate, hlivelen, wrap_count_eq]
    norm_num
  obtain ⟨r, hr, hrl, hrc, hrp⟩ := rehash_spec wrap_table.buckets _ (chain_replicate _) hroom
  rw [live_replicate, List.append_nil] at hrp
  rw [List.length_replicate] at hrl
  have habs : ∀ c ∈ live r, c.key ≠ 2 ^ 57 := by
    intro c hc
    have hc' := hrp.mem_iff.1 hc
    rw [hlive] at hc'
    obtain ⟨i, hi, rfl⟩ := List.mem_map.1 hc'
    have hlt := List.mem_range.1 hi
    rw [wrap_count_eq] at hlt
    show i ≠ 2 ^ 57
    omega
  have hroom' : (live r).length < r.length := by
    rw [hrp.length_eq, hlivelen, hrl, wrap_count_eq]
    norm_num
  obtain ⟨p, hp, _, _, _⟩ :=
    insert_probe_fresh hrc hroom' habs WRAP_COUNT (h := 2 ^ 57) (by norm_num) 0
  refine ⟨⟨r.set p ⟨2 ^ 57, 0, 2 ^ 57⟩, (WRAP_COUNT + 1) % SIZE_MOD⟩, ?_, ?_⟩
  · unfold hashtable_insert _hashtable_insert
    rw [if_neg (by norm_num : ¬ ((2 : Nat) ^ 57 = 0)), hlen, hnv, if_pos wrap_needs_resize,
      if_neg (by decide : ¬ (true = false)), wrap_num_new_buckets, hr]
    exact hp
  · rw [List.length_set, hrl]

/-- Without wraparound of `100 * num_values`, the growth test is the test of the
specification. -/
theorem needs_resize_no_wrap {n nv : Nat} (hnv : 100 * nv < 2 ^ 64) :
    needs_resize n nv = true ↔ (n = 0 ∨ 70 ≤ 100 * nv / n) := by
  unfold needs_resize HASHTABLE_LOAD_FACTOR SIZE_MOD
  rw [Nat.mod_eq_of_lt hnv]
  simp

/-- Without wraparound of `num_buckets * 200`, the new capacity is `8` from
capacity `0` and twice the old capacity otherwise. -/
theorem num_new_buckets_no_wrap {n : Nat} (hn : 200 * n < 2 ^ 64) :
    num_new_buckets n = if n = 0 then 8 else 2 * n := by
  unfold num_new_buckets HASHTABLE_GROWTH_FACTOR SIZE_MOD
  have hx : n * (2 * 100) % 2 ^ 64 / 100 = 2 * n := by
    rw [Nat.mod_eq_of_lt (by omega)]
    omega
  simp only [hx]
  by_cases h0 : n = 0
  · simp [h0]
  · rw [if_neg (by omega), if_neg (by omega), if_neg h0]

/-- The growth rule of insert where the 64-bit products do not wrap: when an
insert with a nonzero hash and a successful allocation returns, the capacity is
`8` or twice the old one if the growth test held, and the old one if not. -/
theorem growth_rule_no_wrap {t : Table} {k h v : Nat} {cmp : Nat → Nat → Int}
    {cpy : Nat → Nat → Nat × Int} {r : Nat × Table} (hh : h ≠ 0)
    (hnv : 100 * t.num_values < 2 ^ 64) (hcap : 200 * t.buckets.length < 2 ^ 64)
    (hret : _hashtable_insert true t k h v cmp cpy = .ret r) :
    r.2.buckets.length =
      if t.buckets.length = 0 ∨ 70 ≤ 100 * t.num_values / t.buckets.length then
        (if t.buckets.length = 0 then 8 else 2 * t.buckets.length)
      else t.buckets.length := by
  have hiff := needs_resize_no_wrap (n := t.buckets.length) hnv
  unfold _hashtable_insert at hret
  rw [if_neg hh] at hret
  by_cases hr : needs_resize t.buckets.length t.num_values = true
  · rw [if_pos hr, if_neg (by decide : ¬ (true = false))] at hret
    rw [if_pos (hiff.1 hr), ← num_new_buckets_no_wrap hcap]
    have hpos := num_new_buckets_pos t.buckets.length
    obtain ⟨_, h2⟩ := rehash_fuel t.buckets
      (List.replicate (num_new_buckets t.buckets.length) Bucket.zero) (by simpa using hpos)
    split at hret
    · rename_i nb hnb
      have hl := h2 nb hnb
      rw [List.length_replicate] at hl
      rw [(insert_probe_codes _ _ hret).2, hl]
    · cases hret
    · cases hret
    · cases hret
  · rw [if_neg hr] at hret
    rw [if_neg (fun hc => hr (hiff.2 hc))]
    exact (insert_probe_codes _ _ hret).2

/-- Among the first `n` steps either none has the property, or there is a first
one that has it. -/
theorem first_stop (P : Nat → Prop) (n : Nat) :
    (∀ d, d < n → ¬ P d) ∨ ∃ D, D < n ∧ P D ∧ ∀ d, d < D → ¬ P d := by
  induction n with
  | zero => exact Or.inl (fun d hd => absurd hd (Nat.not_lt_zero d))
  | succ n ih =>
    rcases ih with hall | ⟨D, hD, hP, hmin⟩
    · by_cases hn : P n
      · exact Or.inr ⟨n, by omega, hn, hall⟩
      · left
        intro d hd
        rcases Nat.lt_succ_iff_lt_or_eq.1 hd with h1 | h1
        · exact hall d h1
        · rw [h1]; exact hn
    · exact Or.inr ⟨D, by omega, hP, hmin⟩

/-- The erase of a key that compares equal to the key bytes of no bucket never
leaves its search loop, whatever the hash: the loop has no exit at an empty
bucket nor on coming back to its start. -/
theorem erase_absent_no_return (t : Table) (k : Nat) (cmp : Nat → Nat → Int)
    (hnv : t.num_values ≠ 0) (hlen : t.buckets.length ≠ 0)
    (h : ∀ b ∈ t.buckets, cmp b.key k ≠ 0) (fuel hash : Nat) (fk : Bool) :
    _hashtable_erase fuel t k hash cmp fk = .out_of_fuel := by
  have hsearch := erase_search_absent t.buckets k cmp h fuel (hash % t.buckets.length)
    (Nat.mod_lt _ (by omega))
  unfold _hashtable_erase
  rw [if_neg hnv, if_neg hlen, hsearch]

/-- The backward shift of erase cycles for ever on a full array of three buckets
whose two remaining entries, under the same hash `7`, both have ideal index `1`. -/
theorem erase_shift_cycle_hash7 (fuel : Nat) :
    erase_shift fuel [⟨3, 30, 0⟩, ⟨2, 20, 7⟩, ⟨3, 30, 7⟩] 0 1 = .out_of_fuel := by
  induction fuel using Nat.strong_induction_on with
  | _ fuel ih =>
    match fuel with
    | 0 => rfl
    | 1 => rfl
    | 2 => rfl
    | f + 3 =>
      have step : erase_shift (f + 3) [⟨3, 30, 0⟩, ⟨2, 20, 7⟩, ⟨3, 30, 7⟩] 0 1 =
          erase_shift f [⟨3, 30, 0⟩, ⟨2, 20, 7⟩, ⟨3, 30, 7⟩] 0 1 := by
        simp [erase_shift]
      rw [step]
      exact ih f (by omega)

/-! ## What a returning insert changed -/

/-- What a return of the probe loop of insert says: either a bucket in use with
an equal key was met (code `2`, nothing changed), or the probe passed over
buckets in use only and stopped at the first empty bucket, which received the
entry (code `0`) or, when the key copy failed, only the bytes the copy wrote
(code `3`). -/
theorem insert_probe_result {bs : List Bucket} {nv k h v : Nat} {cmp : Nat → Nat → Int}
    {cpy : Nat → Nat → Nat × Int} {s : Nat} (hs : s < bs.length) {r : Nat × Table} :
    ∀ (fuel D0 : Nat), D0 < bs.length →
      (∀ d, d < D0 → occAt bs (idx bs.length s d)) →
      insert_probe fuel bs nv k h v cmp cpy s (idx bs.length s D0) = .ret r →
      r = (2, ⟨bs, nv⟩) ∨
      ∃ D old, D < bs.length ∧ (∀ d, d < D → occAt bs (idx bs.length s d)) ∧
        bs[idx bs.length s D]? = some old ∧ old.hash = 0 ∧
        (r = (0, ⟨bs.set (idx bs.length s D) ⟨(cpy old.key k).1, v, h⟩,
            (nv + 1) % SIZE_MOD⟩) ∨
          r = (3, ⟨bs.set (idx bs.length s D) { old with key := (cpy old.key k).1 }, nv⟩)) := by
  intro fuel
  induction fuel with
  | zero => intro D0 _ _ hr; simp [insert_probe] at hr
  | succ f ih =>
    intro D0 hD0 hocc hr
    simp only [insert_probe] at hr
    split at hr
    · cases hr
    · rename_i bucket hb
      split at hr
      · rename_i hz
        split at hr
        · cases hr
          exact Or.inr ⟨D0, bucket, hD0, hocc, hb, hz, Or.inr rfl⟩
        · cases hr
          exact Or.inr ⟨D0, bucket, hD0, hocc, hb, hz, Or.inl rfl⟩
      · rename_i hz
        split at hr
        · cases hr
          exact Or.inl rfl
        · split at hr
          · cases hr
          · rename_i hne
            rw [idx_succ] at hr hne
            have hD1 : D0 + 1 < bs.length := by
              by_contra hge
              have hEq : D0 + 1 = bs.length := by omega
              rw [hEq] at hne
              exact hne (idx_full hs)
            refine ih (D0 + 1) hD1 ?_ hr
            intro d hd
            rcases Nat.lt_succ_iff_lt_or_eq.1 hd with h1 | h1
            · exact hocc d h1
            · rw [h1]; exact ⟨bucket, hb, hz⟩

/-- What a return of the inner loop of the rehash says: the probe passed over
buckets in use only and the old bucket was copied to the first empty one. -/
theorem rehash_place_result {bs : List Bucket} {b : Bucket} {s : Nat} (hs : s < bs.length)
    {r : List Bucket} :
    ∀ (fuel D0 : Nat), D0 < bs.length →
      (∀ d, d < D0 → occAt bs (idx bs.length s d)) →
      rehash_place fuel bs b s (idx bs.length s D0) = .ret r →
      ∃ D, D < bs.length ∧ (∀ d, d < D → occAt bs (idx bs.length s d)) ∧
        emptyAt bs (idx bs.length s D) ∧ r = bs.set (idx bs.length s D) b := by
  intro fuel
  induction fuel with
  | zero => intro D0 _ _ hr; simp [rehash_place] at hr
  | succ f ih =>
    intro D0 hD0 hocc hr
    simp only [rehash_place] at hr
    split at hr
    · cases hr
    · rename_i bucket hb
      split at hr
      · rename_i hz
        cases hr
        exact ⟨D0, hD0, hocc, ⟨bucket, hb, hz⟩, rfl⟩
      · rename_i hz
        split at hr
        · cases hr
        · rename_i hne
          rw [idx_succ] at hr hne
          have hD1 : D0 + 1 < bs.length := by
            by_contra hge
            have hEq : D0 + 1 = bs.length := by omega
            rw [hEq] at hne
            exact hne (idx_full hs)
          refine ih (D0 + 1) hD1 ?_ hr
          intro d hd
          rcases Nat.lt_succ_iff_lt_or_eq.1 hd with h1 | h1
          · exact hocc d h1
          · rw [h1]; exact ⟨bucket, hb, hz⟩

/-- The rehash keeps every bucket in use reachable from its ideal index: when
it returns, the new array is well chained, whatever the old array was. -/
theorem rehash_chain (old : List Bucket) : ∀ (acc r : List Bucket), 0 < acc.length →
    Chain acc → rehash old acc = .ret r → Chain r ∧ r.length = acc.length := by
  induction old with
  | nil =>
    intro acc r _ hch hr
    simp only [rehash] at hr
    cases hr
    exact ⟨hch, rfl⟩
  | cons b rest ih =>
    intro acc r hn hch hr
    simp only [rehash] at hr
    split at hr
    · exact ih acc r hn hch hr
    · split at hr
      · rename_i nb hnb
        have hs : b.hash % acc.length < acc.length := Nat.mod_lt _ hn
        have hnb0 : rehash_place acc.length acc b (b.hash % acc.length)
            (idx acc.length (b.hash % acc.length) 0) = .ret nb := by
          rw [idx_zero hs]; exact hnb
        obtain ⟨D, hD, ho, he, hset⟩ := rehash_place_result hs acc.length 0 hn
          (fun d hd => absurd hd (Nat.not_lt_zero d)) hnb0
        have hch1 : Chain nb := by rw [hset]; exact chain_set hch hD he ho
        have hl : nb.length = acc.length := by rw [hset, List.length_set]
        obtain ⟨h1, h2⟩ := ih nb r (by omega) hch1 hr
        exact ⟨h1, by rw [h2, hl]⟩
      · cases hr
      · cases hr
      · cases hr

/-- The probe loop of insert, started at the ideal index of the hash, keeps a
well-chained array well chained, whatever code it returns. -/
theorem insert_probe_chain {bs : List Bucket} {nv k h v : Nat} {cmp : Nat → Nat → Int}
    {cpy : Nat → Nat → Nat × Int} {r : Nat × Table} (hn : 0 < bs.length) (hch : Chain bs)
    (hr : insert_probe bs.length bs nv k h v cmp cpy (h % bs.length) (h % bs.length) = .ret r) :
    Chain r.2.buckets := by
  have hs : h % bs.length < bs.length := Nat.mod_lt _ hn
  have hr0 : insert_probe bs.length bs nv k h v cmp cpy (h % bs.length)
      (idx bs.length (h % bs.length) 0) = .ret r := by
    rw [idx_zero hs]; exact hr
  rcases insert_probe_result hs bs.length 0 hn (fun d hd => absurd hd (Nat.not_lt_zero d)) hr0
    with h2 | ⟨D, old, hD, ho, hold, hz, h0 | h3⟩
  · rw [h2]; exact hch
  · rw [h0]
    exact chain_set (b := ⟨(cpy old.key k).1, v, h⟩) hch hD ⟨old, hold, hz⟩ ho
  · rw [h3]
    exact chain_set_empty hch ⟨old, hold, hz⟩ hz

/-- A table on which the growth test is false has at least one bucket. -/
theorem needs_resize_false_length {n nv : Nat} (h : ¬ needs_resize n nv = true) : n ≠ 0 := by
  intro h0
  apply h
  simp [needs_resize, h0]

/-- The probe loop of insert reads inside the array only. -/
theorem insert_probe_defined (bs : List Bucket) (nv k h v : Nat) (cmp : Nat → Nat → Int)
    (cpy : Nat → Nat → Nat × Int) (s : Nat) :
    ∀ (fuel i : Nat), i < bs.length →
      insert_probe fuel bs nv k h v cmp cpy s i ≠ .undefined := by
  intro fuel
  induction fuel with
  | zero => intro i _; simp [insert_probe]
  | succ f ih =>
    intro i hi
    simp only [insert_probe, List.getElem?_eq_getElem hi]
    split
    · split
      · simp
      · simp
    · split
      · simp
      · split
        · simp
        · exact ih _ (Nat.mod_lt _ (by omega))

/-- The inner loop of the rehash reads inside the new array only. -/
theorem rehash_place_defined (bs : List Bucket) (b : Bucket) (s : Nat) :
    ∀ (fuel j : Nat), j < bs.length → rehash_place fuel bs b s j ≠ .undefined := by
  intro fuel
  induction fuel with
  | zero => intro j _; simp [rehash_place]
  | succ f ih =>
    intro j hj
    simp only [rehash_place, List.getElem?_eq_getElem hj]
    split
    · simp
    · split
      · simp
      · exact ih _ (Nat.mod_lt _ (by omega))

/-- The rehash into a non-empty array executes no undefined behaviour. -/
theorem rehash_defined (old : List Bucket) : ∀ acc : List Bucket, 0 < acc.length →
    rehash old acc ≠ .undefined := by
  induction old with
  | nil => intro acc _; simp [rehash]
  | cons b rest ih =>
    intro acc hn
    simp only [rehash]
    split
    · exact ih acc hn
    · have hd := rehash_place_defined acc b (b.hash % acc.length) acc.length
        (b.hash % acc.length) (Nat.mod_lt _ hn)
      split
      · rename_i nb hnb
        have hl := rehash_place_length hnb
        exact ih nb (by omega)
      · rename_i hx; exact absurd hx hd
      · simp
      · simp

/-- A call of `_hashtable_insert` either returns or fails one of its two
assertions: it neither runs for ever nor divides by zero nor reads outside the
array. -/
theorem insert_ret_or_assert (c : Bool) (t : Table) (k h v : Nat) (cmp : Nat → Nat → Int)
    (cpy : Nat → Nat → Nat × Int) :
    _hashtable_insert c t k h v cmp cpy = .assert_failed ∨
      ∃ r, _hashtable_insert c t k h v cmp cpy = .ret r := by
  have hfuel := insert_fuel c t k h v cmp cpy
  have hdef : _hashtable_insert c t k h v cmp cpy ≠ .undefined := by
    unfold _hashtable_insert
    split
    · simp
    · split
      · split
        · simp
        · have hpos := num_new_buckets_pos t.buckets.length
          have hacc : 0 < (List.replicate (num_new_buckets t.buckets.length)
              Bucket.zero).length := by simpa using hpos
          have hd := rehash_defined t.buckets _ hacc
          obtain ⟨_, h2⟩ := rehash_fuel t.buckets _ hacc
          split
          · rename_i nb hnb
            have hl := h2 nb hnb
            exact insert_probe_defined nb _ _ _ _ _ _ _ _ _ (Nat.mod_lt _ (by omega))
          · rename_i hx; exact absurd hx hd
          · simp
          · simp
      · rename_i hr
        have hn := needs_resize_false_length hr
        exact insert_probe_defined _ _ _ _ _ _ _ _ _ _ (Nat.mod_lt _ (by omega))
  cases hres : _hashtable_insert c t k h v cmp cpy with
  | ret r => exact Or.inr ⟨r, rfl⟩
  | undefined => exact absurd hres hdef
  | assert_failed => exact Or.inl rfl
  | out_of_fuel => exact absurd hres hfuel

/-- Insert keeps a well-chained table well chained, whatever code it returns
and whether or not it grows the table. -/
theorem insert_chain {c : Bool} {t : Table} {k h v : Nat} {cmp : Nat → Nat → Int}
    {cpy : Nat → Nat → Nat × Int} {r : Nat × Table} (hch : Chain t.buckets)
    (hr : _hashtable_insert c t k h v cmp cpy = .ret r) : Chain r.2.buckets := by
  unfold _hashtable_insert at hr
  split at hr
  · cases hr; exact hch
  · split at hr
    · split at hr
      · cases hr; exact hch
      · have hpos := num_new_buckets_pos t.buckets.length
        have hacc : 0 < (List.replicate (num_new_buckets t.buckets.length)
            Bucket.zero).length := by simpa using hpos
        split at hr
        · rename_i nb hnb
          obtain ⟨hc1, hl⟩ := rehash_chain t.buckets _ nb hacc (chain_replicate _) hnb
          exact insert_probe_chain (by omega) hc1 hr
        · cases hr
        · cases hr
        · cases hr
    · rename_i hres
      have hn := needs_resize_false_length hres
      exact insert_probe_chain (by omega) hch hr

/-- A probe loop of insert that returns code `0` passed over buckets in use only
and wrote the entry to the first empty bucket of its probe sequence. -/
theorem insert_probe_success {bs : List Bucket} {nv k h v : Nat} {cmp : Nat → Nat → Int}
    {cpy : Nat → Nat → Nat × Int} {t' : Table} (hn : 0 < bs.length)
    (hr : insert_probe bs.length bs nv k h v cmp cpy (h % bs.length) (h % bs.length) =
      .ret (0, t')) :
    ∃ D old, D < bs.length ∧
      (∀ d, d < D → occAt bs (idx bs.length (h % bs.length) d)) ∧
      bs[idx bs.length (h % bs.length) D]? = some old ∧ old.hash = 0 ∧
      t' = ⟨bs.set (idx bs.length (h % bs.length) D) ⟨(cpy old.key k).1, v, h⟩,
        (nv + 1) % SIZE_MOD⟩ := by
  have hs : h % bs.length < bs.length := Nat.mod_lt _ hn
  have hr0 : insert_probe bs.length bs nv k h v cmp cpy (h % bs.length)
      (idx bs.length (h % bs.length) 0) = .ret (0, t') := by
    rw [idx_zero hs]; exact hr
  rcases insert_probe_result hs bs.length 0 hn (fun d hd => absurd hd (Nat.not_lt_zero d)) hr0
    with h2 | ⟨D, old, hD, ho, hold, hz, h0 | h3⟩
  · cases h2
  · refine ⟨D, old, hD, ho, hold, hz, ?_⟩
    cases h0
    rfl
  · cases h3

/-- A successful insert adds `1` to `_num_values`, in `size_t` arithmetic. -/
theorem insert_success_count {c : Bool} {t : Table} {k h v : Nat} {cmp : Nat → Nat → Int}
    {cpy : Nat → Nat → Nat × Int} {t' : Table}
    (hr : _hashtable_insert c t k h v cmp cpy = .ret (0, t')) :
    t'.num_values = (t.num_values + 1) % SIZE_MOD := by
  unfold _hashtable_insert at hr
  split at hr
  · cases hr
  · split at hr
    · split at hr
      · cases hr
      · have hpos := num_new_buckets_pos t.buckets.length
        have hacc : 0 < (List.replicate (num_new_buckets t.buckets.length)
            Bucket.zero).length := by simpa using hpos
        obtain ⟨_, h2⟩ := rehash_fuel t.buckets _ hacc
        split at hr
        · rename_i nb hnb
          have hl := h2 nb hnb
          obtain ⟨D, old, _, _, _, _, ht⟩ := insert_probe_success (by omega) hr
          rw [ht]
        · cases hr
        · cases hr
        · cases hr
    · rename_i hres
      have hn := needs_resize_false_length hres
      obtain ⟨D, old, _, _, _, _, ht⟩ := insert_probe_success (by omega) hr
      rw [ht]

/-- An array with an empty bucket has fewer buckets in use than buckets. -/
theorem live_lt_of_empty {bs : List Bucket} {p : Nat} {e : Bucket} (hp : bs[p]? = some e)
    (hz : e.hash = 0) : (live bs).length < bs.length := by
  unfold live
  rw [List.length_filter_lt_length_iff_exists]
  exact ⟨e, List.mem_iff_getElem?.2 ⟨p, hp⟩, by simp [hz]⟩

/-- The load after a successful insert where the 64-bit products do not wrap:
from a state in which `liveCount` counts the buckets in use, the new
`liveCount` is at most the capacity, and the load before the new entry was
counted is below 70%. -/
theorem load_rule_no_wrap {c : Bool} {t : Table} {k h v : Nat} {cmp : Nat → Nat → Int}
    {cpy : Nat → Nat → Nat × Int} {t' : Table}
    (hcount : t.num_values = (live t.buckets).length)
    (hnv : 100 * t.num_values < 2 ^ 64) (hcap : 200 * t.buckets.length < 2 ^ 64)
    (hr : _hashtable_insert c t k h v cmp cpy = .ret (0, t')) :
    t'.num_values ≤ t'.buckets.length ∧
      100 * (t'.num_values - 1) < 70 * t'.buckets.length := by
  have hle := live_length_le t.buckets
  have hcnt := insert_success_count hr
  have hcnt' : t'.num_values = t.num_values + 1 := by
    rw [hcnt]
    exact Nat.mod_eq_of_lt (by unfold SIZE_MOD; omega)
  unfold _hashtable_insert at hr
  split at hr
  · cases hr
  · split at hr
    · split at hr
      · cases hr
      · have hpos := num_new_buckets_pos t.buckets.length
        have hacc : 0 < (List.replicate (num_new_buckets t.buckets.length)
            Bucket.zero).length := by simpa using hpos
        obtain ⟨_, h2⟩ := rehash_fuel t.buckets _ hacc
        split at hr
        · rename_i nb hnb
          have hl := h2 nb hnb
          rw [List.length_replicate, num_new_buckets_no_wrap hcap] at hl
          have hl2 : t'.buckets.length = nb.length := (insert_probe_codes _ _ hr).2
          by_cases h0 : t.buckets.length = 0
          · rw [if_pos h0] at hl
            omega
          · rw [if_neg h0] at hl
            omega
        · cases hr
        · cases hr
        · cases hr
    · rename_i hres
      have hn := needs_resize_false_length hres
      have hiff := needs_resize_no_wrap (n := t.buckets.length) hnv
      have hlt : 100 * t.num_values / t.buckets.length < 70 := by
        by_contra hge
        exact hres (hiff.2 (Or.inr (by omega)))
      have hlt' : 100 * t.num_values < 70 * t.buckets.length :=
        (Nat.div_lt_iff_lt_mul (by omega)).1 hlt
      obtain ⟨D, old, _, _, hold, hz, ht⟩ := insert_probe_success (by omega) hr
      have hroom := live_lt_of_empty hold hz
      have hl2 : t'.buckets.length = t.buckets.length := by rw [ht]; simp
      omega

/-! ## Reachable states and definedness of erase -/

/-- The search loop of erase reads inside the array only. -/
theorem erase_search_defined (bs : List Bucket) (k : Nat) (cmp : Nat → Nat → Int) :
    ∀ (fuel i : Nat), i < bs.length → erase_search fuel bs k cmp i ≠ .undefined := by
  intro fuel
  induction fuel with
  | zero => intro i _; simp [erase_search]
  | succ f ih =>
    intro i hi
    simp only [erase_search, List.getElem?_eq_getElem hi]
    split
    · exact ih _ (Nat.mod_lt _ (by omega))
    · simp

/-- The index returned by the search loop of erase is inside the array. -/
theorem erase_search_lt {bs : List Bucket} {k : Nat} {cmp : Nat → Nat → Int} {p : Nat} :
    ∀ (fuel i : Nat), i < bs.length → erase_search fuel bs k cmp i = .ret p →
      p < bs.length := by
  intro fuel
  induction fuel with
  | zero => intro i _ hr; simp [erase_search] at hr
  | succ f ih =>
    intro i hi hr
    simp only [erase_search, List.getElem?_eq_getElem hi] at hr
    split at hr
    · exact ih _ (Nat.mod_lt _ (by omega)) hr
    · cases hr; exact hi

/-- The backward shift of erase reads inside the array only and keeps the
number of buckets. -/
theorem erase_shift_defined : ∀ (fuel : Nat) (bs : List Bucket) (prev j : Nat),
    j < bs.length → erase_shift fuel bs prev j ≠ .undefined ∧
      ∀ r, erase_shift fuel bs prev j = .ret r → r.length = bs.length := by
  intro fuel
  induction fuel with
  | zero => intro bs prev j _; simp [erase_shift]
  | succ f ih =>
    intro bs prev j hj
    simp only [erase_shift, List.getElem?_eq_getElem hj]
    split
    · refine ⟨by simp, ?_⟩
      intro r hr
      cases hr
      rfl
    · split
      · have hl : ((bs.set prev bs[j]).set j { bs[j] with hash := 0 }).length = bs.length := by
          simp
        have h := ih ((bs.set prev bs[j]).set j { bs[j] with hash := 0 }) j
          ((j + 1) % bs.length) (by rw [hl]; exact Nat.mod_lt _ (by omega))
        refine ⟨h.1, ?_⟩
        intro r hr
        rw [h.2 r hr, hl]
      · exact ih bs prev ((j + 1) % bs.length) (Nat.mod_lt _ (by omega))

/-- An erase that returns keeps the number of buckets. -/
theorem erase_keeps_capacity {fuel : Nat} {t : Table} {k h : Nat} {cmp : Nat → Nat → Int}
    {fk : Bool} {r : Table × List Nat} (hr : _hashtable_erase fuel t k h cmp fk = .ret r) :
    r.1.buckets.length = t.buckets.length := by
  unfold _hashtable_erase at hr
  split at hr
  · cases hr; rfl
  · split at hr
    · cases hr
    · rename_i hlen
      split at hr
      · rename_i i hi
        have hilt := erase_search_lt fuel _ (Nat.mod_lt _ (by omega)) hi
        split at hr
        · rename_i nb hnb
          have hl := (erase_shift_defined fuel (t.buckets.set i Bucket.zero) i
            ((i + 1) % t.buckets.length)
            (by rw [List.length_set]; exact Nat.mod_lt _ (by omega))).2 nb hnb
          cases hr
          simpa using hl
        · cases hr
        · cases hr
        · cases hr
      · cases hr
      · cases hr
      · cases hr

/-- On a table with at least one bucket erase executes no undefined behaviour:
every index it reads is reduced modulo the capacity. -/
theorem erase_defined (fuel : Nat) (t : Table) (k h : Nat) (cmp : Nat → Nat → Int) (fk : Bool)
    (hcap : t.num_values ≠ 0 → t.buckets.length ≠ 0) :
    _hashtable_erase fuel t k h cmp fk ≠ .undefined := by
  unfold _hashtable_erase
  split
  · simp
  · rename_i hnv
    have hlen := hcap hnv
    rw [if_neg hlen]
    have hsd := erase_search_defined t.buckets k cmp fuel (h % t.buckets.length)
      (Nat.mod_lt _ (by omega))
    split
    · rename_i i hi
      have hilt := erase_search_lt fuel _ (Nat.mod_lt _ (by omega)) hi
      have hd := (erase_shift_defined fuel (t.buckets.set i Bucket.zero) i
        ((i + 1) % t.buckets.length)
        (by rw [List.length_set]; exact Nat.mod_lt _ (by omega))).1
      split
      · simp
      · rename_i hx; exact absurd hx hd
      · simp
      · simp
    · rename_i hx; exact absurd hx hsd
    · simp
    · simp

/-- An insert that returns leaves a table with at least one bucket, unless it
returns the table it was given. -/
theorem insert_capacity {c : Bool} {t : Table} {k h v : Nat} {cmp : Nat → Nat → Int}
    {cpy : Nat → Nat → Nat × Int} {r : Nat × Table}
    (hr : _hashtable_insert c t k h v cmp cpy = .ret r) :
    r.2 = t ∨ r.2.buckets.length ≠ 0 := by
  unfold _hashtable_insert at hr
  split at hr
  · cases hr; exact Or.inl rfl
  · split at hr
    · split at hr
      · cases hr; exact Or.inl rfl
      · have hpos := num_new_buckets_pos t.buckets.length
        have hacc : 0 < (List.replicate (num_new_buckets t.buckets.length)
            Bucket.zero).length := by simpa using hpos
        obtain ⟨_, h2⟩ := rehash_fuel t.buckets _ hacc
        split at hr
        · rename_i nb hnb
          have hl := h2 nb hnb
          have hl2 := (insert_probe_codes _ _ hr).2
          right
          omega
        · cases hr
        · cases hr
        · cases hr
    · rename_i hres
      have hn := needs_resize_false_length hres
      have hl2 := (insert_probe_codes _ _ hr).2
      right
      omega

/-- In every reachable state a nonzero `liveCount` comes with a nonzero capacity. -/
theorem reachable_capacity {t : Table} (h : Reachable t) :
    t.num_values ≠ 0 → t.buckets.length ≠ 0 := by
  induction h with
  | init c N t hinit =>
    intro hnv
    unfold _hashtable_init at hinit
    split at hinit
    · cases hinit
    · cases hinit
      exact absurd rfl hnv
  | insert c t k h v cmp cpy err t' _ hins ih =>
    intro hnv
    rcases insert_capacity hins with h1 | h1
    · have h2 : t' = t := h1
      rw [h2] at hnv ⊢
      exact ih hnv
    · exact h1
  | erase fuel t k h cmp fk t' freed _ her ih =>
    intro hnv
    have hl : t'.buckets.length = t.buckets.length := erase_keeps_capacity her
    rw [hl]
    apply ih
    intro h0
    unfold _hashtable_erase at her
    rw [if_pos h0] at her
    cases her
    exact hnv h0
  | clear t fk _ _ =>
    intro hnv
    exfalso
    apply hnv
    unfold _hashtable_clear
    split <;> rfl

/-! ## The 32-bit build: a table whose growth wraps around `2 ^ 32` -/

/-- The value of `WRAP_COUNT32`. -/
theorem wrap32_count_eq : WRAP_COUNT32 = 23488103 := rfl

/-- While the counter stays below `2 ^ 32`, the probe loop of insert does the
same on both builds. -/
theorem insert_probe32_eq (bs : List Bucket) (nv k h v : Nat) (cmp : Nat → Nat → Int)
    (cpy : Nat → Nat → Nat × Int) (s : Nat) (hnv : nv + 1 < 2 ^ 32) :
    ∀ (fuel i : Nat), insert_probe32 fuel bs nv k h v cmp cpy s i =
      insert_probe fuel bs nv k h v cmp cpy s i := by
  have e1 : (nv + 1) % SIZE_MOD32 = nv + 1 := Nat.mod_eq_of_lt (by unfold SIZE_MOD32; omega)
  have e2 : (nv + 1) % SIZE_MOD = nv + 1 := Nat.mod_eq_of_lt (by unfold SIZE_MOD; omega)
  intro fuel
  induction fuel with
  | zero => intro i; rfl
  | succ f ih =>
    intro i
    simp only [insert_probe32, insert_probe, ih, e1, e2]

/-- The table `wrap32_upto j` has `2 ^ 25` buckets. -/
theorem wrap32_upto_length (j : Nat) (hj : j ≤ 2 ^ 25) :
    (wrap32_upto j).buckets.length = 2 ^ 25 := by
  unfold wrap32_upto
  rw [List.length_append, List.length_map, List.length_range, List.length_replicate]
  omega

/-- The buckets in use of `wrap32_upto j` are its first `j` buckets. -/
theorem wrap32_upto_live (j : Nat) : live (wrap32_upto j).buckets =
    (List.range j).map (fun i => (⟨i, i, i + 2 ^ 25⟩ : Bucket)) := by
  unfold wrap32_upto live
  rw [List.filter_append]
  have h1 : List.filter (fun b => decide (b.hash ≠ 0))
      (List.replicate (2 ^ 25 - j) Bucket.zero) = [] := live_replicate _
  have h2 : List.filter (fun b => decide (b.hash ≠ 0))
      ((List.range j).map (fun i => (⟨i, i, i + 2 ^ 25⟩ : Bucket))) =
      (List.range j).map (fun i => (⟨i, i, i + 2 ^ 25⟩ : Bucket)) := by
    rw [List.filter_eq_self]
    intro a ha
    obtain ⟨i, _, rfl⟩ := List.mem_map.1 ha
    simp
  rw [h1, h2, List.append_nil]

/-- At `WRAP_COUNT32` entries a table of `2 ^ 25` buckets asks for growth. -/
theorem wrap32_needs_resize : needs_resize32 (2 ^ 25) WRAP_COUNT32 = true := by
  rw [wrap32_count_eq]
  decide

/-- On a 32-bit build the product `2 ^ 25 * 200` wraps: the capacity computed for
the growth of a table of `2 ^ 25` buckets is `24159191`, smaller than `2 ^ 25`. -/
theorem wrap32_num_new_buckets : num_new_buckets32 (2 ^ 25) = 24159191 := by
  decide

/-- A successful `init(2 ^ 25)` gives the first of the tables `wrap32_upto`. -/
theorem wrap32_upto_zero : _hashtable_init true (2 ^ 25) = (0, some (wrap32_upto 0)) := by
  unfold _hashtable_init wrap32_upto
  rw [List.range_zero, List.map_nil, List.nil_append, Nat.sub_zero]
  rfl

/-- Below a load of 70%, the insert of the next key fills the next bucket of
`wrap32_upto` without growth. -/
theorem wrap32_upto_step (j : Nat) (hj : j < WRAP_COUNT32) :
    hashtable_insert32 true (wrap32_upto j) j (j + 2 ^ 25) j =
      .ret (0, wrap32_upto (j + 1)) := by
  rw [wrap32_count_eq] at hj
  have hlen : (wrap32_upto j).buckets.length = 2 ^ 25 := wrap32_upto_length j (by omega)
  have hnv : (wrap32_upto j).num_values = j := rfl
  have hres : needs_resize32 (2 ^ 25) j = false := by
    unfold needs_resize32
    rw [Bool.or_eq_false_iff]
    refine ⟨by simp, ?_⟩
    rw [decide_eq_false_iff_not]
    unfold HASHTABLE_LOAD_FACTOR SIZE_MOD32
    rw [Nat.mod_eq_of_lt (by omega), Nat.not_le, Nat.div_lt_iff_lt_mul (by norm_num)]
    omega
  have hmod : (j + 2 ^ 25) % 2 ^ 25 = j := by
    rw [Nat.add_mod_right]
    exact Nat.mod_eq_of_lt (by omega)
  have hget : (wrap32_upto j).buckets[j]? = some Bucket.zero := by
    unfold wrap32_upto
    rw [List.getElem?_append_right (by rw [List.length_map, List.length_range]),
      List.length_map, List.length_range, Nat.sub_self]
    exact List.getElem?_replicate_of_lt (by omega)
  have hset : (wrap32_upto j).buckets.set j ⟨j, j, j + 2 ^ 25⟩ =
      (wrap32_upto (j + 1)).buckets := by
    unfold wrap32_upto
    have hrep : List.replicate (2 ^ 25 - j) Bucket.zero =
        Bucket.zero :: List.replicate (2 ^ 25 - (j + 1)) Bucket.zero := by
      have : 2 ^ 25 - j = (2 ^ 25 - (j + 1)) + 1 := by omega
      rw [this, List.replicate_succ]
    rw [List.set_append_right _ _ (by rw [List.length_map, List.length_range]),
      List.length_map, List.length_range, Nat.sub_self, hrep, List.set_cons_zero,
      List.range_succ, List.map_append, List.map_singleton, List.append_assoc,
      List.singleton_append]
  obtain ⟨f, hf⟩ : ∃ f, (2 : Nat) ^ 25 = f + 1 := ⟨2 ^ 25 - 1, by norm_num⟩
  unfold hashtable_insert32 _hashtable_insert32
  rw [if_neg (by omega : ¬ (j + 2 ^ 25 = 0)), hlen, hnv, hres,
    if_neg (by decide : ¬ (false = true)), hmod]
  have hprobe : insert_probe32 (2 ^ 25) (wrap32_upto j).buckets j j (j + 2 ^ 25) j
      hashtable_compare_keys hashtable_copy_key j j =
      .ret (0, ⟨(wrap32_upto j).buckets.set j ⟨j, j, j + 2 ^ 25⟩, (j + 1) % SIZE_MOD32⟩) := by
    rw [hf]
    simp only [insert_probe32, hget]
    rfl
  rw [hprobe, hset, Nat.mod_eq_of_lt (by unfold SIZE_MOD32; omega)]
  rfl

/-- The insert loop from `wrap32_upto a` on the next `m` keys. -/
theorem wrap32_upto_insert_all (m : Nat) : ∀ a, a + m ≤ WRAP_COUNT32 →
    insert_all32 (fun i => i + 2 ^ 25) (wrap32_upto a)
        ((List.range' a m).map (fun i => (i, i))) =
      .ret (List.replicate m 0, wrap32_upto (a + m)) := by
  induction m with
  | zero => intro a _; rfl
  | succ m ih =>
    intro a ha
    have hstep := wrap32_upto_step a (by omega)
    have hrest := ih (a + 1) (by omega)
    rw [List.range'_succ, List.map_cons]
    simp only [insert_all32, hstep, hrest, List.replicate_succ]
    rw [show a + 1 + m = a + (m + 1) by omega]

/-- A rehash of more entries than the new array has room for fails its
wraparound assertion. -/
theorem rehash_overfull (old : List Bucket) : ∀ acc : List Bucket, 0 < acc.length →
    acc.length < (live acc).length + (live old).length → rehash old acc = .assert_failed := by
  induction old with
  | nil =>
    intro acc _ h
    have hle := live_length_le acc
    have h0 : (live ([] : List Bucket)).length = 0 := rfl
    omega
  | cons b rest ih =>
    intro acc hn h
    by_cases hb : b.hash = 0
    · rw [live_cons_empty _ hb] at h
      simp only [rehash, hb, if_true]
      exact ih acc hn h
    · rw [live_cons_occ _ hb] at h
      simp only [List.length_cons] at h
      have hs : b.hash % acc.length < acc.length := Nat.mod_lt _ hn
      have hdef := rehash_place_defined acc b (b.hash % acc.length) acc.length
        (b.hash % acc.length) hs
      have hfuel := rehash_place_fuel acc b hs acc.length 0 (by omega) hn
      rw [idx_zero hs] at hfuel
      simp only [rehash, hb, if_false]
      cases hp : rehash_place acc.length acc b (b.hash % acc.length) (b.hash % acc.length) with
      | ret nb =>
        have hp0 : rehash_place acc.length acc b (b.hash % acc.length)
            (idx acc.length (b.hash % acc.length) 0) = .ret nb := by
          rw [idx_zero hs]; exact hp
        obtain ⟨D, hD, ho, he, hset⟩ := rehash_place_result hs acc.length 0 hn
          (fun d hd => absurd hd (Nat.not_lt_zero d)) hp0
        have hperm := live_set_perm (b := b) he hb
        have hl : nb.length = acc.length := by rw [hset, List.length_set]
        have hlive : (live nb).length = (live acc).length + 1 := by
          rw [hset, hperm.length_eq, List.length_cons]
        exact ih nb (by omega) (by omega)
      | undefined => exact absurd hp hdef
      | assert_failed => rfl
      | out_of_fuel => exact absurd hp hfuel

/-- The insert loop on a list in two parts: the second part runs on the table
the first part returns. -/
theorem insert_all32_append (hf : Nat → Nat) (l2 : List (Nat × Nat)) :
    ∀ (l1 : List (Nat × Nat)) (t t1 : Table) (c1 : List Nat),
      insert_all32 hf t l1 = .ret (c1, t1) →
      insert_all32 hf t (l1 ++ l2) =
        match insert_all32 hf t1 l2 with
        | .ret rs => .ret (c1 ++ rs.1, rs.2)
        | .undefined => .undefined
        | .assert_failed => .assert_failed
        | .out_of_fuel => .out_of_fuel := by
  intro l1
  induction l1 with
  | nil =>
    intro t t1 c1 h
    simp only [insert_all32] at h
    cases h
    rw [List.nil_append]
    cases insert_all32 hf t l2 <;> rfl
  | cons kv rest ih =>
    intro t t1 c1 h
    rw [List.cons_append]
    simp only [insert_all32] at h ⊢
    cases hi : hashtable_insert32 true t kv.1 (hf kv.1) kv.2 with
    | ret r =>
      rw [hi] at h
      simp only at h ⊢
      cases hr : insert_all32 hf r.2 rest with
      | ret rs =>
        rw [hr] at h
        simp only at h
        cases h
        rw [ih r.2 rs.2 rs.1 hr]
        cases insert_all32 hf rs.2 l2 <;> rfl
      | undefined => rw [hr] at h; cases h
      | assert_failed => rw [hr] at h; cases h
      | out_of_fuel => rw [hr] at h; cases h
    | undefined => rw [hi] at h; cases h
    | assert_failed => rw [hi] at h; cases h
    | out_of_fuel => rw [hi] at h; cases h

/-- The insert loop on a list in two parts, both of which return. -/
theorem insert_all32_append_ret (hf : Nat → Nat) {l1 l2 : List (Nat × Nat)} {t t1 t2 : Table}
    {c1 c2 : List Nat} (h1 : insert_all32 hf t l1 = .ret (c1, t1))
    (h2 : insert_all32 hf t1 l2 = .ret (c2, t2)) :
    insert_all32 hf t (l1 ++ l2) = .ret (c1 ++ c2, t2) := by
  rw [insert_all32_append hf l2 l1 t t1 c1 h1, h2]

/-- The insert loop on a list in two parts, the second of which fails an
assertion. -/
theorem insert_all32_append_assert (hf : Nat → Nat) {l1 l2 : List (Nat × Nat)} {t t1 : Table}
    {c1 : List Nat} (h1 : insert_all32 hf t l1 = .ret (c1, t1))
    (h2 : insert_all32 hf t1 l2 = .assert_failed) :
    insert_all32 hf t (l1 ++ l2) = .assert_failed := by
  rw [insert_all32_append hf l2 l1 t t1 c1 h1, h2]

/-- The table `wrap32_table` has `2 ^ 25` buckets. -/
theorem wrap32_table_length : wrap32_table.buckets.length = 2 ^ 25 :=
  wrap32_upto_length WRAP_COUNT32 (by rw [wrap32_count_eq]; norm_num)

/-- In `wrap32_table` the counter equals the number of buckets in use. -/
theorem wrap32_table_live_length : (live wrap32_table.buckets).length = WRAP_COUNT32 := by
  unfold wrap32_table
  rw [wrap32_upto_live, List.length_map, List.length_range]

/-- On a 32-bit build the insert of the next key into `wrap32_table` succeeds
after a growth to the wrapped capacity `24159191`. -/
theorem wrap32_table_insert :
    ∃ t', hashtable_insert32 true wrap32_table 23488103 (23488103 + 2 ^ 25) 23488103 =
        .ret (0, t') ∧
      t'.buckets.length = 24159191 ∧ t'.num_values = 23488104 ∧
      (live t'.buckets).length = 23488104 := by
  have hlen := wrap32_table_length
  have hlive : live wrap32_table.buckets =
      (List.range WRAP_COUNT32).map (fun i => (⟨i, i, i + 2 ^ 25⟩ : Bucket)) :=
    wrap32_upto_live WRAP_COUNT32
  have hlivelen := wrap32_table_live_length
  have hnv : wrap32_table.num_values = WRAP_COUNT32 := rfl
  have hroom : (live (List.replicate 24159191 Bucket.zero)).length +
      (live wrap32_table.buckets).length <
      (List.replicate 24159191 Bucket.zero).length := by
    rw [live_replicate, List.length_replicate, hlivelen, wrap32_count_eq]
    norm_num
  obtain ⟨r, hr, hrl, hrc, hrp⟩ := rehash_spec wrap32_table.buckets _ (chain_replicate _) hroom
  rw [live_replicate, List.append_nil] at hrp
  rw [List.length_replicate] at hrl
  have habs : ∀ c ∈ live r, c.key ≠ 23488103 := by
    intro c hc
    have hc' := hrp.mem_iff.1 hc
    rw [hlive] at hc'
    obtain ⟨i, hi, rfl⟩ := List.mem_map.1 hc'
    have hlt := List.mem_range.1 hi
    rw [wrap32_count_eq] at hlt
    show i ≠ 23488103
    omega
  have hroom' : (live r).length < r.length := by
    rw [hrp.length_eq, hlivelen, hrl, wrap32_count_eq]
    norm_num
  obtain ⟨p, hp, _, _, hpp⟩ :=
    insert_probe_fresh hrc hroom' habs WRAP_COUNT32 (h := 23488103 + 2 ^ 25) (by norm_num)
      23488103
  have hcnt : (WRAP_COUNT32 + 1) % SIZE_MOD = 23488104 := by
    rw [wrap32_count_eq]
    unfold SIZE_MOD
    norm_num
  refine ⟨⟨r.set p ⟨23488103, 23488103, 23488103 + 2 ^ 25⟩, (WRAP_COUNT32 + 1) % SIZE_MOD⟩,
    ?_, ?_, hcnt, ?_⟩
  · unfold hashtable_insert32 _hashtable_insert32
    rw [if_neg (by norm_num : ¬ (23488103 + 2 ^ 25 = 0)), hlen, hnv,
      if_pos wrap32_needs_resize, if_neg (by decide : ¬ (true = false)),
      wrap32_num_new_buckets, hr]
    show insert_probe32 r.length r WRAP_COUNT32 23488103 (23488103 + 2 ^ 25) 23488103
      hashtable_compare_keys hashtable_copy_key ((23488103 + 2 ^ 25) % r.length)
      ((23488103 + 2 ^ 25) % r.length) = _
    rw [insert_probe32_eq r WRAP_COUNT32 23488103 (23488103 + 2 ^ 25) 23488103
      hashtable_compare_keys hashtable_copy_key ((23488103 + 2 ^ 25) % r.length)
      (by rw [wrap32_count_eq]; norm_num)]
    exact hp
  · rw [List.length_set, hrl]
  · show (live (r.set p ⟨23488103, 23488103, 23488103 + 2 ^ 25⟩)).length = 23488104
    rw [hpp.length_eq, List.length_cons, hrp.length_eq, hlivelen, wrap32_count_eq]

/-- On a 32-bit build, an insert with a nonzero hash into a table of `24159191`
buckets that holds `23488104` entries fails the assertion of the rehash: the
growth test holds, the new capacity `24159191 * 200 mod 2 ^ 32 / 100` is
`5368709`, and the entries do not fit. -/
theorem insert32_overfull {t : Table} (hlen : t.buckets.length = 24159191)
    (hnv : t.num_values = 23488104) (hlive : (live t.buckets).length = 23488104)
    (k h v : Nat) (hh : h ≠ 0) (cmp : Nat → Nat → Int) (cpy : Nat → Nat → Nat × Int) :
    _hashtable_insert32 true t k h v cmp cpy = .assert_failed := by
  have hres : needs_resize32 24159191 23488104 = true := by decide
  have hnew : num_new_buckets32 24159191 = 5368709 := by decide
  have hre : rehash t.buckets (List.replicate 5368709 Bucket.zero) = .assert_failed := by
    apply rehash_overfull
    · rw [List.length_replicate]; norm_num
    · rw [live_replicate, List.length_replicate, hlive]
      norm_num
  unfold _hashtable_insert32
  rw [if_neg hh, hlen, hnv, if_pos hres, if_neg (by decide : ¬ (true = false)), hnew, hre]

/-- The insert loop on a single pair whose insert returns. -/
theorem insert_all32_single (hf : Nat → Nat) {t t' : Table} {k v e : Nat}
    (h : hashtable_insert32 true t k (hf k) v = .ret (e, t')) :
    insert_all32 hf t [(k, v)] = .ret ([e], t') := by
  simp only [insert_all32, h]

/-- The insert loop on a single pair whose insert fails an assertion. -/
theorem insert_all32_single_assert (hf : Nat → Nat) {t : Table} {k v : Nat}
    (h : hashtable_insert32 true t k (hf k) v = .assert_failed) :
    insert_all32 hf t [(k, v)] = .assert_failed := by
  simp only [insert_all32, h]

/-- On a 32-bit build, `init(2 ^ 25)` followed by the inserts of the keys `0` to
`23488103` (key `i` under the hash `i + 2 ^ 25`): every insert reports code `0`,
and the table then has `24159191` buckets and `23488104` entries. -/
theorem wrap32_built :
    ∃ t, insert_all32 (fun i => i + 2 ^ 25) (wrap32_upto 0)
        ((List.range 23488104).map (fun i => (i, i))) =
        .ret (List.replicate 23488104 0, t) ∧
      t.buckets.length = 24159191 ∧ t.num_values = 23488104 ∧
      (live t.buckets).length = 23488104 := by
  obtain ⟨t, hins, h1, h2, h3⟩ := wrap32_table_insert
  refine ⟨t, ?_, h1, h2, h3⟩
  have htab : wrap32_upto 23488103 = wrap32_table := rfl
  have hfirst := wrap32_upto_insert_all WRAP_COUNT32 0 (by omega)
  rw [Nat.zero_add, ← List.range_eq_range', wrap32_count_eq, htab] at hfirst
  have hlast := insert_all32_single (fun i => i + 2 ^ 25) hins
  have happ := insert_all32_append_ret (fun i => i + 2 ^ 25) hfirst hlast
  have e : (23488104 : Nat) = 23488103 + 1 := rfl
  rw [e, List.range_succ, List.map_append, List.map_singleton, List.replicate_succ']
  exact happ

/-- On a 32-bit build, a successful `init(2 ^ 25)` followed by the successful
inserts of the keys `0` to `WRAP_COUNT32 - 1` (key `i` under the hash
`i + 2 ^ 25`) gives the table `wrap32_table`. -/
theorem wrap32_table_built :
    _hashtable_init true (2 ^ 25) = (0, some (wrap32_upto 0)) ∧
    insert_all32 (fun i => i + 2 ^ 25) (wrap32_upto 0)
        ((List.range WRAP_COUNT32).map (fun i => (i, i))) =
      .ret (List.replicate WRAP_COUNT32 0, wrap32_table) := by
  refine ⟨wrap32_upto_zero, ?_⟩
  have htab : wrap32_upto WRAP_COUNT32 = wrap32_table := rfl
  have h := wrap32_upto_insert_all WRAP_COUNT32 0 (by omega)
  rw [Nat.zero_add, ← List.range_eq_range', htab] at h
  exact h

/-! ## The 64-bit build: bounded tables, and the wrap at `2 ^ 57` buckets -/

/-- On the 64-bit build, for every sequence of fewer than `2 ^ 55` inserts into a
freshly initialised table of any initial capacity `N`, `0` included, with
pairwise distinct keys and nonzero hashes, every allocation and key copy
succeeding and the comparison being key equality: every insert reports code `0`,
afterwards `find(k, hash(k))` returns the value inserted with `k` for every
inserted key, and `liveCount` is the number of keys inserted. -/
theorem inserts_then_find_bounded (hf : Nat → Nat) (c : Bool) (N : Nat) (t0 : Table)
    (kvs : List (Nat × Nat)) (hinit : _hashtable_init c N = (0, some t0))
    (hnd : (kvs.map Prod.fst).Nodup) (hh : ∀ kv ∈ kvs, hf kv.1 ≠ 0)
    (hlen : kvs.length < 2 ^ 55) :
    ∃ t, insert_all hf t0 kvs = .ret (List.replicate kvs.length 0, t) ∧
      (∀ kv ∈ kvs, hashtable_find t kv.1 (hf kv.1) = .ret (some kv.2)) ∧
      hashtable_num_values t = kvs.length := by
  obtain ⟨hwf0, ht0⟩ := wf_init hf hinit
  have hlive0 : live t0.buckets = [] := by rw [ht0]; exact live_replicate N
  have hnv0 : t0.num_values = 0 := by rw [ht0]
  obtain ⟨t, hrun, hwf, hin, _, _, hnv, _⟩ := insert_all_spec hf kvs t0 hwf0 hh hnd
    (by intro kv _ b hb; rw [hlive0] at hb; cases hb) (by omega)
  refine ⟨t, hrun, ?_, by unfold hashtable_num_values; omega⟩
  intro kv hkv
  exact find_of_live hwf (hin kv hkv)

/-- A run of `inserts_then_find_bounded`: three keys, two of which collide, into
a table of capacity `0`. -/
theorem inserts_then_find_bounded_run :
    (_hashtable_init true 0 = (0, some ⟨[], 0⟩) ∧
      ([(0, 10), (8, 20), (3, 30)].map Prod.fst).Nodup ∧
      (∀ kv ∈ [(0, 10), (8, 20), (3, 30)], (fun k => k + 1) kv.1 ≠ 0) ∧
      [(0, 10), (8, 20), (3, 30)].length < 2 ^ 55) ∧
    ∃ t, insert_all (fun k => k + 1) ⟨[], 0⟩ [(0, 10), (8, 20), (3, 30)] =
        .ret (List.replicate [(0, 10), (8, 20), (3, 30)].length 0, t) ∧
      (∀ kv ∈ [(0, 10), (8, 20), (3, 30)],
        hashtable_find t kv.1 ((fun k => k + 1) kv.1) = .ret (some kv.2)) ∧
      hashtable_num_values t = [(0, 10), (8, 20), (3, 30)].length :=
  ⟨⟨rfl, by decide, by decide, by decide⟩,
    inserts_then_find_bounded (fun k => k + 1) true 0 ⟨[], 0⟩ [(0, 10), (8, 20), (3, 30)] rfl
      (by decide) (by decide) (by decide)⟩

/-- On the 64-bit build, for every table built by successful inserts of distinct
keys (fewer than `2 ^ 55` entries) and every insert of a new key that triggers
growth, allocation succeeding: the insert succeeds, every key that was live
before is findable afterwards with the same value, `liveCount` is the number of
old entries plus one, and the buckets in use of the new array are exactly the
old entries and the new one. -/
theorem growth_keeps_entries_bounded (hf : Nat → Nat) (t : Table) (hb : Built hf t)
    (hnv : t.num_values < 2 ^ 55) (k v : Nat) (hk : hf k ≠ 0)
    (habs : ∀ b ∈ live t.buckets, b.key ≠ k)
    (hgrow : needs_resize t.buckets.length t.num_values = true) :
    ∃ t', hashtable_insert true t k (hf k) v = .ret (0, t') ∧
      hashtable_num_buckets t' = num_new_buckets (hashtable_num_buckets t) ∧
      (∀ b ∈ live t.buckets, hashtable_find t' b.key b.hash = .ret (some b.value)) ∧
      hashtable_num_values t' = (live t.buckets).length + 1 ∧
      (live t'.buckets).Perm (⟨k, v, hf k⟩ :: live t.buckets) := by
  have hwf := built_wf hb
  obtain ⟨t', hins, hwf', hperm, hnv', hcap'⟩ := insert_fresh hwf hnv hk habs v
  refine ⟨t', hins, ?_, ?_, ?_, hperm⟩
  · unfold hashtable_num_buckets; rw [hcap', if_pos hgrow]
  · intro b hb
    exact find_of_live hwf' (hperm.mem_iff.2 (List.mem_cons_of_mem _ hb))
  · unfold hashtable_num_values; rw [hnv', hwf.count]

/-- A run of `growth_keeps_entries_bounded`: a full table of capacity `1`; the
insert of key `5` grows it. -/
theorem growth_keeps_entries_bounded_run :
    (Built (fun k => k + 1) ⟨[⟨3, 30, 4⟩], 1⟩ ∧ (1 : Nat) < 2 ^ 55 ∧ (fun k => k + 1) 5 ≠ 0 ∧
      (∀ b ∈ live [⟨3, 30, 4⟩], b.key ≠ 5) ∧ needs_resize 1 1 = true) ∧
    ∃ t', hashtable_insert true ⟨[⟨3, 30, 4⟩], 1⟩ 5 ((fun k => k + 1) 5) 50 = .ret (0, t') ∧
      hashtable_num_buckets t' = num_new_buckets (hashtable_num_buckets ⟨[⟨3, 30, 4⟩], 1⟩) ∧
      (∀ b ∈ live [⟨3, 30, 4⟩], hashtable_find t' b.key b.hash = .ret (some b.value)) ∧
      hashtable_num_values t' = (live [⟨3, 30, 4⟩]).length + 1 ∧
      (live t'.buckets).Perm (⟨5, 50, (fun k => k + 1) 5⟩ :: live [⟨3, 30, 4⟩]) :=
  ⟨⟨Built.insert true ⟨[Bucket.zero], 0⟩ 3 30 _ (Built.init true 1 _ rfl) (by decide) rfl,
      by decide, by decide, by decide, by decide⟩,
    growth_keeps_entries_bounded (fun k => k + 1) ⟨[⟨3, 30, 4⟩], 1⟩
      (Built.insert true ⟨[Bucket.zero], 0⟩ 3 30 _ (Built.init true 1 _ rfl) (by decide) rfl)
      (by decide) 5 50 (by decide) (by decide) (by decide)⟩

/-- On the 64-bit build the growth wraps at `2 ^ 57` buckets: `init(2 ^ 57)`
followed by the successful inserts of the keys `0` to `WRAP_COUNT - 1` (key `i`
under the hash `i + 2 ^ 57`) gives the table `wrap_table`: `2 ^ 57` buckets,
`WRAP_COUNT` of them in use, `liveCount` equal to the number of nonzero-tag
buckets, a load of 70%.  The insert of the new key `2 ^ 57` (allocation
succeeding) computes the new capacity as
`2 ^ 57 * 200 mod 2 ^ 64 / 100 = 103762935414616227`, rehashes into the smaller
array and succeeds: the capacity after the call is below the capacity before
it. -/
theorem wrap_table_capacity_shrinks :
    _hashtable_init true (2 ^ 57) = (0, some (wrap_upto 0)) ∧
    insert_all (fun i => i + 2 ^ 57) (wrap_upto 0)
        ((List.range WRAP_COUNT).map (fun i => (i, i))) =
      .ret (List.replicate WRAP_COUNT 0, wrap_table) ∧
    hashtable_num_buckets wrap_table = 2 ^ 57 ∧
    hashtable_num_values wrap_table = (live wrap_table.buckets).length ∧
    ∃ t', hashtable_insert true wrap_table (2 ^ 57) (2 ^ 57) 0 = .ret (0, t') ∧
      hashtable_num_buckets t' = 103762935414616227 ∧
      hashtable_num_buckets t' < hashtable_num_buckets wrap_table := by
  have hlen := wrap_table_length
  have hlive := wrap_table_live
  have hlivelen : (live wrap_table.buckets).length = WRAP_COUNT := by
    rw [hlive, List.length_map, List.length_range]
  have hnv : wrap_table.num_values = WRAP_COUNT := rfl
  have hroom : (live (List.replicate 103762935414616227 Bucket.zero)).length +
      (live wrap_table.buckets).length <
      (List.replicate 103762935414616227 Bucket.zero).length := by
    rw [live_replicate, List.length_replicate, hlivelen, wrap_count_eq]
    norm_num
  obtain ⟨r, hr, hrl, hrc, hrp⟩ := rehash_spec wrap_table.buckets _ (chain_replicate _) hroom
  rw [live_replicate, List.append_nil] at hrp
  rw [List.length_replicate] at hrl
  have habs : ∀ c ∈ live r, c.key ≠ 2 ^ 57 := by
    intro c hc
    have hc' := hrp.mem_iff.1 hc
    rw [hlive] at hc'
    obtain ⟨i, hi, rfl⟩ := List.mem_map.1 hc'
    have hlt := List.mem_range.1 hi
    rw [wrap_count_eq] at hlt
    show i ≠ 2 ^ 57
    omega
  have hroom' : (live r).length < r.length := by
    rw [hrp.length_eq, hlivelen, hrl, wrap_count_eq]
    norm_num
  obtain ⟨p, hp, _, _, _⟩ :=
    insert_probe_fresh hrc hroom' habs WRAP_COUNT (h := 2 ^ 57) (by norm_num) 0
  have hbuilt : insert_all (fun i => i + 2 ^ 57) (wrap_upto 0)
      ((List.range WRAP_COUNT).map (fun i => (i, i))) =
      .ret (List.replicate WRAP_COUNT 0, wrap_table) := by
    have h := wrap_upto_insert_all WRAP_COUNT 0 (by omega)
    rw [Nat.zero_add, ← List.range_eq_range'] at h
    exact h
  refine ⟨wrap_upto_zero, hbuilt, hlen, by rw [hlivelen]; rfl,
    ⟨r.set p ⟨2 ^ 57, 0, 2 ^ 57⟩, (WRAP_COUNT + 1) % SIZE_MOD⟩, ?_, ?_, ?_⟩
  · unfold hashtable_insert _hashtable_insert
    rw [if_neg (by norm_num : ¬ ((2 : Nat) ^ 57 = 0)), hlen, hnv, if_pos wrap_needs_resize,
      if_neg (by decide : ¬ (true = false)), wrap_num_new_buckets, hr]
    exact hp
  · unfold hashtable_num_buckets
    rw [List.length_set, hrl]
  · unfold hashtable_num_buckets
    rw [List.length_set, hrl, hlen]
    norm_num

/-- On the 64-bit build, `wrap_table` has capacity `2 ^ 57` and a load of 70%, so
the growth test holds; the insert of the new key `2 ^ 57` with a nonzero hash,
allocation succeeding, replaces the array, but the new capacity is
`103762935414616227`, not twice the old capacity: the product `2 ^ 57 * 200`
wraps modulo `2 ^ 64`. -/
theorem wrap_table_not_double :
    hashtable_num_buckets wrap_table ≠ 0 ∧
    70 ≤ 100 * hashtable_num_values wrap_table / hashtable_num_buckets wrap_table ∧
    (∃ t', hashtable_insert true wrap_table (2 ^ 57) (2 ^ 57) 0 = .ret (0, t') ∧
      hashtable_num_buckets t' = 103762935414616227) ∧
    103762935414616227 ≠ 2 * hashtable_num_buckets wrap_table := by
  have hlen : hashtable_num_buckets wrap_table = 2 ^ 57 := wrap_table_length
  have hnv : hashtable_num_values wrap_table = 100880631653099111 := rfl
  refine ⟨?_, ?_, ?_, ?_⟩
  · rw [hlen]; norm_num
  · rw [hlen, hnv]; norm_num
  · obtain ⟨t', h1, h2⟩ := wrap_table_insert
    exact ⟨t', h1, h2⟩
  · rw [hlen]; norm_num

/-- On the 64-bit build, in `wrap_table`, of capacity `2 ^ 57`, `liveCount`
equals the number of buckets in use.  The insert of the new key `2 ^ 57`
succeeds, and afterwards capacity is `103762935414616227` and `liveCount` is
`100880631653099112`: `liveCount` is at most the capacity, but
`100 * (liveCount - 1)` is not below `70 * capacity` (the load is 97%), because
the new capacity `2 ^ 57 * 200 / 100` was computed modulo `2 ^ 64`. -/
theorem wrap_table_load :
    hashtable_num_values wrap_table = (live wrap_table.buckets).length ∧
    ∃ t', hashtable_insert true wrap_table (2 ^ 57) (2 ^ 57) 0 = .ret (0, t') ∧
      hashtable_num_buckets t' = 103762935414616227 ∧
      hashtable_num_values t' = 100880631653099112 ∧
      hashtable_num_values t' ≤ hashtable_num_buckets t' ∧
      ¬ (100 * (hashtable_num_values t' - 1) < 70 * hashtable_num_buckets t') := by
  have hnv : wrap_table.num_values = 100880631653099111 := rfl
  have hlivelen : (live wrap_table.buckets).length = WRAP_COUNT := by
    rw [wrap_table_live, List.length_map, List.length_range]
  refine ⟨?_, ?_⟩
  · rw [hlivelen]
    rfl
  · obtain ⟨t', h1, h2⟩ := wrap_table_insert
    have h1' : _hashtable_insert true wrap_table (2 ^ 57) (2 ^ 57) 0 hashtable_compare_keys
        hashtable_copy_key = .ret (0, t') := h1
    have h3 := insert_success_count h1'
    rw [hnv] at h3
    have h4 : t'.num_values = 100880631653099112 := by
      rw [h3]
      unfold SIZE_MOD
      norm_num
    have e1 : hashtable_num_buckets t' = 103762935414616227 := h2
    have e2 : hashtable_num_values t' = 100880631653099112 := h4
    refine ⟨t', h1, e1, e2, ?_, ?_⟩
    · rw [e1, e2]
      norm_num
    · rw [e1, e2]
      norm_num

/-! ## The claims of the specification -/

/-- C1 (the code departs from the claim): on a 32-bit build, `init(2 ^ 25)` and
the inserts of the `23488105` pairwise distinct keys `0` to `23488104`, key `i`
under the nonzero hash `i + 2 ^ 25`, every allocation and key copy succeeding,
with the default comparison.  The first `23488104` inserts report code `0`; the
last of them finds a load of 70%, computes the new capacity
`2 ^ 25 * 200 mod 2 ^ 32 / 100 = 24159191` and rehashes into that smaller array.
The next insert finds a load of 97%, computes the new capacity
`24159191 * 200 mod 2 ^ 32 / 100 = 5368709`, and the rehash of `23488104`
entries into it fails its assertion: the sequence of inserts does not
complete. -/
theorem C1_inserts_fail_assertion :
    _hashtable_init true (2 ^ 25) = (0, some (wrap32_upto 0)) ∧
    (((List.range 23488105).map (fun i => (i, i))).map Prod.fst).Nodup ∧
    (∀ i, i < 23488105 → i + 2 ^ 25 ≠ 0 ∧ i + 2 ^ 25 < 2 ^ 32) ∧
    (∃ t, insert_all32 (fun i => i + 2 ^ 25) (wrap32_upto 0)
        ((List.range 23488104).map (fun i => (i, i))) =
        .ret (List.replicate 23488104 0, t) ∧
      hashtable_num_buckets t = 24159191 ∧ hashtable_num_values t = 23488104) ∧
    insert_all32 (fun i => i + 2 ^ 25) (wrap32_upto 0)
        ((List.range 23488105).map (fun i => (i, i))) = .assert_failed := by
  obtain ⟨t, hfirst, h1, h2, h3⟩ := wrap32_built
  refine ⟨wrap32_upto_zero, ?_, ?_, ⟨t, hfirst, h1, h2⟩, ?_⟩
  · have hcomp : (Prod.fst ∘ fun i : Nat => (i, i)) = id := rfl
    rw [List.map_map, hcomp, List.map_id]
    exact List.nodup_range _
  · intro i hi
    omega
  · have hfail : hashtable_insert32 true t 23488104 ((fun i => i + 2 ^ 25) 23488104)
        23488104 = .assert_failed :=
      insert32_overfull h1 h2 h3 23488104 (23488104 + 2 ^ 25) 23488104 (by norm_num)
        hashtable_compare_keys hashtable_copy_key
    have hlast := insert_all32_single_assert (fun i => i + 2 ^ 25) hfail
    have happ := insert_all32_append_assert (fun i => i + 2 ^ 25) hfirst hlast
    have e : (23488105 : Nat) = 23488104 + 1 := rfl
    rw [e, List.range_succ, List.map_append, List.map_singleton]
    exact happ

/-- C2 (the code departs from the claim): in a table of capacity `8` built by
inserting keys `8`, `1` and `9` under the hashes `8`, `1`, `9`, key `9` is
findable; after `erase(8, 8)` the entry of key `9` has been moved in front of its
ideal index `1`, and `find(9, 9)` returns not-found. -/
theorem C2_erase_loses_key :
    insert_all (fun k => k) ⟨List.replicate 8 Bucket.zero, 0⟩ [(8, 10), (1, 20), (9, 30)] =
      .ret ([0, 0, 0],
        ⟨[⟨8, 10, 8⟩, ⟨1, 20, 1⟩, ⟨9, 30, 9⟩, ⟨0, 0, 0⟩, ⟨0, 0, 0⟩, ⟨0, 0, 0⟩, ⟨0, 0, 0⟩,
          ⟨0, 0, 0⟩], 3⟩) ∧
    hashtable_find
      ⟨[⟨8, 10, 8⟩, ⟨1, 20, 1⟩, ⟨9, 30, 9⟩, ⟨0, 0, 0⟩, ⟨0, 0, 0⟩, ⟨0, 0, 0⟩, ⟨0, 0, 0⟩,
        ⟨0, 0, 0⟩], 3⟩ 9 9 = .ret (some 30) ∧
    hashtable_erase 8
      ⟨[⟨8, 10, 8⟩, ⟨1, 20, 1⟩, ⟨9, 30, 9⟩, ⟨0, 0, 0⟩, ⟨0, 0, 0⟩, ⟨0, 0, 0⟩, ⟨0, 0, 0⟩,
        ⟨0, 0, 0⟩], 3⟩ 8 8 =
      .ret ⟨[⟨9, 30, 9⟩, ⟨1, 20, 1⟩, ⟨9, 30, 0⟩, ⟨0, 0, 0⟩, ⟨0, 0, 0⟩, ⟨0, 0, 0⟩, ⟨0, 0, 0⟩,
        ⟨0, 0, 0⟩], 2⟩ ∧
    hashtable_find
      ⟨[⟨9, 30, 9⟩, ⟨1, 20, 1⟩, ⟨9, 30, 0⟩, ⟨0, 0, 0⟩, ⟨0, 0, 0⟩, ⟨0, 0, 0⟩, ⟨0, 0, 0⟩,
        ⟨0, 0, 0⟩], 2⟩ 9 9 = .ret none := by
  refine ⟨rfl, rfl, rfl, rfl⟩

/-- C3 (the code departs from the claim): a table of capacity `3` built by
inserting keys `1` and `2` under the hashes `6` and `9` (hash `3 * k + 3`); key
`3` is not in it.  `insert(3, 12, 30)` succeeds and `find(3, 12)` returns `30`,
but the following `erase(3, 12)` never returns: its backward shift moves the
entry of key `2` back and forth for ever. -/
theorem C3_erase_does_not_return :
    insert_all (fun k => 3 * k + 3) ⟨List.replicate 3 Bucket.zero, 0⟩ [(1, 10), (2, 20)] =
      .ret ([0, 0], ⟨[⟨1, 10, 6⟩, ⟨2, 20, 9⟩, ⟨0, 0, 0⟩], 2⟩) ∧
    hashtable_insert true ⟨[⟨1, 10, 6⟩, ⟨2, 20, 9⟩, ⟨0, 0, 0⟩], 2⟩ 3 12 30 =
      .ret (0, ⟨[⟨1, 10, 6⟩, ⟨2, 20, 9⟩, ⟨3, 30, 12⟩], 3⟩) ∧
    hashtable_find ⟨[⟨1, 10, 6⟩, ⟨2, 20, 9⟩, ⟨3, 30, 12⟩], 3⟩ 3 12 = .ret (some 30) ∧
    ∀ fuel, hashtable_erase fuel ⟨[⟨1, 10, 6⟩, ⟨2, 20, 9⟩, ⟨3, 30, 12⟩], 3⟩ 3 12 =
      .out_of_fuel := by
  refine ⟨rfl, rfl, rfl, ?_⟩
  intro fuel
  match fuel with
  | 0 => rfl
  | 1 => rfl
  | 2 => rfl
  | f + 3 =>
    have hsearch : erase_search (f + 3) [⟨1, 10, 6⟩, ⟨2, 20, 9⟩, ⟨3, 30, 12⟩] 3
        hashtable_compare_keys (12 % 3) = .ret 2 := by
      simp [erase_search, hashtable_compare_keys]
    have hshift : erase_shift (f + 3) [⟨1, 10, 6⟩, ⟨2, 20, 9⟩, ⟨0, 0, 0⟩] 2 0 =
        erase_shift (f + 1) [⟨1, 10, 6⟩, ⟨2, 20, 0⟩, ⟨2, 20, 9⟩] 1 2 := by
      simp [erase_shift]
    have hcyc := erase_shift_cycle (f + 1)
    simp only [hashtable_erase, _hashtable_erase]
    simp [hsearch, Bucket.zero, hshift, hcyc]

/-- C4 (the code departs from the claim): key `3` is inserted and removed by
`clear`, then key `4` is inserted, so the table is non-empty and key `3` is not
live (`find(3, 3)` is not-found).  `erase(3, 3)` matches the stale key bytes of
the emptied bucket and decrements `liveCount` from `1` to `0`, although key `4`
is still stored.  For key `7`, whose bytes are in no bucket, `erase(7, 7)` never
returns. -/
theorem C4_erase_absent_key_not_noop :
    hashtable_insert true ⟨List.replicate 8 Bucket.zero, 0⟩ 3 3 30 =
      .ret (0, ⟨[⟨0, 0, 0⟩, ⟨0, 0, 0⟩, ⟨0, 0, 0⟩, ⟨3, 30, 3⟩, ⟨0, 0, 0⟩, ⟨0, 0, 0⟩, ⟨0, 0, 0⟩,
        ⟨0, 0, 0⟩], 1⟩) ∧
    _hashtable_clear ⟨[⟨0, 0, 0⟩, ⟨0, 0, 0⟩, ⟨0, 0, 0⟩, ⟨3, 30, 3⟩, ⟨0, 0, 0⟩, ⟨0, 0, 0⟩,
        ⟨0, 0, 0⟩, ⟨0, 0, 0⟩], 1⟩ false =
      (⟨[⟨0, 0, 0⟩, ⟨0, 0, 0⟩, ⟨0, 0, 0⟩, ⟨3, 30, 0⟩, ⟨0, 0, 0⟩, ⟨0, 0, 0⟩, ⟨0, 0, 0⟩,
        ⟨0, 0, 0⟩], 0⟩, []) ∧
    hashtable_insert true ⟨[⟨0, 0, 0⟩, ⟨0, 0, 0⟩, ⟨0, 0, 0⟩, ⟨3, 30, 0⟩, ⟨0, 0, 0⟩, ⟨0, 0, 0⟩,
        ⟨0, 0, 0⟩, ⟨0, 0, 0⟩], 0⟩ 4 4 40 =
      .ret (0, ⟨[⟨0, 0, 0⟩, ⟨0, 0, 0⟩, ⟨0, 0, 0⟩, ⟨3, 30, 0⟩, ⟨4, 40, 4⟩, ⟨0, 0, 0⟩, ⟨0, 0, 0⟩,
        ⟨0, 0, 0⟩], 1⟩) ∧
    hashtable_find ⟨[⟨0, 0, 0⟩, ⟨0, 0, 0⟩, ⟨0, 0, 0⟩, ⟨3, 30, 0⟩, ⟨4, 40, 4⟩, ⟨0, 0, 0⟩,
        ⟨0, 0, 0⟩, ⟨0, 0, 0⟩], 1⟩ 3 3 = .ret none ∧
    hashtable_erase 8 ⟨[⟨0, 0, 0⟩, ⟨0, 0, 0⟩, ⟨0, 0, 0⟩, ⟨3, 30, 0⟩, ⟨4, 40, 4⟩, ⟨0, 0, 0⟩,
        ⟨0, 0, 0⟩, ⟨0, 0, 0⟩], 1⟩ 3 3 =
      .ret ⟨[⟨0, 0, 0⟩, ⟨0, 0, 0⟩, ⟨0, 0, 0⟩, ⟨0, 0, 0⟩, ⟨4, 40, 4⟩, ⟨0, 0, 0⟩, ⟨0, 0, 0⟩,
        ⟨0, 0, 0⟩], 0⟩ ∧
    ∀ fuel, hashtable_erase fuel ⟨[⟨0, 0, 0⟩, ⟨0, 0, 0⟩, ⟨0, 0, 0⟩, ⟨3, 30, 0⟩, ⟨4, 40, 4⟩,
        ⟨0, 0, 0⟩, ⟨0, 0, 0⟩, ⟨0, 0, 0⟩], 1⟩ 7 7 = .out_of_fuel := by
  refine ⟨rfl, rfl, rfl, rfl, rfl, ?_⟩
  intro fuel
  have hsearch := erase_search_absent
    [⟨0, 0, 0⟩, ⟨0, 0, 0⟩, ⟨0, 0, 0⟩, ⟨3, 30, 0⟩, ⟨4, 40, 4⟩, ⟨0, 0, 0⟩, ⟨0, 0, 0⟩, ⟨0, 0, 0⟩]
    7 hashtable_compare_keys (by decide) fuel 7 (by decide)
  simp only [hashtable_erase, _hashtable_erase]
  simp [hsearch]

/-- C5 fails as stated: a table of capacity `1` built by `init(1)` and the insert
of key `3` is at a load of 100%.  Inserting the live key `3` again asks for a
larger array before the probe; when that allocation fails the insert reports the
AllocationError code `4`, not the DuplicateKey code `2`. -/
theorem C5_counterexample :
    _hashtable_init true 1 = (0, some ⟨[Bucket.zero], 0⟩) ∧
    hashtable_insert true ⟨[Bucket.zero], 0⟩ 3 4 30 = .ret (0, ⟨[⟨3, 30, 4⟩], 1⟩) ∧
    hashtable_find ⟨[⟨3, 30, 4⟩], 1⟩ 3 4 = .ret (some 30) ∧
    needs_resize 1 1 = true ∧
    hashtable_insert false ⟨[⟨3, 30, 4⟩], 1⟩ 3 4 31 = .ret (4, ⟨[⟨3, 30, 4⟩], 1⟩) := by
  refine ⟨rfl, rfl, rfl, by decide, rfl⟩

/-- C5, amended: for every table built by successful inserts of distinct keys
(64-bit build, fewer than `2 ^ 55` entries) and every live key `k` with stored
value `v`, when the allocation of a larger array, if the load asks for one,
succeeds: `insert(k, hash(k), v')` reports the DuplicateKey code `2`, and
afterwards `find(k, hash(k))` still returns `v` and `liveCount` is unchanged. -/
theorem C5_duplicate_insert (hf : Nat → Nat) (t : Table) (hb : Built hf t)
    (hnv : t.num_values < 2 ^ 55) (k v : Nat)
    (hlive : (⟨k, v, hf k⟩ : Bucket) ∈ live t.buckets) (c : Bool)
    (hc : needs_resize t.buckets.length t.num_values = true → c = true) (v' : Nat) :
    ∃ t', hashtable_insert c t k (hf k) v' = .ret (2, t') ∧
      hashtable_find t' k (hf k) = .ret (some v) ∧
      hashtable_num_values t' = hashtable_num_values t := by
  obtain ⟨t', hins, hwf', hperm, hnv'⟩ := insert_present (built_wf hb) hnv hlive v'
  refine ⟨t', ?_, ?_, hnv'⟩
  · rw [insert_calloc_ok hc]; exact hins
  · exact find_of_live hwf' (hperm.mem_iff.2 hlive)

/-- A run of C5: a table of capacity `1` holding key `3`; the duplicate insert
first grows the table to capacity `2`, then finds the key. -/
theorem C5_duplicate_insert_witness :
    (Built (fun k => k + 1) ⟨[⟨3, 30, 4⟩], 1⟩ ∧ (1 : Nat) < 2 ^ 55 ∧
      (⟨3, 30, (fun k => k + 1) 3⟩ : Bucket) ∈ live [⟨3, 30, 4⟩] ∧
      (needs_resize 1 1 = true → true = true)) ∧
    ∃ t', hashtable_insert true ⟨[⟨3, 30, 4⟩], 1⟩ 3 ((fun k => k + 1) 3) 31 = .ret (2, t') ∧
      hashtable_find t' 3 ((fun k => k + 1) 3) = .ret (some 30) ∧
      hashtable_num_values t' = hashtable_num_values ⟨[⟨3, 30, 4⟩], 1⟩ :=
  ⟨⟨Built.insert true ⟨[Bucket.zero], 0⟩ 3 30 _ (Built.init true 1 _ rfl) (by decide) rfl,
      by decide, by decide, fun _ => rfl⟩,
    C5_duplicate_insert (fun k => k + 1) ⟨[⟨3, 30, 4⟩], 1⟩
      (Built.insert true ⟨[Bucket.zero], 0⟩ 3 30 _ (Built.init true 1 _ rfl) (by decide) rfl)
      (by decide) 3 30 (by decide) true (fun _ => rfl) 31⟩

/-- C6: in every table state (any capacity, `0` included, any `liveCount`, any
bucket contents), for every key, value, comparison, copy function and allocator
behaviour, insert with hash `0` reports the InvalidHash code `1` and returns the
table unchanged: same buckets, hence same capacity, and same `liveCount`. -/
theorem C6_insert_hash_zero (c : Bool) (t : Table) (k v : Nat) (cmp : Nat → Nat → Int)
    (cpy : Nat → Nat → Nat × Int) : _hashtable_insert c t k 0 v cmp cpy = .ret (1, t) := by
  simp [_hashtable_insert]

/-- C7 (the code departs from the claim): after `init(8)`, the insert of key `5`
under hash `13` and `erase` of the absent all-zero key `0` under hash `8` (hash
`k + 8`), `liveCount` is `0` while one bucket still has a nonzero hash tag. -/
theorem C7_erase_breaks_live_count :
    _hashtable_init true 8 = (0, some ⟨List.replicate 8 Bucket.zero, 0⟩) ∧
    hashtable_insert true ⟨List.replicate 8 Bucket.zero, 0⟩ 5 13 50 =
      .ret (0, ⟨[⟨0, 0, 0⟩, ⟨0, 0, 0⟩, ⟨0, 0, 0⟩, ⟨0, 0, 0⟩, ⟨0, 0, 0⟩, ⟨5, 50, 13⟩, ⟨0, 0, 0⟩,
        ⟨0, 0, 0⟩], 1⟩) ∧
    hashtable_erase 8 ⟨[⟨0, 0, 0⟩, ⟨0, 0, 0⟩, ⟨0, 0, 0⟩, ⟨0, 0, 0⟩, ⟨0, 0, 0⟩, ⟨5, 50, 13⟩,
        ⟨0, 0, 0⟩, ⟨0, 0, 0⟩], 1⟩ 0 8 =
      .ret ⟨[⟨0, 0, 0⟩, ⟨0, 0, 0⟩, ⟨0, 0, 0⟩, ⟨0, 0, 0⟩, ⟨0, 0, 0⟩, ⟨5, 50, 13⟩, ⟨0, 0, 0⟩,
        ⟨0, 0, 0⟩], 0⟩ ∧
    hashtable_num_values ⟨[⟨0, 0, 0⟩, ⟨0, 0, 0⟩, ⟨0, 0, 0⟩, ⟨0, 0, 0⟩, ⟨0, 0, 0⟩, ⟨5, 50, 13⟩,
        ⟨0, 0, 0⟩, ⟨0, 0, 0⟩], 0⟩ = 0 ∧
    (live [⟨0, 0, 0⟩, ⟨0, 0, 0⟩, ⟨0, 0, 0⟩, ⟨0, 0, 0⟩, ⟨0, 0, 0⟩, ⟨5, 50, 13⟩, ⟨0, 0, 0⟩,
        ⟨0, 0, 0⟩]).length = 1 := by
  refine ⟨rfl, rfl, rfl, rfl, rfl⟩

/-- C9 fails as stated: six distinct items inserted into a table of capacity `0`
leave the capacity at `8`; the sixth insert does not grow the table. -/
theorem C9_counterexample :
    insert_all (fun k => k) ⟨[], 0⟩ [(1, 1), (2, 2), (3, 3), (4, 4), (5, 5), (6, 6)] =
      .ret ([0, 0, 0, 0, 0, 0],
        ⟨[⟨0, 0, 0⟩, ⟨1, 1, 1⟩, ⟨2, 2, 2⟩, ⟨3, 3, 3⟩, ⟨4, 4, 4⟩, ⟨5, 5, 5⟩, ⟨6, 6, 6⟩,
          ⟨0, 0, 0⟩], 6⟩) ∧
    hashtable_num_buckets
      ⟨[⟨0, 0, 0⟩, ⟨1, 1, 1⟩, ⟨2, 2, 2⟩, ⟨3, 3, 3⟩, ⟨4, 4, 4⟩, ⟨5, 5, 5⟩, ⟨6, 6, 6⟩,
        ⟨0, 0, 0⟩], 6⟩ ≠ 16 := by
  refine ⟨rfl, ?_⟩
  decide

/-- C9, amended: starting from a table of capacity `0`, for any seven distinct
keys with nonzero hashes, every insert succeeds; after the first insert the
capacity is `8`; it is still `8` after the second to the sixth insert
(`liveCount` 2 to 6); the seventh insert grows the table, so that the capacity
is `16` and `liveCount` is `7` when it completes. -/
theorem C9_growth_schedule (hf : Nat → Nat) (kvs : List (Nat × Nat)) (hlen : kvs.length = 7)
    (hnd : (kvs.map Prod.fst).Nodup) (hh : ∀ kv ∈ kvs, hf kv.1 ≠ 0) (m : Nat) (hm : m ≤ 7) :
    ∃ t, insert_all hf ⟨[], 0⟩ (kvs.take m) = .ret (List.replicate m 0, t) ∧
      hashtable_num_values t = m ∧
      hashtable_num_buckets t = if m = 0 then 0 else if m ≤ 6 then 8 else 16 := by
  obtain ⟨hwf0, _⟩ := wf_init hf (c := true) (N := 0) (t := ⟨[], 0⟩) rfl
  have hlenm : (kvs.take m).length = m := by rw [List.length_take]; omega
  obtain ⟨t, hrun, _, _, _, _, hnv, hcap⟩ := insert_all_spec hf (kvs.take m) ⟨[], 0⟩ hwf0
    (fun kv hkv => hh kv (List.mem_of_mem_take hkv))
    (hnd.sublist ((List.take_sublist m kvs).map Prod.fst))
    (by intro kv _ b hb; cases hb) (by rw [hlenm]; simp only [zero_add]; omega)
  rw [hlenm] at hrun hnv hcap
  refine ⟨t, hrun, by simpa [hashtable_num_values] using hnv, ?_⟩
  unfold hashtable_num_buckets
  rw [hcap]
  simp only [List.length_nil]
  interval_cases m <;> decide

/-- A run of amended C9: keys `1` to `7`, the seventh insert. -/
theorem C9_growth_schedule_witness :
    ([(1, 1), (2, 2), (3, 3), (4, 4), (5, 5), (6, 6), (7, 7)].length = 7 ∧
      ([(1, 1), (2, 2), (3, 3), (4, 4), (5, 5), (6, 6), (7, 7)].map Prod.fst).Nodup ∧
      (∀ kv ∈ [(1, 1), (2, 2), (3, 3), (4, 4), (5, 5), (6, 6), (7, 7)],
        (fun k => k) kv.1 ≠ 0) ∧ 7 ≤ 7) ∧
    ∃ t, insert_all (fun k => k) ⟨[], 0⟩
        ([(1, 1), (2, 2), (3, 3), (4, 4), (5, 5), (6, 6), (7, 7)].take 7) =
          .ret (List.replicate 7 0, t) ∧
      hashtable_num_values t = 7 ∧
      hashtable_num_buckets t = if 7 = 0 then 0 else if 7 ≤ 6 then 8 else 16 :=
  ⟨⟨rfl, by decide, by decide, by decide⟩,
    C9_growth_schedule (fun k => k) [(1, 1), (2, 2), (3, 3), (4, 4), (5, 5), (6, 6), (7, 7)] rfl
      (by decide) (by decide) 7 (by decide)⟩

/-- C10 (the code departs from the claim): on a 32-bit build, `init(2 ^ 25)` and
the successful inserts of the distinct keys `0` to `23488103` (key `i` under the
hash `i + 2 ^ 25`) build a table of `24159191` buckets in which `liveCount`,
`23488104`, equals the number of buckets in use.  Its load is 97%, so every
insert with a nonzero hash triggers growth; the new capacity is computed as
`24159191 * 200 mod 2 ^ 32 / 100 = 5368709`, and with the allocation succeeding
the rehash fails its assertion: the insert does not return, and no key is
findable afterwards. -/
theorem C10_growth_fails_assertion :
    _hashtable_init true (2 ^ 25) = (0, some (wrap32_upto 0)) ∧
    ∃ t, insert_all32 (fun i => i + 2 ^ 25) (wrap32_upto 0)
        ((List.range 23488104).map (fun i => (i, i))) =
        .ret (List.replicate 23488104 0, t) ∧
      hashtable_num_buckets t = 24159191 ∧
      hashtable_num_values t = (live t.buckets).length ∧
      needs_resize32 (hashtable_num_buckets t) (hashtable_num_values t) = true ∧
      num_new_buckets32 (hashtable_num_buckets t) = 5368709 ∧
      ∀ k h v, h ≠ 0 → hashtable_insert32 true t k h v = .assert_failed := by
  obtain ⟨t, hfirst, h1, h2, h3⟩ := wrap32_built
  have e1 : hashtable_num_buckets t = 24159191 := h1
  have e2 : hashtable_num_values t = 23488104 := h2
  refine ⟨wrap32_upto_zero, t, hfirst, e1, ?_, ?_, ?_, ?_⟩
  · rw [e2, h3]
  · rw [e1, e2]
    decide
  · rw [e1]
    decide
  · intro k h v hh
    exact insert32_overfull h1 h2 h3 k h v hh hashtable_compare_keys hashtable_copy_key

/-- C11 (the code departs from the claim): capacity `3`, hash `5` for the three
keys `1`, `2`, `3`.  The inserts succeed and place the keys in the consecutive
probe slots `2`, `0`, `1` (start `5 % 3 = 2`, with wraparound); `find` returns
the values of keys `2` and `3`.  The following `erase(1, 5)` never returns: the
table is full and the backward shift moves the entry of key `3` back and forth
for ever, so the lookups after the erase are never reached. -/
theorem C11_collision_erase_does_not_return :
    insert_all (fun _ => 5) ⟨List.replicate 3 Bucket.zero, 0⟩ [(1, 10), (2, 20), (3, 30)] =
      .ret ([0, 0, 0], ⟨[⟨2, 20, 5⟩, ⟨3, 30, 5⟩, ⟨1, 10, 5⟩], 3⟩) ∧
    hashtable_find ⟨[⟨2, 20, 5⟩, ⟨3, 30, 5⟩, ⟨1, 10, 5⟩], 3⟩ 2 5 = .ret (some 20) ∧
    hashtable_find ⟨[⟨2, 20, 5⟩, ⟨3, 30, 5⟩, ⟨1, 10, 5⟩], 3⟩ 3 5 = .ret (some 30) ∧
    ∀ fuel, hashtable_erase fuel ⟨[⟨2, 20, 5⟩, ⟨3, 30, 5⟩, ⟨1, 10, 5⟩], 3⟩ 1 5 =
      .out_of_fuel := by
  refine ⟨rfl, rfl, rfl, ?_⟩
  intro fuel
  match fuel with
  | 0 => rfl
  | 1 => rfl
  | f + 2 =>
    have hsearch : erase_search (f + 2) [⟨2, 20, 5⟩, ⟨3, 30, 5⟩, ⟨1, 10, 5⟩] 1
        hashtable_compare_keys (5 % 3) = .ret 2 := by
      simp [erase_search, hashtable_compare_keys]
    have hshift : erase_shift (f + 2) [⟨2, 20, 5⟩, ⟨3, 30, 5⟩, ⟨0, 0, 0⟩] 2 0 =
        erase_shift f [⟨3, 30, 5⟩, ⟨3, 30, 0⟩, ⟨2, 20, 5⟩] 1 2 := by
      simp [erase_shift]
    have hcyc := erase_shift_cycle_same_hash f
    simp only [hashtable_erase, _hashtable_erase]
    simp [hsearch, Bucket.zero, hshift, hcyc]

/-- C12: for every table whose `liveCount` equals its number of nonzero-tag
buckets, whatever the inserts and erases that produced it, iterating with
`hashtable_for_each_pair` returns and yields the (key, value) pairs of the
buckets in use, each bucket once, in index order, and nothing else: exactly
`liveCount` pairs. -/
theorem C12_iteration_yields_live_entries (t : Table)
    (hcount : t.num_values = (live t.buckets).length) :
    hashtable_for_each_pair t = .ret ((live t.buckets).map (fun b => (b.key, b.value))) ∧
      ((live t.buckets).map (fun b => (b.key, b.value))).length = hashtable_num_values t := by
  refine ⟨?_, by simp [hashtable_num_values, hcount]⟩
  have := for_each_pair_loop_spec t (t.num_values + 1) 0 0
    (by simp [hcount]) (by simp only [List.drop_zero]; omega)
  simpa [hashtable_for_each_pair] using this

/-- A run of C12: a table in which an erase has left a stale key behind. -/
theorem C12_iteration_yields_live_entries_witness :
    (2 : Nat) = (live [⟨9, 30, 9⟩, ⟨1, 20, 1⟩, ⟨9, 30, 0⟩, ⟨0, 0, 0⟩]).length ∧
    (hashtable_for_each_pair ⟨[⟨9, 30, 9⟩, ⟨1, 20, 1⟩, ⟨9, 30, 0⟩, ⟨0, 0, 0⟩], 2⟩ =
        .ret ((live [⟨9, 30, 9⟩, ⟨1, 20, 1⟩, ⟨9, 30, 0⟩, ⟨0, 0, 0⟩]).map
          (fun b => (b.key, b.value))) ∧
      ((live [⟨9, 30, 9⟩, ⟨1, 20, 1⟩, ⟨9, 30, 0⟩, ⟨0, 0, 0⟩]).map
          (fun b => (b.key, b.value))).length =
        hashtable_num_values ⟨[⟨9, 30, 9⟩, ⟨1, 20, 1⟩, ⟨9, 30, 0⟩, ⟨0, 0, 0⟩], 2⟩) :=
  ⟨by decide,
    C12_iteration_yields_live_entries ⟨[⟨9, 30, 9⟩, ⟨1, 20, 1⟩, ⟨9, 30, 0⟩, ⟨0, 0, 0⟩], 2⟩
      (by decide)⟩

/-- C13: in every table state in which insert needs to grow (capacity `0` or
load of 70% or more) and the allocation of the new array fails, insert with a
nonzero hash reports the AllocationError code `4` and returns the table as it
was: same capacity, same `liveCount`, same buckets, so that every lookup gives
the result it gave before. -/
theorem C13_allocation_failure (t : Table) (k h v : Nat) (cmp : Nat → Nat → Int)
    (cpy : Nat → Nat → Nat × Int) (hh : h ≠ 0)
    (hgrow : needs_resize t.buckets.length t.num_values = true) :
    _hashtable_insert false t k h v cmp cpy = .ret (4, t) := by
  simp [_hashtable_insert, hh, hgrow]

/-- A run of C13: a full table of capacity `1`. -/
theorem C13_allocation_failure_witness :
    ((4 : Nat) ≠ 0 ∧ needs_resize ([⟨3, 30, 4⟩] : List Bucket).length 1 = true) ∧
    _hashtable_insert false ⟨[⟨3, 30, 4⟩], 1⟩ 5 4 50 hashtable_compare_keys hashtable_copy_key =
      .ret (4, ⟨[⟨3, 30, 4⟩], 1⟩) :=
  ⟨⟨by decide, by decide⟩,
    C13_allocation_failure ⟨[⟨3, 30, 4⟩], 1⟩ 5 4 50 hashtable_compare_keys hashtable_copy_key
      (by decide) (by decide)⟩

/-- C14 fails as stated: a well-formed table of capacity `1` that holds key `3`
is at a load of 100%.  The insert of the absent key `5` with a copy function
that fails asks for a larger array before the probe; when that allocation fails
the insert reports the AllocationError code `4`, not the CopyFailure code `3`,
and the copy function is not called. -/
theorem C14_counterexample :
    WF (fun k => k + 1) ⟨[⟨3, 30, 4⟩], 1⟩ ∧
    (∀ b ∈ live [⟨3, 30, 4⟩], b.key ≠ 5) ∧
    (∀ dst, ((fun (d _s : Nat) => ((d, 1) : Nat × Int)) dst 5).2 ≠ 0) ∧
    needs_resize 1 1 = true ∧
    _hashtable_insert false ⟨[⟨3, 30, 4⟩], 1⟩ 5 ((fun k => k + 1) 5) 50
        hashtable_compare_keys (fun (d _s : Nat) => ((d, 1) : Nat × Int)) =
      .ret (4, ⟨[⟨3, 30, 4⟩], 1⟩) := by
  refine ⟨built_wf (Built.insert true ⟨[Bucket.zero], 0⟩ 3 30 _ (Built.init true 1 _ rfl)
    (by decide) rfl), by decide, fun _ => by simp, by decide, rfl⟩

/-- C14, amended: for every well-formed table (64-bit build, fewer than `2 ^ 55`
entries), every key `k` that is not in it, with a nonzero hash, and every copy
function that fails on `k`, when the allocation of a larger array, if the load
asks for one, succeeds: insert reports the CopyFailure code `3`, `liveCount` is unchanged, no bucket
gains a tag (the buckets in use are the ones in use before, so the target bucket
is still empty), `k` is not findable afterwards and every previously live key is
still findable with its value. -/
theorem C14_copy_failure (hf : Nat → Nat) (t : Table) (hwf : WF hf t)
    (hnv : t.num_values < 2 ^ 55) (k v : Nat) (hk : hf k ≠ 0)
    (habs : ∀ b ∈ live t.buckets, b.key ≠ k) (cpy : Nat → Nat → Nat × Int)
    (hcpy : ∀ dst, (cpy dst k).2 ≠ 0) (c : Bool)
    (hc : needs_resize t.buckets.length t.num_values = true → c = true) :
    ∃ t', _hashtable_insert c t k (hf k) v hashtable_compare_keys cpy = .ret (3, t') ∧
      hashtable_num_values t' = hashtable_num_values t ∧
      (live t'.buckets).Perm (live t.buckets) ∧
      hashtable_find t' k (hf k) = .ret none ∧
      ∀ b ∈ live t.buckets, hashtable_find t' b.key b.hash = .ret (some b.value) := by
  obtain ⟨bs, hins, hch, hperm, hroom, _⟩ :=
    insert_growth hwf.chain hwf.count hnv k hk v hashtable_compare_keys cpy
  have habs' : ∀ b ∈ live bs, b.key ≠ k := fun b hb => habs b (hperm.mem_iff.1 hb)
  obtain ⟨p, e, hp, he, hz⟩ := insert_probe_copy_fails hroom habs' t.num_values (hf k) v hcpy
  have hlive : live (bs.set p { e with key := (cpy e.key k).1 }) = live bs :=
    live_set_empty ⟨e, he, hz⟩ hz
  have hperm' : (live (bs.set p { e with key := (cpy e.key k).1 })).Perm (live t.buckets) := by
    rw [hlive]; exact hperm
  have hwf' : WF hf ⟨bs.set p { e with key := (cpy e.key k).1 }, t.num_values⟩ := by
    refine ⟨?_, chain_set_empty hch ⟨e, he, hz⟩ hz, ?_, ?_⟩
    · simp only [hperm'.length_eq, hwf.count]
    · intro b hb
      exact hwf.tags b (hperm'.mem_iff.1 hb)
    · exact (hperm'.map (fun b => b.key)).nodup_iff.2 hwf.nodup
  refine ⟨⟨bs.set p { e with key := (cpy e.key k).1 }, t.num_values⟩, ?_, rfl, hperm', ?_, ?_⟩
  · rw [insert_ext_calloc_ok hc, hins, hp]
  · exact hashtable_find_none (find_absent (hf k) (fun b hb => habs b (hperm'.mem_iff.1 hb)))
  · intro b hb
    exact find_of_live hwf' (hperm'.mem_iff.2 hb)

/-- A run of C14: a full table of capacity `1`; the insert of key `5` grows it to
capacity `2` and then fails to copy the key. -/
theorem C14_copy_failure_witness :
    (WF (fun k => k + 1) ⟨[⟨3, 30, 4⟩], 1⟩ ∧ (1 : Nat) < 2 ^ 55 ∧ (fun k => k + 1) 5 ≠ 0 ∧
      (∀ b ∈ live [⟨3, 30, 4⟩], b.key ≠ 5) ∧
      (∀ dst, ((fun (d _s : Nat) => ((d, 1) : Nat × Int)) dst 5).2 ≠ 0) ∧
      (needs_resize 1 1 = true → true = true)) ∧
    ∃ t', _hashtable_insert true ⟨[⟨3, 30, 4⟩], 1⟩ 5 ((fun k => k + 1) 5) 50
          hashtable_compare_keys (fun (d _s : Nat) => ((d, 1) : Nat × Int)) = .ret (3, t') ∧
      hashtable_num_values t' = hashtable_num_values ⟨[⟨3, 30, 4⟩], 1⟩ ∧
      (live t'.buckets).Perm (live [⟨3, 30, 4⟩]) ∧
      hashtable_find t' 5 ((fun k => k + 1) 5) = .ret none ∧
      ∀ b ∈ live [⟨3, 30, 4⟩], hashtable_find t' b.key b.hash = .ret (some b.value) :=
  ⟨⟨built_wf (Built.insert true ⟨[Bucket.zero], 0⟩ 3 30 _ (Built.init true 1 _ rfl)
        (by decide) rfl),
      by decide, by decide, by decide, fun _ => by simp, fun _ => rfl⟩,
    C14_copy_failure (fun k => k + 1) ⟨[⟨3, 30, 4⟩], 1⟩
      (built_wf (Built.insert true ⟨[Bucket.zero], 0⟩ 3 30 _ (Built.init true 1 _ rfl)
        (by decide) rfl))
      (by decide) 5 50 (by decide) (by decide) (fun (d _s : Nat) => ((d, 1) : Nat × Int))
      (fun _ => by simp) true (fun _ => rfl)⟩

/-- C16: for every table state, `clear` sets the hash tag of every bucket to `0`
and `liveCount` to `0` and leaves the capacity unchanged; afterwards `find`
returns not-found for every key and hash and the iteration yields no pair.  With
a key-freeing function it is called exactly on the keys of the buckets that were
in use, once each, in index order; without one nothing is called. -/
theorem C16_clear (t : Table) (free_key : Bool) :
    (∀ b ∈ (_hashtable_clear t free_key).1.buckets, b.hash = 0) ∧
    hashtable_num_values (_hashtable_clear t free_key).1 = 0 ∧
    hashtable_num_buckets (_hashtable_clear t free_key).1 = hashtable_num_buckets t ∧
    (∀ k h, hashtable_find (_hashtable_clear t free_key).1 k h = .ret none) ∧
    hashtable_for_each_pair (_hashtable_clear t free_key).1 = .ret [] ∧
    (_hashtable_clear t free_key).2 =
      (if free_key = true then (live t.buckets).map (fun b => b.key) else []) := by
  have hempty : ∀ b ∈ (_hashtable_clear t free_key).1.buckets, b.hash = 0 := by
    intro b hb
    unfold _hashtable_clear at hb
    cases free_key with
    | false =>
      simp only [if_true, List.mem_map] at hb
      obtain ⟨a, _, rfl⟩ := hb
      rfl
    | true =>
      simp only [Bool.true_eq_false, if_false, List.mem_map] at hb
      obtain ⟨a, _, rfl⟩ := hb
      split
      · rfl
      · rename_i hz; simpa using hz
  refine ⟨hempty, ?_, ?_, ?_, ?_, ?_⟩
  · cases free_key <;> rfl
  · cases free_key <;> simp [hashtable_num_buckets, _hashtable_clear]
  · intro k h
    exact hashtable_find_none (find_all_empty k h _ hempty)
  · have hnv : (_hashtable_clear t free_key).1.num_values = 0 := by cases free_key <;> rfl
    simp [hashtable_for_each_pair, for_each_pair_loop, _hashtable_for_each_pair, hnv]
  · cases free_key <;> simp [_hashtable_clear, live]

/-- C17: for every table whose `liveCount` equals its number of nonzero-tag
buckets, `destroy` with a key-freeing function calls it exactly on the keys of
the buckets in use, once each, in index order, and on nothing else; with or
without such a function it leaves the table in the empty state: no bucket array,
capacity `0`, `liveCount` `0`, so that `find` returns not-found for every key
and hash. -/
theorem C17_destroy (t : Table) (hcount : t.num_values = (live t.buckets).length)
    (free_key : Bool) :
    (_hashtable_destroy t true).2 = (live t.buckets).map (fun b => b.key) ∧
    (_hashtable_destroy t false).2 = [] ∧
    (_hashtable_destroy t free_key).1 = ⟨[], 0⟩ ∧
    hashtable_num_buckets (_hashtable_destroy t free_key).1 = 0 ∧
    hashtable_num_values (_hashtable_destroy t free_key).1 = 0 ∧
    ∀ k h, hashtable_find (_hashtable_destroy t free_key).1 k h = .ret none := by
  refine ⟨?_, by simp [_hashtable_destroy], rfl, rfl, rfl, fun k h => rfl⟩
  unfold _hashtable_destroy
  by_cases hz : t.num_values = 0
  · have hl : live t.buckets = [] := List.length_eq_zero.1 (by omega)
    simp [hz, hl]
  · simp [hz, live]

/-- A run of C17: a table with two entries, a stale key and a never-used bucket. -/
theorem C17_destroy_witness :
    (2 : Nat) = (live [⟨9, 30, 9⟩, ⟨1, 20, 1⟩, ⟨9, 30, 0⟩, ⟨0, 0, 0⟩]).length ∧
    ((_hashtable_destroy ⟨[⟨9, 30, 9⟩, ⟨1, 20, 1⟩, ⟨9, 30, 0⟩, ⟨0, 0, 0⟩], 2⟩ true).2 =
        (live [⟨9, 30, 9⟩, ⟨1, 20, 1⟩, ⟨9, 30, 0⟩, ⟨0, 0, 0⟩]).map (fun b => b.key) ∧
      (_hashtable_destroy ⟨[⟨9, 30, 9⟩, ⟨1, 20, 1⟩, ⟨9, 30, 0⟩, ⟨0, 0, 0⟩], 2⟩ false).2 = [] ∧
      (_hashtable_destroy ⟨[⟨9, 30, 9⟩, ⟨1, 20, 1⟩, ⟨9, 30, 0⟩, ⟨0, 0, 0⟩], 2⟩ true).1 =
        ⟨[], 0⟩ ∧
      hashtable_num_buckets
        (_hashtable_destroy ⟨[⟨9, 30, 9⟩, ⟨1, 20, 1⟩, ⟨9, 30, 0⟩, ⟨0, 0, 0⟩], 2⟩ true).1 = 0 ∧
      hashtable_num_values
        (_hashtable_destroy ⟨[⟨9, 30, 9⟩, ⟨1, 20, 1⟩, ⟨9, 30, 0⟩, ⟨0, 0, 0⟩], 2⟩ true).1 = 0 ∧
      ∀ k h, hashtable_find
        (_hashtable_destroy ⟨[⟨9, 30, 9⟩, ⟨1, 20, 1⟩, ⟨9, 30, 0⟩, ⟨0, 0, 0⟩], 2⟩ true).1 k h =
          .ret none) :=
  ⟨by decide,
    C17_destroy ⟨[⟨9, 30, 9⟩, ⟨1, 20, 1⟩, ⟨9, 30, 0⟩, ⟨0, 0, 0⟩], 2⟩ (by decide) true⟩

/-- C18: `init(N)` reports an error (code `1`) exactly when `N > 0` and the
allocation fails; `init(0)` always succeeds.  It succeeds exactly when it
produces the table of `N` zero-filled buckets with `liveCount` `0`; in that
table the capacity is `N`, every bucket is empty and `find` returns not-found
for every key and hash. -/
theorem C18_init (calloc_ok : Bool) (N : Nat) :
    ((_hashtable_init calloc_ok N).1 ≠ 0 ↔ (0 < N ∧ calloc_ok = false)) ∧
    (_hashtable_init calloc_ok 0).1 = 0 ∧
    ((_hashtable_init calloc_ok N).1 = 0 ↔
      (_hashtable_init calloc_ok N).2 = some ⟨List.replicate N Bucket.zero, 0⟩) ∧
    hashtable_num_buckets ⟨List.replicate N Bucket.zero, 0⟩ = N ∧
    hashtable_num_values ⟨List.replicate N Bucket.zero, 0⟩ = 0 ∧
    (∀ b ∈ List.replicate N Bucket.zero, b.hash = 0) ∧
    ∀ k h, hashtable_find ⟨List.replicate N Bucket.zero, 0⟩ k h = .ret none := by
  have hempty : ∀ b ∈ List.replicate N Bucket.zero, b.hash = 0 := by
    intro b hb
    rw [List.eq_of_mem_replicate hb]
    rfl
  refine ⟨?_, ?_, ?_, by simp [hashtable_num_buckets], rfl, hempty,
    fun k h => hashtable_find_none (find_all_empty k h _ hempty)⟩
  · unfold _hashtable_init
    cases calloc_ok <;> by_cases hN : N = 0 <;> simp [hN]
    omega
  · unfold _hashtable_init
    simp
  · unfold _hashtable_init
    cases calloc_ok <;> by_cases hN : N = 0 <;> simp [hN]

/-- C19 (the code departs from the claim): a table of capacity `3` built by
inserting keys `1`, `2`, `3` under the hashes `3`, `6`, `9`; `liveCount` `3`
equals the number of nonzero-tag buckets and key `1` is live.  `erase(1, 3)`
never returns, so `liveCount` is never decremented: the table is full and the
backward shift moves the entry of key `3` back and forth for ever. -/
theorem C19_erase_live_key_does_not_return :
    insert_all (fun k => 3 * k) ⟨List.replicate 3 Bucket.zero, 0⟩ [(1, 10), (2, 20), (3, 30)] =
      .ret ([0, 0, 0], ⟨[⟨1, 10, 3⟩, ⟨2, 20, 6⟩, ⟨3, 30, 9⟩], 3⟩) ∧
    hashtable_num_values ⟨[⟨1, 10, 3⟩, ⟨2, 20, 6⟩, ⟨3, 30, 9⟩], 3⟩ =
      (live [⟨1, 10, 3⟩, ⟨2, 20, 6⟩, ⟨3, 30, 9⟩]).length ∧
    hashtable_find ⟨[⟨1, 10, 3⟩, ⟨2, 20, 6⟩, ⟨3, 30, 9⟩], 3⟩ 1 3 = .ret (some 10) ∧
    ∀ fuel, hashtable_erase fuel ⟨[⟨1, 10, 3⟩, ⟨2, 20, 6⟩, ⟨3, 30, 9⟩], 3⟩ 1 3 =
      .out_of_fuel := by
  refine ⟨rfl, rfl, rfl, ?_⟩
  intro fuel
  match fuel with
  | 0 => rfl
  | 1 => rfl
  | f + 2 =>
    have hsearch : erase_search (f + 2) [⟨1, 10, 3⟩, ⟨2, 20, 6⟩, ⟨3, 30, 9⟩] 1
        hashtable_compare_keys (3 % 3) = .ret 0 := by
      simp [erase_search, hashtable_compare_keys]
    have hshift : erase_shift (f + 2) [⟨0, 0, 0⟩, ⟨2, 20, 6⟩, ⟨3, 30, 9⟩] 0 1 =
        erase_shift f [⟨2, 20, 6⟩, ⟨3, 30, 9⟩, ⟨3, 30, 0⟩] 2 0 := by
      simp [erase_shift]
    have hcyc := erase_shift_cycle_first f
    simp only [hashtable_erase, _hashtable_erase]
    simp [hsearch, Bucket.zero, hshift, hcyc]

/-- C20 (the code departs from the claim): on a 32-bit build, `init(2 ^ 25)`
followed by the successful inserts of the keys `0` to `23488102` (key `i` under
the hash `i + 2 ^ 25`) gives the table `wrap32_table`: `2 ^ 25` buckets,
`23488103` of them in use, `liveCount` equal to the number of nonzero-tag
buckets, a load of 70%.  The insert of the new key `23488103` (allocation
succeeding) computes the new capacity as
`2 ^ 25 * 200 mod 2 ^ 32 / 100 = 24159191`, rehashes into the smaller array and
succeeds: the capacity after the call is below the capacity before it. -/
theorem C20_capacity_shrinks :
    _hashtable_init true (2 ^ 25) = (0, some (wrap32_upto 0)) ∧
    insert_all32 (fun i => i + 2 ^ 25) (wrap32_upto 0)
        ((List.range WRAP_COUNT32).map (fun i => (i, i))) =
      .ret (List.replicate WRAP_COUNT32 0, wrap32_table) ∧
    hashtable_num_buckets wrap32_table = 2 ^ 25 ∧
    hashtable_num_values wrap32_table = (live wrap32_table.buckets).length ∧
    ∃ t', hashtable_insert32 true wrap32_table 23488103 (23488103 + 2 ^ 25) 23488103 =
        .ret (0, t') ∧
      hashtable_num_buckets t' = 24159191 ∧
      hashtable_num_buckets t' < hashtable_num_buckets wrap32_table := by
  obtain ⟨t', hins, h1, _, _⟩ := wrap32_table_insert
  have hlen : hashtable_num_buckets wrap32_table = 2 ^ 25 := wrap32_table_length
  have e1 : hashtable_num_buckets t' = 24159191 := h1
  refine ⟨wrap32_table_built.1, wrap32_table_built.2, hlen, ?_, t', hins, e1, ?_⟩
  · rw [wrap32_table_live_length]
    rfl
  · rw [e1, hlen]
    norm_num

/-- C21: for every table, key, hash and comparison, `hashtable_exists_ext`
returns `1` exactly when `hashtable_find_ext` returns a value and `0` exactly
when it returns not-found, and likewise `hashtable_exists` and `hashtable_find`
with the default comparison; it always returns one of the two.  Both macros only
read the table: they expand to a call of `_hashtable_find`, which takes the
array and the capacity by value and writes to neither. -/
theorem C21_exists_iff_find (t : Table) (k h : Nat) (cmp : Nat → Nat → Int) :
    (hashtable_exists_ext t k h cmp = .ret 1 ↔
      ∃ v, hashtable_find_ext t k h cmp = .ret (some v)) ∧
    (hashtable_exists_ext t k h cmp = .ret 0 ↔ hashtable_find_ext t k h cmp = .ret none) ∧
    (hashtable_exists_ext t k h cmp = .ret 1 ∨ hashtable_exists_ext t k h cmp = .ret 0) ∧
    (hashtable_exists t k h = .ret 1 ↔ ∃ v, hashtable_find t k h = .ret (some v)) ∧
    (hashtable_exists t k h = .ret 0 ↔ hashtable_find t k h = .ret none) ∧
    (hashtable_exists t k h = .ret 1 ∨ hashtable_exists t k h = .ret 0) := by
  have key : ∀ cmp' : Nat → Nat → Int,
      (_hashtable_find k h t.buckets cmp' = .ret none) ∨
      ∃ i c, _hashtable_find k h t.buckets cmp' = .ret (some i) ∧ t.buckets[i]? = some c := by
    intro cmp'
    obtain ⟨r, hr⟩ := find_returns k h t.buckets cmp'
    cases r with
    | none => exact Or.inl hr
    | some i =>
      obtain ⟨c, hc, _⟩ := find_some_bucket hr
      exact Or.inr ⟨i, c, hr, hc⟩
  refine ⟨?_, ?_, ?_, ?_, ?_, ?_⟩
  · rcases key cmp with h0 | ⟨i, c, h1, h2⟩
    · simp [hashtable_exists_ext, hashtable_find_ext, h0]
    · simp [hashtable_exists_ext, hashtable_find_ext, h1, h2]
  · rcases key cmp with h0 | ⟨i, c, h1, h2⟩
    · simp [hashtable_exists_ext, hashtable_find_ext, h0]
    · simp [hashtable_exists_ext, hashtable_find_ext, h1, h2]
  · rcases key cmp with h0 | ⟨i, c, h1, h2⟩
    · simp [hashtable_exists_ext, h0]
    · simp [hashtable_exists_ext, h1]
  · rcases key hashtable_compare_keys with h0 | ⟨i, c, h1, h2⟩
    · simp [hashtable_exists, hashtable_find, h0]
    · simp [hashtable_exists, hashtable_find, h1, h2]
  · rcases key hashtable_compare_keys with h0 | ⟨i, c, h1, h2⟩
    · simp [hashtable_exists, hashtable_find, h0]
    · simp [hashtable_exists, hashtable_find, h1, h2]
  · rcases key hashtable_compare_keys with h0 | ⟨i, c, h1, h2⟩
    · simp [hashtable_exists, h0]
    · simp [hashtable_exists, h1]

/-- C22: whenever `_hashtable_insert` returns an error code and a table,
`_hashtable_einsert` returns the same table, and it has called the panic hook
exactly when the code is nonzero, that is one of `1` (InvalidHash), `2`
(DuplicateKey), `3` (CopyFailure), `4` (AllocationError); with code `0` the hook
is not called.  Likewise `_hashtable_einit` produces what `_hashtable_init`
produces and calls the hook exactly when `_hashtable_init` reports an error. -/
theorem C22_infallible_variants (c : Bool) (t : Table) (k h v : Nat) (cmp : Nat → Nat → Int)
    (cpy : Nat → Nat → Nat × Int) (err : Nat) (t' : Table)
    (hret : _hashtable_insert c t k h v cmp cpy = .ret (err, t')) (c0 : Bool) (N : Nat) :
    (∃ panic, _hashtable_einsert c t k h v cmp cpy = .ret (t', panic) ∧
      (panic = true ↔ (err = 1 ∨ err = 2 ∨ err = 3 ∨ err = 4)) ∧
      (panic = false ↔ err = 0)) ∧
    (_hashtable_einit c0 N).1 = (_hashtable_init c0 N).2 ∧
    ((_hashtable_einit c0 N).2 = true ↔ (_hashtable_init c0 N).1 ≠ 0) := by
  have hcodes := insert_codes hret
  simp only at hcodes
  refine ⟨⟨decide (err ≠ 0), ?_, ?_, ?_⟩, rfl, ?_⟩
  · simp [_hashtable_einsert, hret]
  · simp only [decide_eq_true_eq]; omega
  · simp only [decide_eq_false_iff_not]; omega
  · simp [_hashtable_einit]

/-- A run of C22: a duplicate insert, and an `init` whose allocation fails. -/
theorem C22_infallible_variants_witness :
    _hashtable_insert true ⟨[⟨3, 30, 4⟩, ⟨0, 0, 0⟩], 1⟩ 3 4 31 hashtable_compare_keys
        hashtable_copy_key = .ret (2, ⟨[⟨3, 30, 4⟩, ⟨0, 0, 0⟩], 1⟩) ∧
    ((∃ panic, _hashtable_einsert true ⟨[⟨3, 30, 4⟩, ⟨0, 0, 0⟩], 1⟩ 3 4 31
          hashtable_compare_keys hashtable_copy_key =
            .ret (⟨[⟨3, 30, 4⟩, ⟨0, 0, 0⟩], 1⟩, panic) ∧
        (panic = true ↔ ((2 : Nat) = 1 ∨ (2 : Nat) = 2 ∨ (2 : Nat) = 3 ∨ (2 : Nat) = 4)) ∧
        (panic = false ↔ (2 : Nat) = 0)) ∧
      (_hashtable_einit false 8).1 = (_hashtable_init false 8).2 ∧
      ((_hashtable_einit false 8).2 = true ↔ (_hashtable_init false 8).1 ≠ 0)) :=
  ⟨rfl,
    C22_infallible_variants true ⟨[⟨3, 30, 4⟩, ⟨0, 0, 0⟩], 1⟩ 3 4 31 hashtable_compare_keys
      hashtable_copy_key 2 ⟨[⟨3, 30, 4⟩, ⟨0, 0, 0⟩], 1⟩ rfl false 8⟩

/-- C23: on a 64-bit build, `hashtable_hash` over the `size` bytes at `key`
returns 64-bit FNV-1a of those bytes: from the offset basis
`0xcbf29ce484222325`, for each byte in order
`h := ((h xor byte) * 0x100000001b3) mod 2 ^ 64`.  The hash of the empty
sequence is the offset basis, and the result depends only on the bytes hashed,
not on the memory that follows them. -/
theorem C23_hash_is_fnv1a (bytes rest : List Nat) :
    hashtable_hash (bytes ++ rest) bytes.length = .ret (fnv1a_64 bytes) ∧
    hashtable_hash rest 0 = .ret 0xcbf29ce484222325 ∧
    fnv1a_64 [] = 0xcbf29ce484222325 ∧
    fnv1a_64 (bytes ++ rest) =
      rest.foldl (fun h byte => (h ^^^ byte) * 0x100000001b3 % 2 ^ 64) (fnv1a_64 bytes) := by
  refine ⟨?_, rfl, rfl, ?_⟩
  · have := hashtable_hash_loop_spec bytes [] rest FNV_OFFSET_BASIS
    simpa [hashtable_hash, fnv1a_64, FNV_OFFSET_BASIS] using this
  · simp [fnv1a_64, List.foldl_append]

/-- C24 (the code departs from the claim): for the string of the single byte
`0x80`, where plain `char` is a signed type, `hashtable_str_hash` xors the
sign-extended character `0xFFFFFFFFFFFFFF80` into the hash and returns
`5808531584386460767`, while `hashtable_hash` on the byte and the length `1`
returns `12638293853183578463`.  Where plain `char` is unsigned the two agree
on this string. -/
theorem C24_str_hash_differs :
    hashtable_str_hash true [0x80, 0] = .ret 5808531584386460767 ∧
    hashtable_hash [0x80] 1 = .ret 12638293853183578463 ∧
    hashtable_str_hash true [0x80, 0] ≠ hashtable_hash [0x80] 1 ∧
    hashtable_str_hash false [0x80, 0] = hashtable_hash [0x80] 1 := by
  refine ⟨by decide, by decide, by decide, by decide⟩

/-- C25 (the code departs from the claim): on a 32-bit build, `wrap32_table`
(reached from `init(2 ^ 25)` by inserts, see `wrap32_table_built`) has capacity
`2 ^ 25` and a load of 70%, so the growth test holds; the insert of the new key
`23488103` with a nonzero hash, allocation succeeding, replaces the array, but
the new capacity is `24159191`, not twice the old capacity: the product
`2 ^ 25 * 200` wraps modulo `2 ^ 32`. -/
theorem C25_new_capacity_not_double :
    hashtable_num_buckets wrap32_table ≠ 0 ∧
    70 ≤ 100 * hashtable_num_values wrap32_table / hashtable_num_buckets wrap32_table ∧
    needs_resize32 (hashtable_num_buckets wrap32_table)
      (hashtable_num_values wrap32_table) = true ∧
    (∃ t', hashtable_insert32 true wrap32_table 23488103 (23488103 + 2 ^ 25) 23488103 =
        .ret (0, t') ∧
      hashtable_num_buckets t' = 24159191) ∧
    24159191 ≠ 2 * hashtable_num_buckets wrap32_table := by
  have hlen : hashtable_num_buckets wrap32_table = 2 ^ 25 := wrap32_table_length
  have hnv : hashtable_num_values wrap32_table = 23488103 := rfl
  refine ⟨?_, ?_, ?_, ?_, ?_⟩
  · rw [hlen]; norm_num
  · rw [hlen, hnv]; norm_num
  · rw [hlen, hnv]; decide
  · obtain ⟨t', h1, h2, _, _⟩ := wrap32_table_insert
    exact ⟨t', h1, h2⟩
  · rw [hlen]; norm_num

/-- C26 fails as stated: key `3` is stored with tag `4` in bucket `4` of a table
of capacity `8`; `find(3, 12)` starts at `12 % 8 = 4` and returns the value of
that bucket although its tag `4` differs from the supplied hash `12`. -/
theorem C26_counterexample :
    hashtable_insert true ⟨List.replicate 8 Bucket.zero, 0⟩ 3 4 30 =
      .ret (0, ⟨[⟨0, 0, 0⟩, ⟨0, 0, 0⟩, ⟨0, 0, 0⟩, ⟨0, 0, 0⟩, ⟨3, 30, 4⟩, ⟨0, 0, 0⟩, ⟨0, 0, 0⟩,
        ⟨0, 0, 0⟩], 1⟩) ∧
    _hashtable_find 3 12 [⟨0, 0, 0⟩, ⟨0, 0, 0⟩, ⟨0, 0, 0⟩, ⟨0, 0, 0⟩, ⟨3, 30, 4⟩, ⟨0, 0, 0⟩,
        ⟨0, 0, 0⟩, ⟨0, 0, 0⟩] hashtable_compare_keys = .ret (some 4) ∧
    ([⟨0, 0, 0⟩, ⟨0, 0, 0⟩, ⟨0, 0, 0⟩, ⟨0, 0, 0⟩, ⟨3, 30, 4⟩, ⟨0, 0, 0⟩, ⟨0, 0, 0⟩,
        ⟨0, 0, 0⟩] : List Bucket)[4]? = some ⟨3, 30, 4⟩ ∧
    (⟨3, 30, 4⟩ : Bucket).hash ≠ 12 ∧
    hashtable_find ⟨[⟨0, 0, 0⟩, ⟨0, 0, 0⟩, ⟨0, 0, 0⟩, ⟨0, 0, 0⟩, ⟨3, 30, 4⟩, ⟨0, 0, 0⟩,
        ⟨0, 0, 0⟩, ⟨0, 0, 0⟩], 1⟩ 3 12 = .ret (some 30) := by
  refine ⟨rfl, rfl, rfl, by decide, rfl⟩

/-- C26, amended: whenever `_hashtable_find` returns the value of some bucket,
that bucket is in use (its tag is nonzero) and its key compares equal to the
supplied key.  The stored tag is not compared with the supplied hash: the hash
only selects the start index `hash % capacity`, so every hash with the same
remainder gives the same result. -/
theorem C26_find_matches_key (k h : Nat) (bs : List Bucket) (cmp : Nat → Nat → Int) (i : Nat)
    (hr : _hashtable_find k h bs cmp = .ret (some i)) :
    (∃ c, bs[i]? = some c ∧ c.hash ≠ 0 ∧ cmp c.key k = 0) ∧
    ∀ h', h' % bs.length = h % bs.length → _hashtable_find k h' bs cmp = .ret (some i) := by
  refine ⟨find_some_bucket hr, ?_⟩
  intro h' hmod
  unfold _hashtable_find at hr ⊢
  rw [hmod]
  exact hr

/-- A run of amended C26: the lookup of the counterexample. -/
theorem C26_find_matches_key_witness :
    _hashtable_find 3 12 [⟨0, 0, 0⟩, ⟨0, 0, 0⟩, ⟨0, 0, 0⟩, ⟨0, 0, 0⟩, ⟨3, 30, 4⟩, ⟨0, 0, 0⟩,
        ⟨0, 0, 0⟩, ⟨0, 0, 0⟩] hashtable_compare_keys = .ret (some 4) ∧
    ((∃ c, ([⟨0, 0, 0⟩, ⟨0, 0, 0⟩, ⟨0, 0, 0⟩, ⟨0, 0, 0⟩, ⟨3, 30, 4⟩, ⟨0, 0, 0⟩, ⟨0, 0, 0⟩,
          ⟨0, 0, 0⟩] : List Bucket)[4]? = some c ∧ c.hash ≠ 0 ∧
        hashtable_compare_keys c.key 3 = 0) ∧
      ∀ h', h' % ([⟨0, 0, 0⟩, ⟨0, 0, 0⟩, ⟨0, 0, 0⟩, ⟨0, 0, 0⟩, ⟨3, 30, 4⟩, ⟨0, 0, 0⟩, ⟨0, 0, 0⟩,
          ⟨0, 0, 0⟩] : List Bucket).length =
        12 % ([⟨0, 0, 0⟩, ⟨0, 0, 0⟩, ⟨0, 0, 0⟩, ⟨0, 0, 0⟩, ⟨3, 30, 4⟩, ⟨0, 0, 0⟩, ⟨0, 0, 0⟩,
          ⟨0, 0, 0⟩] : List Bucket).length →
        _hashtable_find 3 h' [⟨0, 0, 0⟩, ⟨0, 0, 0⟩, ⟨0, 0, 0⟩, ⟨0, 0, 0⟩, ⟨3, 30, 4⟩, ⟨0, 0, 0⟩,
          ⟨0, 0, 0⟩, ⟨0, 0, 0⟩] hashtable_compare_keys = .ret (some 4)) :=
  ⟨rfl,
    C26_find_matches_key 3 12 [⟨0, 0, 0⟩, ⟨0, 0, 0⟩, ⟨0, 0, 0⟩, ⟨0, 0, 0⟩, ⟨3, 30, 4⟩,
      ⟨0, 0, 0⟩, ⟨0, 0, 0⟩, ⟨0, 0, 0⟩] hashtable_compare_keys 4 rfl⟩

/-- C27: `_hashtable_find` returns on every array, key, hash and comparison.
With capacity `0` it returns not-found at once.  Otherwise its result is fixed
by the buckets of the probe sequence `hash % capacity, +1, ...` (with
wraparound) up to the first one that is empty or holds an equal key, at most
`capacity` buckets: not-found if that bucket is empty, the bucket if its key is
equal, and not-found when all `capacity` buckets are in use and none matches
(the probe is back at its start). -/
theorem C27_find_terminates (k h : Nat) (bs : List Bucket) (cmp : Nat → Nat → Int) :
    (∃ r, _hashtable_find k h bs cmp = .ret r) ∧
    (bs.length = 0 → _hashtable_find k h bs cmp = .ret none) ∧
    (0 < bs.length →
      (∃ D, D < bs.length ∧
        (∀ d, d < D → ∃ c, bs[idx bs.length (h % bs.length) d]? = some c ∧ c.hash ≠ 0 ∧
          cmp c.key k ≠ 0) ∧
        ((emptyAt bs (idx bs.length (h % bs.length) D) ∧
            _hashtable_find k h bs cmp = .ret none) ∨
          (∃ c, bs[idx bs.length (h % bs.length) D]? = some c ∧ c.hash ≠ 0 ∧
            cmp c.key k = 0 ∧
            _hashtable_find k h bs cmp = .ret (some (idx bs.length (h % bs.length) D))))) ∨
      ((∀ d, d < bs.length → ∃ c, bs[idx bs.length (h % bs.length) d]? = some c ∧
          c.hash ≠ 0 ∧ cmp c.key k ≠ 0) ∧
        _hashtable_find k h bs cmp = .ret none)) := by
  refine ⟨find_returns k h bs cmp, fun h0 => by simp [_hashtable_find, h0], ?_⟩
  intro hn
  have hs : h % bs.length < bs.length := Nat.mod_lt _ hn
  have hfind : _hashtable_find k h bs cmp =
      find_loop bs.length bs k cmp (h % bs.length) (h % bs.length) := by
    unfold _hashtable_find
    rw [if_neg (by omega)]
  rcases first_stop (fun d => ¬ ∃ c, bs[idx bs.length (h % bs.length) d]? = some c ∧
      c.hash ≠ 0 ∧ cmp c.key k ≠ 0) bs.length with hall | ⟨D, hD, hP, hmin⟩
  · right
    have hall' : ∀ d, d < bs.length → ∃ c, bs[idx bs.length (h % bs.length) d]? = some c ∧
        c.hash ≠ 0 ∧ cmp c.key k ≠ 0 := fun d hd => not_not.1 (hall d hd)
    refine ⟨hall', ?_⟩
    have hwalk := find_loop_walk k cmp hs (show bs.length - 1 < bs.length by omega)
      (fun d hd => hall' d (by omega)) (bs.length - 1) 0 (by omega) bs.length (by omega)
    rw [idx_zero hs] at hwalk
    obtain ⟨c, hc, hne, hcmp⟩ := hall' (bs.length - 1) (by omega)
    have hfuel : bs.length - (bs.length - 1) = 0 + 1 := by omega
    have hback : idx bs.length (h % bs.length) (bs.length - 1 + 1) = h % bs.length := by
      rw [Nat.sub_add_cancel hn]; exact idx_full hs
    rw [hfind, hwalk, hfuel]
    simp only [find_loop, hc, hne, hcmp, if_false, idx_succ, hback, if_true]
  · left
    have hmin' : ∀ d, d < D → ∃ c, bs[idx bs.length (h % bs.length) d]? = some c ∧
        c.hash ≠ 0 ∧ cmp c.key k ≠ 0 := fun d hd => not_not.1 (hmin d hd)
    refine ⟨D, hD, hmin', ?_⟩
    have hwalk := find_loop_walk k cmp hs hD hmin' D 0 (by omega) bs.length hD
    rw [idx_zero hs] at hwalk
    obtain ⟨f, hf⟩ : ∃ f, bs.length - D = f + 1 := ⟨bs.length - D - 1, by omega⟩
    have hi : idx bs.length (h % bs.length) D < bs.length := idx_lt hn _ _
    have hget : bs[idx bs.length (h % bs.length) D]? =
        some (bs[idx bs.length (h % bs.length) D]) := List.getElem?_eq_getElem hi
    by_cases hz : (bs[idx bs.length (h % bs.length) D]).hash = 0
    · left
      refine ⟨⟨_, hget, hz⟩, ?_⟩
      rw [hfind, hwalk, hf]
      simp only [find_loop, hget, hz, if_true]
    · right
      have hcmp : cmp (bs[idx bs.length (h % bs.length) D]).key k = 0 := by
        by_contra hc
        exact hP ⟨_, hget, hz, hc⟩
      refine ⟨_, hget, hz, hcmp, ?_⟩
      rw [hfind, hwalk, hf]
      simp only [find_loop, hget, hz, hcmp, if_false, if_true]

/-- C28 (the code departs from the claim): in a table of capacity `8` that holds
only key `5`, `find(7, 15)` returns not-found at the empty bucket `7`, but
`erase` of the absent key `7` never returns, under any hash: its search loop
passes over the empty buckets and over its start index.  On the full table of
capacity `3` built by inserting keys `1`, `2`, `3` under the hash `7`, the
erase of the live key `1` never returns either: the backward shift finds no
empty bucket to stop at. -/
theorem C28_erase_does_not_terminate :
    hashtable_insert true ⟨List.replicate 8 Bucket.zero, 0⟩ 5 13 50 =
      .ret (0, ⟨[⟨0, 0, 0⟩, ⟨0, 0, 0⟩, ⟨0, 0, 0⟩, ⟨0, 0, 0⟩, ⟨0, 0, 0⟩, ⟨5, 50, 13⟩, ⟨0, 0, 0⟩,
        ⟨0, 0, 0⟩], 1⟩) ∧
    hashtable_find ⟨[⟨0, 0, 0⟩, ⟨0, 0, 0⟩, ⟨0, 0, 0⟩, ⟨0, 0, 0⟩, ⟨0, 0, 0⟩, ⟨5, 50, 13⟩,
        ⟨0, 0, 0⟩, ⟨0, 0, 0⟩], 1⟩ 7 15 = .ret none ∧
    (∀ hash fuel, hashtable_erase fuel ⟨[⟨0, 0, 0⟩, ⟨0, 0, 0⟩, ⟨0, 0, 0⟩, ⟨0, 0, 0⟩, ⟨0, 0, 0⟩,
        ⟨5, 50, 13⟩, ⟨0, 0, 0⟩, ⟨0, 0, 0⟩], 1⟩ 7 hash = .out_of_fuel) ∧
    insert_all (fun _ => 7) ⟨List.replicate 3 Bucket.zero, 0⟩ [(1, 10), (2, 20), (3, 30)] =
      .ret ([0, 0, 0], ⟨[⟨3, 30, 7⟩, ⟨1, 10, 7⟩, ⟨2, 20, 7⟩], 3⟩) ∧
    ∀ fuel, hashtable_erase fuel ⟨[⟨3, 30, 7⟩, ⟨1, 10, 7⟩, ⟨2, 20, 7⟩], 3⟩ 1 7 =
      .out_of_fuel := by
  refine ⟨rfl, rfl, ?_, rfl, ?_⟩
  · intro hash fuel
    have h := erase_absent_no_return
      ⟨[⟨0, 0, 0⟩, ⟨0, 0, 0⟩, ⟨0, 0, 0⟩, ⟨0, 0, 0⟩, ⟨0, 0, 0⟩, ⟨5, 50, 13⟩, ⟨0, 0, 0⟩,
        ⟨0, 0, 0⟩], 1⟩ 7 hashtable_compare_keys (by decide) (by decide) (by decide)
      fuel hash false
    simp only [hashtable_erase, h]
  · intro fuel
    match fuel with
    | 0 => rfl
    | 1 => rfl
    | f + 2 =>
      have hsearch : erase_search (f + 2) [⟨3, 30, 7⟩, ⟨1, 10, 7⟩, ⟨2, 20, 7⟩] 1
          hashtable_compare_keys (7 % 3) = .ret 1 := by
        simp [erase_search, hashtable_compare_keys]
      have hshift : erase_shift (f + 2) [⟨3, 30, 7⟩, ⟨0, 0, 0⟩, ⟨2, 20, 7⟩] 1 2 =
          erase_shift f [⟨3, 30, 0⟩, ⟨2, 20, 7⟩, ⟨3, 30, 7⟩] 0 1 := by
        simp [erase_shift]
      have hcyc := erase_shift_cycle_hash7 f
      simp only [hashtable_erase, _hashtable_erase]
      simp [hsearch, Bucket.zero, hshift, hcyc]

/-- C29 (the code departs from the claim): after `init(2)`, `insert(1, 1)`,
`erase` of the absent all-zero key `0` under hash `2`, and `insert(2, 2)`, both
buckets are in use while `liveCount` is `1`; the growth test of `insert(3, 3)`
sees a load of `50` percent, the probe meets two buckets with other keys, comes
back to its start index `1` and the wraparound assertion fails. -/
theorem C29_probe_assert_fails :
    _hashtable_init true 2 = (0, some ⟨[⟨0, 0, 0⟩, ⟨0, 0, 0⟩], 0⟩) ∧
    hashtable_insert true ⟨[⟨0, 0, 0⟩, ⟨0, 0, 0⟩], 0⟩ 1 1 10 =
      .ret (0, ⟨[⟨0, 0, 0⟩, ⟨1, 10, 1⟩], 1⟩) ∧
    hashtable_erase 2 ⟨[⟨0, 0, 0⟩, ⟨1, 10, 1⟩], 1⟩ 0 2 =
      .ret ⟨[⟨0, 0, 0⟩, ⟨1, 10, 1⟩], 0⟩ ∧
    hashtable_insert true ⟨[⟨0, 0, 0⟩, ⟨1, 10, 1⟩], 0⟩ 2 2 20 =
      .ret (0, ⟨[⟨2, 20, 2⟩, ⟨1, 10, 1⟩], 1⟩) ∧
    needs_resize 2 1 = false ∧
    hashtable_insert true ⟨[⟨2, 20, 2⟩, ⟨1, 10, 1⟩], 1⟩ 3 3 30 = .assert_failed := by
  refine ⟨rfl, rfl, rfl, rfl, rfl, rfl⟩

/-- C30 (the code departs from the claim): the string table of
`example/str_example_typesafe.c`.  `TABLE_insert` stores a copy of the string
under a new pointer; `TABLE_find` compares strings and finds the value, while
`TABLE_exists` compares the pointers themselves and answers `0`. -/
theorem C30_exists_ignores_bound_compare :
    TABLE_insert str_behaviours true ⟨List.replicate 8 Bucket.zero, 0⟩ 5 1 =
      .ret (0, ⟨[⟨0, 0, 0⟩, ⟨0, 0, 0⟩, ⟨0, 0, 0⟩, ⟨0, 0, 0⟩, ⟨0, 0, 0⟩, ⟨0, 0, 0⟩,
        ⟨1005, 1, 6⟩, ⟨0, 0, 0⟩], 1⟩) ∧
    TABLE_find str_behaviours ⟨[⟨0, 0, 0⟩, ⟨0, 0, 0⟩, ⟨0, 0, 0⟩, ⟨0, 0, 0⟩, ⟨0, 0, 0⟩, ⟨0, 0, 0⟩,
        ⟨1005, 1, 6⟩, ⟨0, 0, 0⟩], 1⟩ 5 = .ret (some 1) ∧
    TABLE_exists str_behaviours ⟨[⟨0, 0, 0⟩, ⟨0, 0, 0⟩, ⟨0, 0, 0⟩, ⟨0, 0, 0⟩, ⟨0, 0, 0⟩,
        ⟨0, 0, 0⟩, ⟨1005, 1, 6⟩, ⟨0, 0, 0⟩], 1⟩ 5 = .ret 0 := by
  refine ⟨rfl, rfl, rfl⟩

/-- C31: erase on a table whose `liveCount` is `0` returns at once, for every
key, hash, comparison and key-freeing function and every capacity, `0`
included: the table is returned as it was, no key is freed, and no step of the
search loop is taken (the result does not depend on the fuel, `0` included), so
no bucket is read and `hash % capacity` is not evaluated.  In every state
reachable from a successful init by insert, erase and clear calls, a nonzero
`liveCount` comes with a nonzero capacity, and erase executes no undefined
behaviour: it neither divides by zero nor reads outside the array. -/
theorem C31_erase_empty_noop (t : Table) (k h : Nat) (cmp : Nat → Nat → Int) (fk : Bool)
    (fuel : Nat) :
    (t.num_values = 0 → _hashtable_erase fuel t k h cmp fk = .ret (t, [])) ∧
    (Reachable t → (0 < t.num_values → 0 < t.buckets.length) ∧
      _hashtable_erase fuel t k h cmp fk ≠ .undefined) := by
  refine ⟨?_, ?_⟩
  · intro h0
    unfold _hashtable_erase
    rw [if_pos h0]
  · intro hreach
    have hcap := reachable_capacity hreach
    refine ⟨fun hpos => Nat.pos_of_ne_zero (hcap (by omega)), ?_⟩
    exact erase_defined fuel t k h cmp fk hcap

/-- A run of C31: erase on the table of capacity `0` given by `init(0)`, with no
fuel at all; and erase of key `5` on the table reached by `init(0)` and one
insert. -/
theorem C31_erase_empty_noop_witness :
    _hashtable_erase 0 ⟨[], 0⟩ 7 7 hashtable_compare_keys false = .ret (⟨[], 0⟩, []) ∧
    Reachable ⟨[⟨0, 0, 0⟩, ⟨0, 0, 0⟩, ⟨0, 0, 0⟩, ⟨0, 0, 0⟩, ⟨0, 0, 0⟩, ⟨5, 50, 5⟩, ⟨0, 0, 0⟩,
      ⟨0, 0, 0⟩], 1⟩ ∧
    (((0 : Nat) < 1 → 0 < ([⟨0, 0, 0⟩, ⟨0, 0, 0⟩, ⟨0, 0, 0⟩, ⟨0, 0, 0⟩, ⟨0, 0, 0⟩, ⟨5, 50, 5⟩,
        ⟨0, 0, 0⟩, ⟨0, 0, 0⟩] : List Bucket).length) ∧
      _hashtable_erase 9 ⟨[⟨0, 0, 0⟩, ⟨0, 0, 0⟩, ⟨0, 0, 0⟩, ⟨0, 0, 0⟩, ⟨0, 0, 0⟩, ⟨5, 50, 5⟩,
        ⟨0, 0, 0⟩, ⟨0, 0, 0⟩], 1⟩ 5 5 hashtable_compare_keys false ≠ .undefined) :=
  ⟨(C31_erase_empty_noop ⟨[], 0⟩ 7 7 hashtable_compare_keys false 0).1 rfl,
    Reachable.insert true ⟨[], 0⟩ 5 5 50 hashtable_compare_keys hashtable_copy_key 0 _
      (Reachable.init true 0 _ rfl) rfl,
    (C31_erase_empty_noop ⟨[⟨0, 0, 0⟩, ⟨0, 0, 0⟩, ⟨0, 0, 0⟩, ⟨0, 0, 0⟩, ⟨0, 0, 0⟩, ⟨5, 50, 5⟩,
      ⟨0, 0, 0⟩, ⟨0, 0, 0⟩], 1⟩ 5 5 hashtable_compare_keys false 9).2
      (Reachable.insert true ⟨[], 0⟩ 5 5 50 hashtable_compare_keys hashtable_copy_key 0 _
        (Reachable.init true 0 _ rfl) rfl)⟩

/-- C32 (the code departs from the claim): after `init(8)` and the inserts of
keys `8`, `1`, `9` under the hashes `8`, `1`, `9`, `erase(8, 8)` moves the entry
of key `9` to bucket `0`, in front of its ideal index `1`.  The insert of key
`9` under hash `9`, a key inserted earlier and never erased, then does not meet
that entry, reports success instead of DuplicateKey, and buckets `0` and `2`
both hold key `9` with a nonzero tag. -/
theorem C32_duplicate_key_stored :
    _hashtable_init true 8 = (0, some ⟨List.replicate 8 Bucket.zero, 0⟩) ∧
    insert_all (fun k => k) ⟨List.replicate 8 Bucket.zero, 0⟩ [(8, 10), (1, 20), (9, 30)] =
      .ret ([0, 0, 0],
        ⟨[⟨8, 10, 8⟩, ⟨1, 20, 1⟩, ⟨9, 30, 9⟩, ⟨0, 0, 0⟩, ⟨0, 0, 0⟩, ⟨0, 0, 0⟩, ⟨0, 0, 0⟩,
          ⟨0, 0, 0⟩], 3⟩) ∧
    hashtable_erase 8
      ⟨[⟨8, 10, 8⟩, ⟨1, 20, 1⟩, ⟨9, 30, 9⟩, ⟨0, 0, 0⟩, ⟨0, 0, 0⟩, ⟨0, 0, 0⟩, ⟨0, 0, 0⟩,
        ⟨0, 0, 0⟩], 3⟩ 8 8 =
      .ret ⟨[⟨9, 30, 9⟩, ⟨1, 20, 1⟩, ⟨9, 30, 0⟩, ⟨0, 0, 0⟩, ⟨0, 0, 0⟩, ⟨0, 0, 0⟩, ⟨0, 0, 0⟩,
        ⟨0, 0, 0⟩], 2⟩ ∧
    hashtable_insert true
      ⟨[⟨9, 30, 9⟩, ⟨1, 20, 1⟩, ⟨9, 30, 0⟩, ⟨0, 0, 0⟩, ⟨0, 0, 0⟩, ⟨0, 0, 0⟩, ⟨0, 0, 0⟩,
        ⟨0, 0, 0⟩], 2⟩ 9 9 31 =
      .ret (0, ⟨[⟨9, 30, 9⟩, ⟨1, 20, 1⟩, ⟨9, 31, 9⟩, ⟨0, 0, 0⟩, ⟨0, 0, 0⟩, ⟨0, 0, 0⟩,
        ⟨0, 0, 0⟩, ⟨0, 0, 0⟩], 3⟩) ∧
    live [⟨9, 30, 9⟩, ⟨1, 20, 1⟩, ⟨9, 31, 9⟩, ⟨0, 0, 0⟩, ⟨0, 0, 0⟩, ⟨0, 0, 0⟩, ⟨0, 0, 0⟩,
        ⟨0, 0, 0⟩] = [⟨9, 30, 9⟩, ⟨1, 20, 1⟩, ⟨9, 31, 9⟩] ∧
    ¬ ((live [⟨9, 30, 9⟩, ⟨1, 20, 1⟩, ⟨9, 31, 9⟩, ⟨0, 0, 0⟩, ⟨0, 0, 0⟩, ⟨0, 0, 0⟩, ⟨0, 0, 0⟩,
        ⟨0, 0, 0⟩]).map (fun b => b.key)).Nodup := by
  refine ⟨rfl, rfl, rfl, rfl, rfl, by decide⟩

/-- C33: for every table in which every bucket in use is reachable from its
ideal index `tag % capacity` by forward probing without crossing an empty
bucket, and every call of insert on it (any key, hash, value, comparison, copy
function and allocator behaviour): the call either returns or fails one of its
wraparound assertions, and whenever it returns, with whatever error code, with
or without growth and rehash, every bucket in use of the resulting table is
again reachable from its ideal index in the resulting array. -/
theorem C33_insert_preserves_chain (c : Bool) (t : Table) (k h v : Nat)
    (cmp : Nat → Nat → Int) (cpy : Nat → Nat → Nat × Int) (hch : Chain t.buckets) :
    (_hashtable_insert c t k h v cmp cpy = .assert_failed ∨
      ∃ r, _hashtable_insert c t k h v cmp cpy = .ret r) ∧
    ∀ err t', _hashtable_insert c t k h v cmp cpy = .ret (err, t') → Chain t'.buckets := by
  refine ⟨insert_ret_or_assert c t k h v cmp cpy, ?_⟩
  intro err t' hr
  exact insert_chain hch hr

/-- A run of C33: a full table of capacity `1`; the insert of key `5` grows it
to capacity `2` and rehashes. -/
theorem C33_insert_preserves_chain_witness :
    Chain (⟨[⟨3, 30, 4⟩], 1⟩ : Table).buckets ∧
    ((_hashtable_insert true ⟨[⟨3, 30, 4⟩], 1⟩ 5 6 50 hashtable_compare_keys
          hashtable_copy_key = .assert_failed ∨
        ∃ r, _hashtable_insert true ⟨[⟨3, 30, 4⟩], 1⟩ 5 6 50 hashtable_compare_keys
          hashtable_copy_key = .ret r) ∧
      ∀ err t', _hashtable_insert true ⟨[⟨3, 30, 4⟩], 1⟩ 5 6 50 hashtable_compare_keys
          hashtable_copy_key = .ret (err, t') → Chain t'.buckets) :=
  ⟨(built_wf (Built.insert true ⟨[Bucket.zero], 0⟩ 3 30 _ (Built.init true 1 _ rfl)
      (by decide) rfl : Built (fun k => k + 1) ⟨[⟨3, 30, 4⟩], 1⟩)).chain,
    C33_insert_preserves_chain true ⟨[⟨3, 30, 4⟩], 1⟩ 5 6 50 hashtable_compare_keys
      hashtable_copy_key
      (built_wf (Built.insert true ⟨[Bucket.zero], 0⟩ 3 30 _ (Built.init true 1 _ rfl)
        (by decide) rfl : Built (fun k => k + 1) ⟨[⟨3, 30, 4⟩], 1⟩)).chain⟩

/-- C34 (the code departs from the claim): on a 32-bit build, in `wrap32_table`
(reached from `init(2 ^ 25)` by inserts, see `wrap32_table_built`), of capacity
`2 ^ 25`, `liveCount` equals the number of buckets in use.  The insert of the
new key `23488103` succeeds, and afterwards capacity is `24159191` and
`liveCount` is `23488104`: `liveCount` is at most the capacity, but
`100 * (liveCount - 1)` is not below `70 * capacity` (the load is 97%), because
the new capacity `2 ^ 25 * 200 / 100` was computed modulo `2 ^ 32`. -/
theorem C34_load_bound_fails :
    hashtable_num_values wrap32_table = (live wrap32_table.buckets).length ∧
    ∃ t', hashtable_insert32 true wrap32_table 23488103 (23488103 + 2 ^ 25) 23488103 =
        .ret (0, t') ∧
      hashtable_num_buckets t' = 24159191 ∧
      hashtable_num_values t' = 23488104 ∧
      hashtable_num_values t' = (live t'.buckets).length ∧
      hashtable_num_values t' ≤ hashtable_num_buckets t' ∧
      ¬ (100 * (hashtable_num_values t' - 1) < 70 * hashtable_num_buckets t') := by
  refine ⟨?_, ?_⟩
  · rw [wrap32_table_live_length]
    rfl
  · obtain ⟨t', hins, h1, h2, h3⟩ := wrap32_table_insert
    have e1 : hashtable_num_buckets t' = 24159191 := h1
    have e2 : hashtable_num_values t' = 23488104 := h2
    refine ⟨t', hins, e1, e2, ?_, ?_, ?_⟩
    · rw [e2, h3]
    · rw [e1, e2]
      norm_num
    · rw [e1, e2]
      norm_num

/-- C35: for every table whose `liveCount` equals its number of nonzero-tag
buckets and every state `(i, j)` of the iteration in which `j` buckets in use
lie before index `i` (the start state `(0, 0)` is one): the step
`_hashtable_for_each_pair` returns.  Either `j` has reached `liveCount` and it
returns `0` with `i` and `j` unchanged, or it returns `1`, hands out the key and
value of a bucket in use at index `i1 - 1`, with `i ≤ i1 - 1 < capacity`, and
leaves the state `(i1, j + 1)`, again one in which `j + 1` buckets in use lie
before `i1`; no bucket at an index of `capacity` or more is read.  When
`liveCount` is `0`, whatever the capacity, the first step returns `0`. -/
theorem C35_iteration_in_bounds (t : Table) (hcount : t.num_values = (live t.buckets).length)
    (i j : Nat) (hj : j = (live (t.buckets.take i)).length) :
    ((t.num_values ≤ j ∧
        _hashtable_for_each_pair i j t.num_values t.buckets = .ret (0, i, j, none)) ∨
      (j < t.num_values ∧ ∃ i1 b,
        _hashtable_for_each_pair i j t.num_values t.buckets =
          .ret (1, i1, j + 1, some (b.key, b.value)) ∧
        i < i1 ∧ i1 ≤ t.buckets.length ∧ t.buckets[i1 - 1]? = some b ∧ b.hash ≠ 0 ∧
        j + 1 = (live (t.buckets.take i1)).length)) ∧
    (t.num_values = 0 →
      _hashtable_for_each_pair 0 0 t.num_values t.buckets = .ret (0, 0, 0, none)) := by
  have hsplit : ∀ n, (live t.buckets).length =
      (live (t.buckets.take n)).length + (live (t.buckets.drop n)).length := by
    intro n
    unfold live
    rw [← List.length_append, ← List.filter_append, List.take_append_drop]
  refine ⟨?_, ?_⟩
  · by_cases hstop : t.num_values ≤ j
    · left
      refine ⟨hstop, ?_⟩
      unfold _hashtable_for_each_pair
      rw [if_pos hstop]
    · right
      refine ⟨by omega, ?_⟩
      have hi := hsplit i
      cases hl : live (t.buckets.drop i) with
      | nil =>
        rw [hl] at hi
        simp only [List.length_nil] at hi
        omega
      | cons b tl =>
        obtain ⟨i1, h1, h2, h3, h4, h5⟩ :=
          for_each_scan_spec t.buckets (t.buckets.length + 1) i b tl hl (by omega)
        have hb : b ∈ live (t.buckets.drop i) := by rw [hl]; exact List.mem_cons_self _ _
        have hb' : b.hash ≠ 0 := (mem_live.1 hb).2
        refine ⟨i1, b, ?_, h3, h4, h5, hb', ?_⟩
        · unfold _hashtable_for_each_pair
          rw [if_neg hstop, h1]
        · have hi1 := hsplit i1
          rw [hl] at hi
          rw [h2] at hi1
          simp only [List.length_cons] at hi
          omega
  · intro h0
    unfold _hashtable_for_each_pair
    rw [if_pos (by omega)]

/-- A run of C35: the second step of the iteration over a table of capacity `4`
with entries in buckets `0` and `2`. -/
theorem C35_iteration_in_bounds_witness :
    ((2 : Nat) = (live [⟨8, 10, 8⟩, ⟨0, 0, 0⟩, ⟨6, 20, 6⟩, ⟨0, 0, 0⟩]).length ∧
      (1 : Nat) = (live (([⟨8, 10, 8⟩, ⟨0, 0, 0⟩, ⟨6, 20, 6⟩, ⟨0, 0, 0⟩] :
        List Bucket).take 1)).length) ∧
    (((2 : Nat) ≤ 1 ∧
        _hashtable_for_each_pair 1 1 2 [⟨8, 10, 8⟩, ⟨0, 0, 0⟩, ⟨6, 20, 6⟩, ⟨0, 0, 0⟩] =
          .ret (0, 1, 1, none)) ∨
      ((1 : Nat) < 2 ∧ ∃ i1 b,
        _hashtable_for_each_pair 1 1 2 [⟨8, 10, 8⟩, ⟨0, 0, 0⟩, ⟨6, 20, 6⟩, ⟨0, 0, 0⟩] =
          .ret (1, i1, 1 + 1, some (b.key, b.value)) ∧
        1 < i1 ∧ i1 ≤ ([⟨8, 10, 8⟩, ⟨0, 0, 0⟩, ⟨6, 20, 6⟩, ⟨0, 0, 0⟩] : List Bucket).length ∧
        ([⟨8, 10, 8⟩, ⟨0, 0, 0⟩, ⟨6, 20, 6⟩, ⟨0, 0, 0⟩] : List Bucket)[i1 - 1]? = some b ∧
        b.hash ≠ 0 ∧
        1 + 1 = (live (([⟨8, 10, 8⟩, ⟨0, 0, 0⟩, ⟨6, 20, 6⟩, ⟨0, 0, 0⟩] :
          List Bucket).take i1)).length)) ∧
    ((2 : Nat) = 0 →
      _hashtable_for_each_pair 0 0 2 [⟨8, 10, 8⟩, ⟨0, 0, 0⟩, ⟨6, 20, 6⟩, ⟨0, 0, 0⟩] =
        .ret (0, 0, 0, none)) :=
  ⟨⟨by decide, by decide⟩,
    C35_iteration_in_bounds ⟨[⟨8, 10, 8⟩, ⟨0, 0, 0⟩, ⟨6, 20, 6⟩, ⟨0, 0, 0⟩], 2⟩ (by decide) 1 1
      (by decide)⟩

/-- C36: for every table on which the growth test is false and whose
`liveCount` is below the largest `size_t`, and every insert that returns code
`0` (any key, value, nonzero hash, comparison and copy function): the probe
sequence from `hash % capacity` passes over `D` buckets in use and its `D`-th
bucket is empty; after the call that bucket holds the key as `copy_key` stored
it (the key itself with the default copy), the value and the hash as its tag;
every other bucket is as before; capacity is unchanged and `liveCount` is
larger by exactly `1`. -/
theorem C36_insert_frame (c : Bool) (t : Table) (k h v : Nat) (cmp : Nat → Nat → Int)
    (cpy : Nat → Nat → Nat × Int) (t' : Table)
    (hgrow : needs_resize t.buckets.length t.num_values = false)
    (hnv : t.num_values + 1 < 2 ^ 64)
    (hret : _hashtable_insert c t k h v cmp cpy = .ret (0, t')) :
    ∃ D old, D < t.buckets.length ∧
      (∀ d, d < D → occAt t.buckets (idx t.buckets.length (h % t.buckets.length) d)) ∧
      t.buckets[idx t.buckets.length (h % t.buckets.length) D]? = some old ∧ old.hash = 0 ∧
      t'.buckets[idx t.buckets.length (h % t.buckets.length) D]? =
        some ⟨(cpy old.key k).1, v, h⟩ ∧
      (∀ q, q ≠ idx t.buckets.length (h % t.buckets.length) D →
        t'.buckets[q]? = t.buckets[q]?) ∧
      hashtable_num_buckets t' = hashtable_num_buckets t ∧
      hashtable_num_values t' = hashtable_num_values t + 1 := by
  have hn : t.buckets.length ≠ 0 := needs_resize_false_length (by rw [hgrow]; decide)
  unfold _hashtable_insert at hret
  split at hret
  · cases hret
  · rw [if_neg (by rw [hgrow]; decide)] at hret
    obtain ⟨D, old, hD, ho, hold, hz, ht⟩ := insert_probe_success (by omega) hret
    have hp : idx t.buckets.length (h % t.buckets.length) D < t.buckets.length :=
      idx_lt (by omega) _ _
    refine ⟨D, old, hD, ho, hold, hz, ?_, ?_, ?_, ?_⟩
    · rw [ht]
      simp [hp]
    · intro q hq
      rw [ht]
      simp only
      rw [List.getElem?_set_ne (Ne.symm hq)]
    · rw [ht]
      simp [hashtable_num_buckets]
    · rw [ht]
      simp only [hashtable_num_values, SIZE_MOD]
      exact Nat.mod_eq_of_lt hnv

/-- A run of C36: capacity `8` holding keys `8` and `16` in buckets `0` and `1`;
the insert of key `24` under hash `24` passes over both and fills bucket `2`. -/
theorem C36_insert_frame_witness :
    (needs_resize (⟨[⟨8, 10, 8⟩, ⟨16, 20, 16⟩, ⟨0, 0, 0⟩, ⟨0, 0, 0⟩, ⟨0, 0, 0⟩, ⟨0, 0, 0⟩,
        ⟨0, 0, 0⟩, ⟨0, 0, 0⟩], 2⟩ : Table).buckets.length 2 = false ∧
      (2 : Nat) + 1 < 2 ^ 64 ∧
      _hashtable_insert true ⟨[⟨8, 10, 8⟩, ⟨16, 20, 16⟩, ⟨0, 0, 0⟩, ⟨0, 0, 0⟩, ⟨0, 0, 0⟩,
        ⟨0, 0, 0⟩, ⟨0, 0, 0⟩, ⟨0, 0, 0⟩], 2⟩ 24 24 30 hashtable_compare_keys
        hashtable_copy_key =
        .ret (0, ⟨[⟨8, 10, 8⟩, ⟨16, 20, 16⟩, ⟨24, 30, 24⟩, ⟨0, 0, 0⟩, ⟨0, 0, 0⟩, ⟨0, 0, 0⟩,
          ⟨0, 0, 0⟩, ⟨0, 0, 0⟩], 3⟩)) ∧
    ∃ D old, D < 8 ∧
      (∀ d, d < D → occAt [⟨8, 10, 8⟩, ⟨16, 20, 16⟩, ⟨0, 0, 0⟩, ⟨0, 0, 0⟩, ⟨0, 0, 0⟩,
        ⟨0, 0, 0⟩, ⟨0, 0, 0⟩, ⟨0, 0, 0⟩] (idx 8 (24 % 8) d)) ∧
      ([⟨8, 10, 8⟩, ⟨16, 20, 16⟩, ⟨0, 0, 0⟩, ⟨0, 0, 0⟩, ⟨0, 0, 0⟩, ⟨0, 0, 0⟩, ⟨0, 0, 0⟩,
        ⟨0, 0, 0⟩] : List Bucket)[idx 8 (24 % 8) D]? = some old ∧ old.hash = 0 ∧
      ([⟨8, 10, 8⟩, ⟨16, 20, 16⟩, ⟨24, 30, 24⟩, ⟨0, 0, 0⟩, ⟨0, 0, 0⟩, ⟨0, 0, 0⟩, ⟨0, 0, 0⟩,
        ⟨0, 0, 0⟩] : List Bucket)[idx 8 (24 % 8) D]? =
        some ⟨(hashtable_copy_key old.key 24).1, 30, 24⟩ ∧
      (∀ q, q ≠ idx 8 (24 % 8) D →
        ([⟨8, 10, 8⟩, ⟨16, 20, 16⟩, ⟨24, 30, 24⟩, ⟨0, 0, 0⟩, ⟨0, 0, 0⟩, ⟨0, 0, 0⟩, ⟨0, 0, 0⟩,
          ⟨0, 0, 0⟩] : List Bucket)[q]? =
        ([⟨8, 10, 8⟩, ⟨16, 20, 16⟩, ⟨0, 0, 0⟩, ⟨0, 0, 0⟩, ⟨0, 0, 0⟩, ⟨0, 0, 0⟩, ⟨0, 0, 0⟩,
          ⟨0, 0, 0⟩] : List Bucket)[q]?) ∧
      hashtable_num_buckets ⟨[⟨8, 10, 8⟩, ⟨16, 20, 16⟩, ⟨24, 30, 24⟩, ⟨0, 0, 0⟩, ⟨0, 0, 0⟩,
        ⟨0, 0, 0⟩, ⟨0, 0, 0⟩, ⟨0, 0, 0⟩], 3⟩ =
        hashtable_num_buckets ⟨[⟨8, 10, 8⟩, ⟨16, 20, 16⟩, ⟨0, 0, 0⟩, ⟨0, 0, 0⟩, ⟨0, 0, 0⟩,
          ⟨0, 0, 0⟩, ⟨0, 0, 0⟩, ⟨0, 0, 0⟩], 2⟩ ∧
      hashtable_num_values ⟨[⟨8, 10, 8⟩, ⟨16, 20, 16⟩, ⟨24, 30, 24⟩, ⟨0, 0, 0⟩, ⟨0, 0, 0⟩,
        ⟨0, 0, 0⟩, ⟨0, 0, 0⟩, ⟨0, 0, 0⟩], 3⟩ =
        hashtable_num_values ⟨[⟨8, 10, 8⟩, ⟨16, 20, 16⟩, ⟨0, 0, 0⟩, ⟨0, 0, 0⟩, ⟨0, 0, 0⟩,
          ⟨0, 0, 0⟩, ⟨0, 0, 0⟩, ⟨0, 0, 0⟩], 2⟩ + 1 :=
  ⟨⟨by decide, by decide, rfl⟩,
    C36_insert_frame true ⟨[⟨8, 10, 8⟩, ⟨16, 20, 16⟩, ⟨0, 0, 0⟩, ⟨0, 0, 0⟩, ⟨0, 0, 0⟩,
      ⟨0, 0, 0⟩, ⟨0, 0, 0⟩, ⟨0, 0, 0⟩], 2⟩ 24 24 30 hashtable_compare_keys hashtable_copy_key
      ⟨[⟨8, 10, 8⟩, ⟨16, 20, 16⟩, ⟨24, 30, 24⟩, ⟨0, 0, 0⟩, ⟨0, 0, 0⟩, ⟨0, 0, 0⟩, ⟨0, 0, 0⟩,
        ⟨0, 0, 0⟩], 3⟩ (by decide) (by decide) rfl⟩

end MunHashtable
